import Mathlib

/-! # Conslee: schedule evaluator, service registry, administrative facade, ensure-running,
reverse proxy handler, idle reaper and scheduler

A shallow embedding of `internal/proxy` (types.go, registry.go, http_handlers.go,
reverse_proxy.go, scheduler.go) and of the parts of `internal/config` these files use.

Conventions of the embedding
* Go `string` is `String`; helper functions of the Go standard library that the
  code calls (`strings.TrimSpace`, `strings.Split`, `strconv.Atoi`,
  `strings.ToLower`) are modelled on the character list of the string.
* Go `int` and `time.Duration` are `Int`.
* a Go `map[K]V` is a key-unique association list (`GoMap`); iteration order of a
  Go map is unspecified, the list order stands for one admissible order.
* `*ServiceState` is an address (`Nat`) into an explicit heap.
* `time.Now()`, `time.ParseDuration` and `url.Parse` are inputs of the model.
-/

namespace Proxy

/-! ## Go maps -/

/-- A Go map as an association list; `set` and `delete` keep the keys unique. -/
abbrev GoMap (κ : Type) (ν : Type) := List (κ × ν)

namespace GoMap

variable {κ ν : Type} [DecidableEq κ]

/-- The two-valued lookup `v, ok := m[k]`. -/
def get? : GoMap κ ν → κ → Option ν
  | [], _ => none
  | (k', v) :: rest, k => if k' = k then some v else get? rest k

/-- The builtin `delete(m, k)`. -/
def delete (m : GoMap κ ν) (k : κ) : GoMap κ ν :=
  m.filter (fun e => decide (e.1 ≠ k))

/-- The assignment `m[k] = v`. -/
def set (m : GoMap κ ν) (k : κ) (v : ν) : GoMap κ ν :=
  (k, v) :: delete m k

/-- The builtin `len(m)`. -/
def len (m : GoMap κ ν) : Nat := m.length

/-- The values met by `for _, v := range m`. -/
def values (m : GoMap κ ν) : List ν := m.map Prod.snd

/-- Keys are pairwise different. -/
def WF (m : GoMap κ ν) : Prop := (m.map Prod.fst).Nodup

end GoMap

/-! ## Standard-library string helpers -/

/-- The predicate `unicode.IsSpace`. -/
def isSpace (c : Char) : Bool :=
  c = '\t' || c = '\n' || c.toNat = 0x0B || c.toNat = 0x0C || c = '\r' || c = ' ' ||
  c.toNat = 0x85 || c.toNat = 0xA0 || c.toNat = 0x1680 ||
  (0x2000 ≤ c.toNat && c.toNat ≤ 0x200A) ||
  c.toNat = 0x2028 || c.toNat = 0x2029 || c.toNat = 0x202F || c.toNat = 0x205F ||
  c.toNat = 0x3000

/-- The function `strings.TrimSpace`: leading and trailing white space removed. -/
def TrimSpace (s : String) : String :=
  String.mk ((s.data.dropWhile isSpace).reverse.dropWhile isSpace).reverse

/-- Splitting a character list at every occurrence of `sep`. -/
def splitChars (sep : Char) : List Char → List (List Char)
  | [] => [[]]
  | c :: cs =>
    if c = sep then [] :: splitChars sep cs
    else
      match splitChars sep cs with
      | [] => [[c]]
      | p :: ps => (c :: p) :: ps

/-- The function `strings.Split` for a one-character separator. -/
def Split (s : String) (sep : Char) : List String :=
  (splitChars sep s.data).map String.mk

/-- The function `strconv.Atoi` (64-bit `int`): an optional sign, then one or more
decimal digits; `none` stands for a returned error (bad form or out of range). -/
def Atoi (s : String) : Option Int :=
  let body : Bool × List Char :=
    match s.data with
    | '-' :: r => (true, r)
    | '+' :: r => (false, r)
    | r => (false, r)
  if body.2.isEmpty || !(body.2.all Char.isDigit) then none
  else
    let n : Nat := body.2.foldl (fun a c => a * 10 + (c.toNat - 48)) 0
    let v : Int := if body.1 then -(n : Int) else (n : Int)
    if v < -(2 : Int) ^ 63 ∨ v > (2 : Int) ^ 63 - 1 then none else some v

/-- The rune map of `unicode.ToLower` as far as it can produce an ASCII letter:
ASCII capitals, U+0130 (to `i`) and U+212A (to `k`); every other rune has a
lower-case form outside ASCII or none and is kept. -/
def toLowerRune (c : Char) : Char :=
  if c.isUpper then c.toLower
  else if c.toNat = 0x130 then 'i'
  else if c.toNat = 0x212A then 'k'
  else c

/-- The function `strings.ToLower`. -/
def ToLower (s : String) : String := String.mk (s.data.map toLowerRune)

/-! ## Configuration types (internal/config/config.go) -/

/-- The struct `config.ScheduleConfig`. -/
structure ScheduleConfig where
  Days : List String
  Start : String
  Stop : String
  deriving DecidableEq, Repr

/-- The struct `config.ServiceConfig`; durations are nanosecond counts. -/
structure ServiceConfig where
  Name : String
  Host : String
  ContainerName : String
  Containers : List String
  TargetURL : String
  Mode : String
  Schedule : Option ScheduleConfig
  Disabled : Bool
  RawIdleTimeout : String
  IdleTimeout : Int
  RawStartupTimeout : String
  StartupTimeout : Int
  HealthPath : String
  deriving DecidableEq, Repr

/-! ## Schedule types (internal/proxy/types.go) -/

/-- The type `time.Weekday`. -/
inductive Weekday where
  | Sunday | Monday | Tuesday | Wednesday | Thursday | Friday | Saturday
  deriving DecidableEq, Repr

/-- A `time.Time` value through the accessors the code uses: `Weekday()`, `Hour()`
(0..23), `Minute()` (0..59), and the instant in nanoseconds used by `Sub`. -/
structure Time where
  Weekday : Weekday
  Hour : Nat
  Minute : Nat
  nanos : Int
  deriving DecidableEq, Repr

/-- The string type `ScheduleMode`. -/
abbrev ScheduleMode := String

def ModeOnDemand : ScheduleMode := "on_demand"
def ModeScheduleOnly : ScheduleMode := "schedule_only"
def ModeBoth : ScheduleMode := "both"

/-- The struct `ServiceSchedule`. -/
structure ServiceSchedule where
  Mode : ScheduleMode
  Days : GoMap Weekday Bool
  StartMinutes : Int
  StopMinutes : Int
  deriving DecidableEq, Repr

/-- A parsed `*url.URL`: the raw text and the `Host` field (host or host:port). -/
structure URL where
  raw : String
  Host : String
  deriving DecidableEq, Repr

/-- The struct `ServiceState`; the two pointer fields are owned by the state and
are embedded by value, `none` standing for `nil`. -/
structure ServiceState where
  Config : ServiceConfig
  Target : Option URL
  LastActivity : Time
  Schedule : Option ServiceSchedule
  deriving DecidableEq, Repr

/-- The function `parseHHMM`. -/
def parseHHMM (s : String) : Int :=
  if s = "" then 0
  else
    match Split s ':' with
    | [p0, p1] =>
      match Atoi p0, Atoi p1 with
      | some h, some m =>
        if h < 0 ∨ h > 23 ∨ m < 0 ∨ m > 59 then 0 else h * 60 + m
      | _, _ => 0
    | _ => 0

/-- The day switch inside the loop of `ParseSchedule`. -/
def addDay (days : GoMap Weekday Bool) (d : String) : GoMap Weekday Bool :=
  let l := ToLower d
  if l = "mon" then days.set Weekday.Monday true
  else if l = "tue" then days.set Weekday.Tuesday true
  else if l = "wed" then days.set Weekday.Wednesday true
  else if l = "thu" then days.set Weekday.Thursday true
  else if l = "fri" then days.set Weekday.Friday true
  else if l = "sat" then days.set Weekday.Saturday true
  else if l = "sun" then days.set Weekday.Sunday true
  else days

/-- The mode switch of `ParseSchedule`. -/
def modeOfString (mode : String) : ScheduleMode :=
  if mode = "schedule_only" then ModeScheduleOnly
  else if mode = "both" then ModeBoth
  else ModeOnDemand

/-- The function `ParseSchedule`. -/
def ParseSchedule (sc : Option ScheduleConfig) (mode : String) : Option ServiceSchedule :=
  match sc with
  | none => none
  | some sc =>
    some
      { Mode := modeOfString mode
        Days := sc.Days.foldl addDay []
        StartMinutes := parseHHMM sc.Start
        StopMinutes := parseHHMM sc.Stop }

/-- The day gate of `ShouldBeUp`: `len(sch.Days) > 0 && !sch.Days[now.Weekday()]`
is false. -/
def dayGateOpen (sch : ServiceSchedule) (now : Time) : Bool :=
  !(decide (sch.Days.len > 0) && !((sch.Days.get? now.Weekday).getD false))

/-- The method `(*ServiceState).ShouldBeUp`. -/
def ServiceState.ShouldBeUp (s : ServiceState) (now : Time) : Bool :=
  match s.Schedule with
  | none => false
  | some sch =>
    if decide (sch.Days.len > 0) && !((sch.Days.get? now.Weekday).getD false) then false
    else
      let mins : Int := (now.Hour : Int) * 60 + (now.Minute : Int)
      if sch.StartMinutes = sch.StopMinutes then true
      else if sch.StartMinutes < sch.StopMinutes then
        decide (mins ≥ sch.StartMinutes) && decide (mins < sch.StopMinutes)
      else decide (mins ≥ sch.StartMinutes) || decide (mins < sch.StopMinutes)

/-! ## Service registry (internal/proxy/registry.go) -/

/-- The struct `ServiceRegistry`: two indexes of `*ServiceState`. The mutex is not
modelled; every operation is one atomic step. -/
structure ServiceRegistry where
  byHost : GoMap String Nat
  byName : GoMap String Nat
  deriving DecidableEq, Repr

/-- The function `NewRegistry`. -/
def NewRegistry : ServiceRegistry := { byHost := [], byName := [] }

/-- The zero value of `ServiceState`, the content of a cell never allocated. -/
def ServiceState.zero : ServiceState :=
  { Config :=
      { Name := "", Host := "", ContainerName := "", Containers := [], TargetURL := "",
        Mode := "", Schedule := none, Disabled := false, RawIdleTimeout := "",
        IdleTimeout := 0, RawStartupTimeout := "", StartupTimeout := 0, HealthPath := "" }
    Target := none
    LastActivity := { Weekday := Weekday.Sunday, Hour := 0, Minute := 0, nanos := 0 }
    Schedule := none }

/-- The part of the struct `Conslee` the administrative facade works on: the
registry `reg`, and the heap that the `*ServiceState` values point into (`next` is
the first address not yet allocated). -/
structure Conslee where
  heap : Nat → ServiceState
  next : Nat
  reg : ServiceRegistry

/-- The state built by `New` for a configuration without services. -/
def Conslee.empty : Conslee :=
  { heap := fun _ => ServiceState.zero, next := 0, reg := NewRegistry }

/-- The allocation `st := &ServiceState{...}`: the new address and the new state. -/
def Conslee.alloc (c : Conslee) (st : ServiceState) : Nat × Conslee :=
  (c.next, { c with heap := Function.update c.heap c.next st, next := c.next + 1 })

/-- A write through a `*ServiceState`: the cell at `p` is replaced by `f` of it. -/
def Conslee.modify (c : Conslee) (p : Nat) (f : ServiceState → ServiceState) : Conslee :=
  { c with heap := Function.update c.heap p (f (c.heap p)) }

/-- The method `(*ServiceRegistry).Add`. -/
def Add (c : Conslee) (host : String) (s : Nat) : Conslee :=
  { c with
    reg :=
      { byHost := if host ≠ "" then c.reg.byHost.set host s else c.reg.byHost
        byName := c.reg.byName.set (c.heap s).Config.Name s } }

/-- The method `(*ServiceRegistry).UpdateHost`. -/
def UpdateHost (c : Conslee) (s : Nat) (newHost : String) : Conslee :=
  let byHost1 :=
    if (c.heap s).Config.Host ≠ "" then c.reg.byHost.delete (c.heap s).Config.Host
    else c.reg.byHost
  { heap := Function.update c.heap s
      { c.heap s with Config := { (c.heap s).Config with Host := newHost } }
    next := c.next
    reg :=
      { byHost := if newHost ≠ "" then byHost1.set newHost s else byHost1
        byName := c.reg.byName } }

/-- The method `(*ServiceRegistry).DelByName`. -/
def DelByName (c : Conslee) (name : String) : Conslee :=
  match c.reg.byName.get? name with
  | some s =>
    { c with
      reg :=
        { byHost := c.reg.byHost.delete (c.heap s).Config.Host
          byName := c.reg.byName.delete name } }
  | none => c

/-- The method `(*ServiceRegistry).GetByHost`; `none` is `ok == false`. -/
def GetByHost (c : Conslee) (host : String) : Option Nat := c.reg.byHost.get? host

/-- The method `(*ServiceRegistry).GetByName`; `none` is `ok == false`. -/
def GetByName (c : Conslee) (name : String) : Option Nat := c.reg.byName.get? name

/-- The method `(*ServiceRegistry).All`: the values of `byName`. -/
def All (c : Conslee) : List Nat := c.reg.byName.values

/-- The body of the outer loop of `FindContainerConflict` for one service that is
not excluded: the first listed container found in `set`, else the legacy
`ContainerName` when it is in `set`. -/
def conflictIn (set : List String) (svc : ServiceState) : Option (String × String) :=
  match svc.Config.Containers.find? (fun ex => decide (ex ∈ set)) with
  | some ex => some (svc.Config.Name, ex)
  | none =>
    if svc.Config.ContainerName ≠ "" ∧ svc.Config.ContainerName ∈ set then
      some (svc.Config.Name, svc.Config.ContainerName)
    else none

/-- The method `(*ServiceRegistry).FindContainerConflict`. -/
def FindContainerConflict (c : Conslee) (containers : List String)
    (excludeService : String) : String × String :=
  if containers.length = 0 then ("", "")
  else
    let set := (containers.map TrimSpace).filter (fun n => decide (n ≠ ""))
    match (All c).findSome? (fun p =>
        if (c.heap p).Config.Name = excludeService then none
        else conflictIn set (c.heap p)) with
    | some r => r
    | none => ("", "")

/-! ## Administrative facade (internal/proxy/http_handlers.go) -/

/-- The anonymous struct of `CreateServiceRequest.Schedule`. -/
structure ScheduleRequest where
  Days : List String
  Start : String
  Stop : String
  deriving DecidableEq, Repr

/-- The struct `CreateServiceRequest`. -/
structure CreateServiceRequest where
  Name : String
  Host : String
  Containers : List String
  TargetURL : String
  Mode : String
  IdleTimeout : String
  StartupTimeout : String
  HealthPath : String
  Schedule : Option ScheduleRequest
  deriving DecidableEq, Repr

/-- The anonymous struct of `UpdateServiceRequest.Schedule`; `none` is a nil pointer. -/
structure ScheduleUpdate where
  Days : Option (List String)
  Start : Option String
  Stop : Option String
  deriving DecidableEq, Repr

/-- The struct `UpdateServiceRequest`; `none` is a nil pointer (field absent). -/
structure UpdateServiceRequest where
  Mode : Option String
  IdleTimeout : Option String
  Schedule : Option ScheduleUpdate
  Containers : Option (List String)
  TargetURL : Option String
  HealthPath : Option String
  StartupTimeout : Option String
  Host : Option String
  Enabled : Option Bool
  deriving DecidableEq, Repr

/-- The two standard-library parsers the facade calls, taken as inputs:
`time.ParseDuration` and `url.Parse`; `none` is a returned error. -/
structure Lib where
  ParseDuration : String → Option Int
  urlParse : String → Option URL

/-- The start of `HandleCreateService`: `mode := strings.TrimSpace(req.Mode)`,
replaced by `on_demand` when empty. -/
def createMode (req : CreateServiceRequest) : String :=
  if TrimSpace req.Mode = "" then "on_demand" else TrimSpace req.Mode

/-- The `idleRaw` of `HandleCreateService`: `req.IdleTimeout`, or `0s` when empty. -/
def createIdleRaw (req : CreateServiceRequest) : String :=
  if req.IdleTimeout = "" then "0s" else req.IdleTimeout

/-- The `parsedTarget` block of `HandleCreateService`: `none` is the 400 answer to a
target URL that does not parse, `some none` a nil target. -/
def createTarget (lib : Lib) (req : CreateServiceRequest) : Option (Option URL) :=
  if req.TargetURL ≠ "" then (lib.urlParse req.TargetURL).map some else some none

/-- The `cfgSvc` literal of `HandleCreateService`. -/
def createConfig (req : CreateServiceRequest) (idle startup : Int) : ServiceConfig :=
  { Name := req.Name
    Host := TrimSpace req.Host
    ContainerName := ""
    Containers := req.Containers
    TargetURL := req.TargetURL
    Mode := createMode req
    Schedule := req.Schedule.map (fun q => { Days := q.Days, Start := q.Start, Stop := q.Stop })
    Disabled := false
    RawIdleTimeout := createIdleRaw req
    IdleTimeout := idle
    RawStartupTimeout := req.StartupTimeout
    StartupTimeout := startup
    HealthPath := req.HealthPath }

/-- The `st` literal of `HandleCreateService`. -/
def createState (req : CreateServiceRequest) (idle startup : Int) (parsedTarget : Option URL)
    (now : Time) : ServiceState :=
  { Config := createConfig req idle startup
    Target := parsedTarget
    LastActivity := now
    Schedule := ParseSchedule (createConfig req idle startup).Schedule
      (createConfig req idle startup).Mode }

/-- The handler `HandleCreateService`: new state and HTTP status. `body` is the
decoded JSON body, `none` when decoding fails. Saving the configuration only logs. -/
def HandleCreateService (lib : Lib) (now : Time) (c : Conslee)
    (body : Option CreateServiceRequest) : Conslee × Nat :=
  match body with
  | none => (c, 400)
  | some req =>
    let mode := createMode req
    let host := TrimSpace req.Host
    if req.Name = "" then (c, 400)
    else if mode ≠ "schedule_only" ∧ host = "" then (c, 400)
    else if mode ≠ "schedule_only" ∧ req.TargetURL = "" then (c, 400)
    else if (GetByName c req.Name).isSome then (c, 409)
    else if host ≠ "" ∧ (GetByHost c host).isSome then (c, 409)
    else if (FindContainerConflict c req.Containers "").1 ≠ "" then (c, 409)
    else
      match lib.ParseDuration (createIdleRaw req) with
      | none => (c, 400)
      | some idle =>
        match lib.ParseDuration req.StartupTimeout with
        | none => (c, 400)
        | some startup =>
          match createTarget lib req with
          | none => (c, 400)
          | some parsedTarget =>
            let st := createState req idle startup parsedTarget now
            let a := c.alloc st
            (Add a.2 st.Config.Host a.1, 201)

/-- The handler `HandleDeleteService`; `name` is the service name taken from the
request path. -/
def HandleDeleteService (c : Conslee) (name : String) : Conslee × Nat :=
  if name = "" then (c, 400)
  else if (GetByName c name).isNone then (c, 404)
  else (DelByName c name, 204)

/-- The mode block of `HandleUpdateService`: `desiredMode` and `modeChanged`, or
`none` for the 400 answer to an invalid mode. -/
def updDesiredMode (cur : String) (m : Option String) : Option (String × Bool) :=
  match m with
  | none => some (cur, false)
  | some v =>
    if v = "" then some (cur, false)
    else if v = "on_demand" ∨ v = "schedule_only" ∨ v = "both" then some (v, true)
    else none

/-- The HOST block of `HandleUpdateService`; an error carries the status. -/
def updHost (c : Conslee) (svc : Nat) (desiredMode : String) (h : Option String) :
    Except Nat Conslee :=
  match h with
  | none => .ok c
  | some raw =>
    let newHost := TrimSpace raw
    if desiredMode ≠ "schedule_only" ∧ newHost = "" then .error 400
    else if newHost ≠ (c.heap svc).Config.Host then
      let used : Bool :=
        match GetByHost c newHost with
        | some other => decide (other ≠ svc)
        | none => false
      if newHost ≠ "" ∧ used = true then .error 409
      else .ok (UpdateHost c svc newHost)
    else .ok c

/-- The `Enabled` block of `HandleUpdateService`. -/
def updEnabled (c : Conslee) (svc : Nat) (now : Time) (e : Option Bool) : Conslee :=
  match e with
  | none => c
  | some en =>
    let previouslyDisabled := (c.heap svc).Config.Disabled
    let c1 := c.modify svc (fun s => { s with Config := { s.Config with Disabled := !en } })
    if !(c1.heap svc).Config.Disabled && previouslyDisabled then
      c1.modify svc (fun s => { s with LastActivity := now })
    else c1

/-- The `modeChanged` block of `HandleUpdateService`. -/
def updMode (c : Conslee) (svc : Nat) (modeChanged : Bool) (desiredMode : String) : Conslee :=
  if modeChanged then
    c.modify svc (fun s =>
      { s with
        Config := { s.Config with Mode := desiredMode }
        Schedule := s.Schedule.map (fun sch => { sch with Mode := modeOfString desiredMode }) })
  else c

/-- The IDLE TIMEOUT block of `HandleUpdateService`. -/
def updIdleTimeout (lib : Lib) (c : Conslee) (svc : Nat) (v : Option String) :
    Except Nat Conslee :=
  match v with
  | none => .ok c
  | some raw =>
    if raw = "" then .ok c
    else
      match lib.ParseDuration raw with
      | none => .error 400
      | some d =>
        .ok (c.modify svc (fun s =>
          { s with Config := { s.Config with IdleTimeout := d, RawIdleTimeout := raw } }))

/-- The SCHEDULE block of `HandleUpdateService`. -/
def updSchedule (c : Conslee) (svc : Nat) (q : Option ScheduleUpdate) : Conslee :=
  match q with
  | none => c
  | some u =>
    c.modify svc (fun s =>
      let sc0 : ScheduleConfig := s.Config.Schedule.getD { Days := [], Start := "", Stop := "" }
      let sc : ScheduleConfig :=
        { Days := u.Days.getD sc0.Days
          Start := u.Start.getD sc0.Start
          Stop := u.Stop.getD sc0.Stop }
      { s with
        Config := { s.Config with Schedule := some sc }
        Schedule := ParseSchedule (some sc) s.Config.Mode })

/-- The CONTAINERS block of `HandleUpdateService`. -/
def updContainers (c : Conslee) (svc : Nat) (v : Option (List String)) : Except Nat Conslee :=
  match v with
  | none => .ok c
  | some newContainers =>
    if (FindContainerConflict c newContainers (c.heap svc).Config.Name).1 ≠ "" then .error 409
    else .ok (c.modify svc (fun s => { s with Config := { s.Config with Containers := newContainers } }))

/-- The TARGET URL block of `HandleUpdateService`. -/
def updTargetURL (lib : Lib) (c : Conslee) (svc : Nat) (v : Option String) :
    Except Nat Conslee :=
  match v with
  | none => .ok c
  | some raw =>
    if raw = "" then .ok c
    else
      match lib.urlParse raw with
      | none => .error 400
      | some u =>
        .ok (c.modify svc (fun s =>
          { s with Config := { s.Config with TargetURL := raw }, Target := some u }))

/-- The HEALTH PATH block of `HandleUpdateService`. -/
def updHealthPath (c : Conslee) (svc : Nat) (v : Option String) : Conslee :=
  match v with
  | none => c
  | some hp => c.modify svc (fun s => { s with Config := { s.Config with HealthPath := hp } })

/-- The STARTUP TIMEOUT block of `HandleUpdateService`. -/
def updStartupTimeout (lib : Lib) (c : Conslee) (svc : Nat) (v : Option String) :
    Except Nat Conslee :=
  match v with
  | none => .ok c
  | some raw =>
    if raw = "" then .ok c
    else
      match lib.ParseDuration raw with
      | none => .error 400
      | some d =>
        .ok (c.modify svc (fun s =>
          { s with Config := { s.Config with StartupTimeout := d, RawStartupTimeout := raw } }))

/-- The handler `HandleUpdateService`: new state and HTTP status. `name` is the
service name taken from the request path, `body` the decoded JSON body (`none`
when decoding fails). A block that answers with an error leaves the writes of the
blocks before it in place. -/
def HandleUpdateService (lib : Lib) (now : Time) (c : Conslee) (name : String)
    (body : Option UpdateServiceRequest) : Conslee × Nat :=
  if name = "" then (c, 400)
  else
    match GetByName c name with
    | none => (c, 404)
    | some svc =>
      match body with
      | none => (c, 400)
      | some req =>
        match updDesiredMode (c.heap svc).Config.Mode req.Mode with
        | none => (c, 400)
        | some (desiredMode, modeChanged) =>
          match updHost c svc desiredMode req.Host with
          | .error st => (c, st)
          | .ok c1 =>
            let c2 := updEnabled c1 svc now req.Enabled
            let c3 := updMode c2 svc modeChanged desiredMode
            match updIdleTimeout lib c3 svc req.IdleTimeout with
            | .error st => (c3, st)
            | .ok c4 =>
              let c5 := updSchedule c4 svc req.Schedule
              match updContainers c5 svc req.Containers with
              | .error st => (c5, st)
              | .ok c6 =>
                match updTargetURL lib c6 svc req.TargetURL with
                | .error st => (c6, st)
                | .ok c7 =>
                  let c8 := updHealthPath c7 svc req.HealthPath
                  match updStartupTimeout lib c8 svc req.StartupTimeout with
                  | .error st => (c8, st)
                  | .ok c9 => (c9, 204)

/-- Registry states reachable from the empty registry through the facade
operations create_service, update_service and delete_service, for arbitrary
requests, clock readings and parser results, when the requests are handled one at
a time: every constructor is a whole handler run, so no two runs overlap. The runs
in which requests overlap are those of `Interleaved` below. -/
inductive Reachable : Conslee → Prop
  | init : Reachable Conslee.empty
  | create (lib : Lib) (now : Time) (c : Conslee) (body : Option CreateServiceRequest) :
      Reachable c → Reachable (HandleCreateService lib now c body).1
  | update (lib : Lib) (now : Time) (c : Conslee) (name : String)
      (body : Option UpdateServiceRequest) :
      Reachable c → Reachable (HandleUpdateService lib now c name body).1
  | delete (c : Conslee) (name : String) :
      Reachable c → Reachable (HandleDeleteService c name).1

/-- The part of `HandleCreateService` that runs before `c.reg.Add`: the checks, which
read the registry through `GetByName`, `GetByHost` and `FindContainerConflict` (each
takes and releases the read lock), the parsers, and the construction of `st`. The
result is the state `st` the handler goes on to add, or the status of its error
answer. -/
def createChecked (lib : Lib) (now : Time) (c : Conslee) (body : Option CreateServiceRequest) :
    Except Nat ServiceState :=
  match body with
  | none => .error 400
  | some req =>
    let mode := createMode req
    let host := TrimSpace req.Host
    if req.Name = "" then .error 400
    else if mode ≠ "schedule_only" ∧ host = "" then .error 400
    else if mode ≠ "schedule_only" ∧ req.TargetURL = "" then .error 400
    else if (GetByName c req.Name).isSome then .error 409
    else if host ≠ "" ∧ (GetByHost c host).isSome then .error 409
    else if (FindContainerConflict c req.Containers "").1 ≠ "" then .error 409
    else
      match lib.ParseDuration (createIdleRaw req) with
      | none => .error 400
      | some idle =>
        match lib.ParseDuration req.StartupTimeout with
        | none => .error 400
        | some startup =>
          match createTarget lib req with
          | none => .error 400
          | some parsedTarget => .ok (createState req idle startup parsedTarget now)

/-- The rest of `HandleCreateService`: the state `st` gets its address and
`c.reg.Add(cfgSvc.Host, st)` runs under the write lock, on the registry as it is at
that moment. -/
def createCommit (c : Conslee) (st : ServiceState) : Conslee :=
  Add (c.alloc st).2 st.Config.Host (c.alloc st).1

/-- Registry states reachable when create requests overlap, together with the
states `st` of the create requests in flight (checked, not yet added). The handlers
hold no lock across their checks and their write, and net/http runs every request
on its own goroutine, so between the checks of one create request and its `Add`
any other request may run. `checked` is the first part of a create request,
`added` the second part of a request in flight; update and delete requests are
taken as single steps here. Every state of this relation is a state the program
can reach; the relation is used to exhibit such states, not to bound them. -/
inductive Interleaved : Conslee → List ServiceState → Prop
  | init : Interleaved Conslee.empty []
  | checked (lib : Lib) (now : Time) (c : Conslee) (flying : List ServiceState)
      (body : Option CreateServiceRequest) (st : ServiceState) :
      Interleaved c flying → createChecked lib now c body = .ok st →
      Interleaved c (st :: flying)
  | added (c : Conslee) (before after : List ServiceState) (st : ServiceState) :
      Interleaved c (before ++ st :: after) →
      Interleaved (createCommit c st) (before ++ after)
  | update (lib : Lib) (now : Time) (c : Conslee) (flying : List ServiceState) (name : String)
      (body : Option UpdateServiceRequest) :
      Interleaved c flying → Interleaved (HandleUpdateService lib now c name body).1 flying
  | delete (c : Conslee) (flying : List ServiceState) (name : String) :
      Interleaved c flying → Interleaved (HandleDeleteService c name).1 flying

/-- A service state is stored in the registry: some key of `byName` or of `byHost`
maps to it. -/
def Stored (c : Conslee) (p : Nat) : Prop :=
  p ∈ c.reg.byName.values ∨ p ∈ c.reg.byHost.values

/-- The lookup invariant of the registry: every stored service is what `GetByName`
returns for its name and, when its host is not empty, what `GetByHost` returns for
its host. -/
def LookupInv (c : Conslee) : Prop :=
  ∀ p, Stored c p →
    GetByName c (c.heap p).Config.Name = some p ∧
    ((c.heap p).Config.Host ≠ "" → GetByHost c (c.heap p).Config.Host = some p)

/-! ## Ensure-running (internal/proxy/reverse_proxy.go, healthcheck.go) -/

/-- An error value returned by the container runtime or by a readiness probe. -/
abbrev Err := String

/-- The container runtime and the network as seen by `ensureRunning`: the interface
methods `Inspect` and `Start` of `ContainerRuntime`, the function `waitTCP` and the
polling loop of `waitHTTP`. Each takes the state of the outside world and returns
the next one; `none` in the last three is a nil error. -/
structure Runtime (σ : Type) where
  Inspect : σ → String → σ × Except Err Bool
  Start : σ → String → σ × Option Err
  waitTCP : σ → String → Int → σ × Option Err
  pollHTTP : σ → URL → String → Int → σ × Option Err

/-- The function `waitHTTP`: an empty path succeeds at once, otherwise the
health URL is polled. -/
def waitHTTP {σ : Type} (rt : Runtime σ) (w : σ) (u : URL) (path : String) (timeout : Int) :
    σ × Option Err :=
  if path = "" then (w, none) else rt.pollHTTP w u path timeout

/-- A call made by `ensureRunning`, with the answer it got. -/
inductive Call where
  | Inspect (name : String) (res : Except Err Bool)
  | Start (name : String) (res : Option Err)
  | WaitTCP (hostPort : String) (timeout : Int) (res : Option Err)
  | WaitHTTP (u : URL) (path : String) (timeout : Int) (res : Option Err)

/-- The errors `ensureRunning` returns: the three `fmt.Errorf` wrappers and a probe
error passed on as it is. -/
inductive EnsureError where
  | noContainers (service : String)
  | inspect (name : String) (err : Err)
  | start (name : String) (err : Err)
  | probe (err : Err)
  deriving DecidableEq, Repr

/-- The outcome of a run: the outside world afterwards, the calls made in order,
and the returned error (`none` is nil). -/
structure Run (σ : Type) (ρ : Type) where
  world : σ
  calls : List Call
  result : ρ

/-- The container list `ensureRunning` works on: `Containers`, or the legacy
`ContainerName` alone when `Containers` is empty and it is set. -/
def resolveNames (cfg : ServiceConfig) : List String :=
  if cfg.Containers.length = 0 ∧ cfg.ContainerName ≠ "" then [cfg.ContainerName]
  else cfg.Containers

/-- The `for _, name := range names` loop of `ensureRunning`; the result is the
error returned from inside the loop, or the final value of `needWait`. -/
def startLoop {σ : Type} (rt : Runtime σ) :
    σ → List String → Bool → Run σ (Except EnsureError Bool)
  | w, [], needWait => { world := w, calls := [], result := .ok needWait }
  | w, name :: rest, needWait =>
    match rt.Inspect w name with
    | (w1, .error e) =>
      { world := w1, calls := [Call.Inspect name (.error e)],
        result := .error (EnsureError.inspect name e) }
    | (w1, .ok true) =>
      let r := startLoop rt w1 rest needWait
      { r with calls := Call.Inspect name (.ok true) :: r.calls }
    | (w1, .ok false) =>
      match rt.Start w1 name with
      | (w2, some e) =>
        { world := w2, calls := [Call.Inspect name (.ok false), Call.Start name (some e)],
          result := .error (EnsureError.start name e) }
      | (w2, none) =>
        let r := startLoop rt w2 rest true
        { r with calls := Call.Inspect name (.ok false) :: Call.Start name none :: r.calls }

/-- The readiness part of `ensureRunning`, entered when `needWait` is true. -/
def waitReady {σ : Type} (rt : Runtime σ) (w : σ) (svc : ServiceState) (timeout : Int) :
    Run σ (Option EnsureError) :=
  match svc.Target with
  | none => { world := w, calls := [], result := none }
  | some u =>
    if u.Host = "" then { world := w, calls := [], result := none }
    else
      match rt.waitTCP w u.Host timeout with
      | (w1, some e) =>
        { world := w1, calls := [Call.WaitTCP u.Host timeout (some e)],
          result := some (EnsureError.probe e) }
      | (w1, none) =>
        match waitHTTP rt w1 u svc.Config.HealthPath timeout with
        | (w2, some e) =>
          { world := w2
            calls := [Call.WaitTCP u.Host timeout none,
              Call.WaitHTTP u svc.Config.HealthPath timeout (some e)]
            result := some (EnsureError.probe e) }
        | (w2, none) =>
          { world := w2
            calls := [Call.WaitTCP u.Host timeout none,
              Call.WaitHTTP u svc.Config.HealthPath timeout none]
            result := none }

/-- The timeout `ensureRunning` uses: `StartupTimeout`, or 30 s when that is not
positive. -/
def startupTimeout (cfg : ServiceConfig) : Int :=
  if cfg.StartupTimeout ≤ 0 then 30 * 1000000000 else cfg.StartupTimeout

/-- The function `ensureRunning`. -/
def ensureRunning {σ : Type} (rt : Runtime σ) (w : σ) (svc : ServiceState) :
    Run σ (Option EnsureError) :=
  let names := resolveNames svc.Config
  if names.length = 0 then
    { world := w, calls := [], result := some (EnsureError.noContainers svc.Config.Name) }
  else
    let timeout := startupTimeout svc.Config
    let r := startLoop rt w names false
    match r.result with
    | .error e => { world := r.world, calls := r.calls, result := some e }
    | .ok needWait =>
      if !needWait then { world := r.world, calls := r.calls, result := none }
      else
        let p := waitReady rt r.world svc timeout
        { world := p.world, calls := r.calls ++ p.calls, result := p.result }

/-! ## Reading a run of `ensureRunning` -/

/-- The call is an `Inspect`. -/
def Call.isInspect : Call → Bool
  | .Inspect _ _ => true
  | _ => false

/-- The call is a readiness probe (`waitTCP` or `waitHTTP`). -/
def Call.isProbe : Call → Bool
  | .WaitTCP _ _ _ => true
  | .WaitHTTP _ _ _ _ => true
  | _ => false

/-- The call is an inspect that reported the container as not running. -/
def Call.reportsStopped : Call → Bool
  | .Inspect _ (.ok false) => true
  | _ => false

/-- The error `ensureRunning` returns for a call that answered with an error;
`none` for a call that succeeded. -/
def Call.error? : Call → Option EnsureError
  | .Inspect n (.error e) => some (EnsureError.inspect n e)
  | .Start n (some e) => some (EnsureError.start n e)
  | .WaitTCP _ _ (some e) => some (EnsureError.probe e)
  | .WaitHTTP _ _ _ (some e) => some (EnsureError.probe e)
  | _ => none

/-- The call answered with an error. -/
def Call.failed (c : Call) : Bool := c.error?.isSome

/-- The container name of an `Inspect` call. -/
def Call.inspectedName? : Call → Option String
  | .Inspect n _ => some n
  | _ => none

/-- The container names inspected by a run, in the order of the calls. -/
def inspectedNames (calls : List Call) : List String :=
  calls.filterMap Call.inspectedName?

/-- Which call may directly follow which: after an inspect that reports not
running only the start of the same container; after an inspect that reports
running, or a successful start, the next inspect or `waitTCP`; after a successful
`waitTCP` only `waitHTTP`; after a failed call and after `waitHTTP` nothing. -/
def allowedNext : Call → Call → Bool
  | .Inspect n (.ok false), .Start m _ => decide (n = m)
  | .Inspect _ (.ok true), .Inspect _ _ => true
  | .Inspect _ (.ok true), .WaitTCP _ _ _ => true
  | .Start _ none, .Inspect _ _ => true
  | .Start _ none, .WaitTCP _ _ _ => true
  | .WaitTCP _ _ none, .WaitHTTP _ _ _ _ => true
  | _, _ => false

/-- What the loop of `ensureRunning` guarantees about its calls and result. -/
structure LoopFacts (names : List String) (b : Bool) (calls : List Call)
    (result : Except EnsureError Bool) : Prop where
  order : inspectedNames calls <+: names
  chain : List.Chain' (fun x y => allowedNext x y = true) calls
  head : ∀ c, calls.head? = some c → c.isInspect = true
  noProbe : ∀ c ∈ calls, c.isProbe = false
  failure : ∀ c ∈ calls, ∀ e, c.error? = some e → result = .error e
  errorHasCall : ∀ e, result = .error e → ∃ c ∈ calls, c.error? = some e
  okClean : ∀ b', result = .ok b' → ∀ c ∈ calls, c.error? = none
  okAll : ∀ b', result = .ok b' → inspectedNames calls = names
  okWait : ∀ b', result = .ok b' → (b' = true ↔ (b = true ∨ ∃ n, Call.Start n none ∈ calls))
  okLast : ∀ b', result = .ok b' → ∀ c, calls.getLast? = some c →
    ∀ hp t r, allowedNext c (Call.WaitTCP hp t r) = true
  lastStarted : ∀ c, calls.getLast? = some c → c.reportsStopped = false

/-- What a whole run of `ensureRunning` guarantees about its calls and result. -/
structure RunFacts (svc : ServiceState) (calls : List Call) (result : Option EnsureError) :
    Prop where
  order : inspectedNames calls <+: resolveNames svc.Config
  chain : List.Chain' (fun x y => allowedNext x y = true) calls
  head : ∀ c, calls.head? = some c → c.isInspect = true
  failure : ∀ c ∈ calls, c.failed = true → result = c.error?
  okIff : result = none ↔ resolveNames svc.Config ≠ [] ∧ ∀ c ∈ calls, c.failed = false
  okAll : result = none → inspectedNames calls = resolveNames svc.Config
  probeOnly : ∀ c ∈ calls, c.isProbe = true →
    (∃ n, Call.Start n none ∈ calls) ∧
    ∃ u, svc.Target = some u ∧ u.Host ≠ "" ∧
      ((∃ r, c = Call.WaitTCP u.Host (startupTimeout svc.Config) r) ∨
       (∃ r, c = Call.WaitHTTP u svc.Config.HealthPath (startupTimeout svc.Config) r))
  probeDue : ∀ u, svc.Target = some u → u.Host ≠ "" → (∃ n, Call.Start n none ∈ calls) →
    (∀ c ∈ calls, c.isProbe = false → c.failed = false) →
    ∃ r, Call.WaitTCP u.Host (startupTimeout svc.Config) r ∈ calls ∧
      (r = none →
        ∃ r2, Call.WaitHTTP u svc.Config.HealthPath (startupTimeout svc.Config) r2 ∈ calls)
  lastStarted : ∀ c, calls.getLast? = some c → c.reportsStopped = false

/-- The call was really made: asked in world `w`, the runtime (for `WaitHTTP` the
function `waitHTTP`) gives the recorded answer and leaves world `w1`. -/
def Call.answeredBy {σ : Type} (rt : Runtime σ) (w : σ) (c : Call) (w1 : σ) : Prop :=
  match c with
  | .Inspect n res => rt.Inspect w n = (w1, res)
  | .Start n res => rt.Start w n = (w1, res)
  | .WaitTCP hp t res => rt.waitTCP w hp t = (w1, res)
  | .WaitHTTP u path t res => waitHTTP rt w u path t = (w1, res)

/-- The calls are exactly what the runtime was asked, one after the other: starting
in world `w`, every call got the answer of the runtime in the world the call before
it left, and the last call leaves world `w1`. -/
def Replays {σ : Type} (rt : Runtime σ) : σ → List Call → σ → Prop
  | w, [], w1 => w1 = w
  | w, c :: cs, w1 => ∃ w2, c.answeredBy rt w w2 ∧ Replays rt w2 cs w1

/-- A sample runtime: the outside world is the list of running
containers; `Inspect` reports membership, `Start` adds the container, and both
probes succeed. -/
def sampleRuntime : Runtime (List String) :=
  { Inspect := fun w n => (w, .ok (decide (n ∈ w)))
    Start := fun w n => (n :: w, none)
    waitTCP := fun w _ _ => (w, none)
    pollHTTP := fun w _ _ _ => (w, none) }

/-- The service `app` of the cold-wake scenario: one container `app-c`, target
`http://127.0.0.1:9000`, startup timeout 10 s, health path `/healthz`. -/
def appService : ServiceState :=
  { ServiceState.zero with
    Config :=
      { ServiceState.zero.Config with
        Name := "app", Host := "app.local", Containers := ["app-c"]
        TargetURL := "http://127.0.0.1:9000", Mode := "on_demand"
        StartupTimeout := 10000000000, HealthPath := "/healthz" }
    Target := some { raw := "http://127.0.0.1:9000", Host := "127.0.0.1:9000" } }

/-- The consistency of the two indexes, stated on the registry, the allocation
bound, and the name and host of the service at each address. -/
structure IndexInv (reg : ServiceRegistry) (next : Nat) (nameOf hostOf : Nat → String) :
    Prop where
  wfName : reg.byName.WF
  wfHost : reg.byHost.WF
  nameKey : ∀ k p, reg.byName.get? k = some p → p < next ∧ nameOf p = k
  hostKey : ∀ h p, reg.byHost.get? h = some p →
    h ≠ "" ∧ hostOf p = h ∧ reg.byName.get? (nameOf p) = some p
  hostOfName : ∀ k p, reg.byName.get? k = some p → hostOf p ≠ "" →
    reg.byHost.get? (hostOf p) = some p

/-- The registry invariant of a state. -/
def RegInv (c : Conslee) : Prop :=
  IndexInv c.reg c.next (fun p => (c.heap p).Config.Name) (fun p => (c.heap p).Config.Host)

/-! ## HTTP requests and headers (net/http, net/textproto) -/

/-- The predicate `validHeaderFieldByte` of net/textproto: the token characters of
RFC 7230 (letters, digits and `!#$%&'*+-.^_|~` together with the grave accent). -/
def validHeaderFieldByte (c : Char) : Bool :=
  c.isAlphanum || c = '!' || c = '#' || c = '$' || c = '%' || c = '&' || c.toNat = 39 ||
  c = '*' || c = '+' || c = '-' || c = '.' || c = '^' || c = '_' || c.toNat = 96 ||
  c = '|' || c = '~'

/-- The rewriting loop of `canonicalMIMEHeaderKey`: upper case at the start and
after each dash, lower case elsewhere. -/
def canonChars : Bool → List Char → List Char
  | _, [] => []
  | upper, c :: cs =>
    let d : Char :=
      if upper && c.isLower then c.toUpper
      else if !upper && c.isUpper then c.toLower
      else c
    d :: canonChars (decide (d = '-')) cs

/-- The function `textproto.CanonicalMIMEHeaderKey`: a key with a character that is
not a token character is returned as it is. -/
def CanonicalMIMEHeaderKey (s : String) : String :=
  if s.data.all validHeaderFieldByte then String.mk (canonChars true s.data) else s

/-- The type `http.Header`, a `map[string][]string`. -/
abbrev Header := GoMap String (List String)

/-- The method `Header.Get`: the first value under the canonical key, or the empty
string. -/
def Header.Get (h : Header) (key : String) : String :=
  match h.get? (CanonicalMIMEHeaderKey key) with
  | some (v :: _) => v
  | _ => ""

/-- The method `Header.Set`: the canonical key gets the single value. -/
def Header.Set (h : Header) (key : String) (value : String) : Header :=
  GoMap.set h (CanonicalMIMEHeaderKey key) [value]

/-- The fields of `*http.Request` the proxy reads or writes: `Host`, `URL.Path`,
`RemoteAddr`, whether `TLS` is not nil, and `Header`. -/
structure Request where
  Host : String
  Path : String
  RemoteAddr : String
  TLS : Bool
  Header : Header
  deriving DecidableEq, Repr

/-- The header constant `probeAllowWakeHeader`. -/
def probeAllowWakeHeader : String := "X-Conslee-Probe-Allow-Wake"

/-- The header constant `probeSignatureHeader`. -/
def probeSignatureHeader : String := "X-Conslee-Service"

/-! ## Forwarded headers (internal/proxy/reverse_proxy.go) -/

/-- The function `extractIPFromRemoteAddr`. `split` is `net.SplitHostPort`, taken
as an input: host and port, or `none` for a returned error. -/
def extractIPFromRemoteAddr (split : String → Option (String × String))
    (remoteAddr : String) : String :=
  if remoteAddr = "" then ""
  else
    match split remoteAddr with
    | none => remoteAddr
    | some hp => hp.1

/-- The function `getClientIP`. -/
def getClientIP (r : Request) : String :=
  if r.Header.Get "X-Real-IP" ≠ "" then r.Header.Get "X-Real-IP"
  else if r.Header.Get "X-Forwarded-For" ≠ "" then
    match Split (r.Header.Get "X-Forwarded-For") ',' with
    | ip :: _ => TrimSpace ip
    | [] => ""
  else ""

/-- The X-Real-IP block of `setForwardedHeaders`. -/
def setRealIP (split : String → Option (String × String)) (src : Request) (h : Header) :
    Header :=
  if src.Header.Get "X-Real-IP" ≠ "" then Header.Set h "X-Real-IP" (src.Header.Get "X-Real-IP")
  else if extractIPFromRemoteAddr split src.RemoteAddr ≠ "" then
    Header.Set h "X-Real-IP" (extractIPFromRemoteAddr split src.RemoteAddr)
  else h

/-- The `clientIP` of `setForwardedHeaders`: the IP of `RemoteAddr`, or
`getClientIP` when that is empty. -/
def forwardedClientIP (split : String → Option (String × String)) (src : Request) : String :=
  if extractIPFromRemoteAddr split src.RemoteAddr = "" then getClientIP src
  else extractIPFromRemoteAddr split src.RemoteAddr

/-- The X-Forwarded-For block of `setForwardedHeaders`. -/
def setForwardedFor (split : String → Option (String × String)) (src : Request) (h : Header) :
    Header :=
  if forwardedClientIP split src ≠ "" then
    if src.Header.Get "X-Forwarded-For" ≠ "" then
      Header.Set h "X-Forwarded-For"
        (src.Header.Get "X-Forwarded-For" ++ ", " ++ forwardedClientIP split src)
    else Header.Set h "X-Forwarded-For" (forwardedClientIP split src)
  else if src.Header.Get "X-Forwarded-For" ≠ "" then
    Header.Set h "X-Forwarded-For" (src.Header.Get "X-Forwarded-For")
  else h

/-- The X-Forwarded-Host block of `setForwardedHeaders`. -/
def setForwardedHost (src : Request) (h : Header) : Header :=
  if src.Header.Get "X-Forwarded-Host" ≠ "" then
    Header.Set h "X-Forwarded-Host" (src.Header.Get "X-Forwarded-Host")
  else Header.Set h "X-Forwarded-Host" src.Host

/-- The X-Forwarded-Proto block of `setForwardedHeaders`. -/
def setForwardedProto (src : Request) (h : Header) : Header :=
  if src.Header.Get "X-Forwarded-Proto" ≠ "" then
    Header.Set h "X-Forwarded-Proto" (src.Header.Get "X-Forwarded-Proto")
  else if src.TLS then Header.Set h "X-Forwarded-Proto" "https"
  else Header.Set h "X-Forwarded-Proto" "http"

/-- The function `setForwardedHeaders`: the upstream request `dst` with its header
after the four blocks. -/
def setForwardedHeaders (split : String → Option (String × String)) (src dst : Request) :
    Request :=
  { dst with
    Header :=
      setForwardedProto src
        (setForwardedHost src (setForwardedFor split src (setRealIP split src dst.Header))) }

/-! ## Reverse proxy handler (internal/proxy/reverse_proxy.go) -/

/-- What the handler does besides answering: a call of `ensureRunning` (with the
runtime calls it made and its result), the write `svc.LastActivity = time.Now()`,
and the dispatch `proxy.ServeHTTP(w, r)` to the target (with the backend status,
`none` when the proxy error handler answered). The list of effects of a request is
in the order of execution. -/
inductive Effect where
  | ensure (calls : List Call) (result : Option EnsureError)
  | touch (svc : Nat) (t : Time)
  | dispatch (target : URL) (answer : Option Nat)

/-- The outcome of `ServeHTTP`: the state and the outside world afterwards, the
effects in order, the response status, the response header `X-Conslee-Service`
(`none` when not set) and the `Location` of a redirect. -/
structure Served (σ : Type) where
  state : Conslee
  world : σ
  effects : List Effect
  status : Nat
  signature : Option String
  location : Option String

/-- The kind of an effect: an `ensureRunning` call with the number of runtime and
probe calls it made, an activity write, or a dispatch. -/
inductive EffectKind where
  | ensure (calls : Nat)
  | touch
  | dispatch
  deriving DecidableEq, Repr

/-- The kind of an effect. -/
def Effect.kind : Effect → EffectKind
  | .ensure calls _ => EffectKind.ensure calls.length
  | .touch _ _ => EffectKind.touch
  | .dispatch _ _ => EffectKind.dispatch

/-- The schedule gate of `ServeHTTP` refuses the service: it has a schedule whose
mode is `schedule_only` and `ShouldBeUp(now)` is false. -/
def refusedBySchedule (svc : ServiceState) (now : Time) : Prop :=
  ∃ sch, svc.Schedule = some sch ∧ sch.Mode = ModeScheduleOnly ∧ svc.ShouldBeUp now = false

/-- The schedule mode is one of the three constants, as in every schedule built by
`ParseSchedule` or changed by `HandleUpdateService`. -/
def validMode (svc : ServiceState) : Prop :=
  ∀ sch, svc.Schedule = some sch →
    sch.Mode = ModeOnDemand ∨ sch.Mode = ModeScheduleOnly ∨ sch.Mode = ModeBoth

/-- The `skipEnsure` of `ServeHTTP`, from the value of `r.Header.Get` for the
allow-wake header. -/
def skipEnsure (headerValue : String) : Bool :=
  decide (TrimSpace (ToLower headerValue) = "false") ||
  decide (TrimSpace (ToLower headerValue) = "0") ||
  decide (TrimSpace (ToLower headerValue) = "no")

/-- The tail of `ServeHTTP` after the mode switch: 503 without a target, else the
activity write and the dispatch. `dispatch` is the single-host reverse proxy, an
input of the model: the backend status, or `none` for a proxy error (answered 502
by the error handler, without the signature header). -/
def serveForward {σ : Type} (dispatch : σ → URL → Request → σ × Option Nat) (now2 : Time)
    (c : Conslee) (w : σ) (p : Nat) (r : Request) (done : List Effect) : Served σ :=
  match (c.heap p).Target with
  | none =>
    { state := c, world := w, effects := done, status := 503, signature := none,
      location := none }
  | some u =>
    let c1 := c.modify p (fun s => { s with LastActivity := now2 })
    match dispatch w u r with
    | (w1, some st) =>
      { state := c1, world := w1
        effects := done ++ [Effect.touch p now2, Effect.dispatch u (some st)]
        status := st, signature := some (c.heap p).Config.Name, location := none }
    | (w1, none) =>
      { state := c1, world := w1
        effects := done ++ [Effect.touch p now2, Effect.dispatch u none]
        status := 502, signature := none, location := none }

/-- The method `(*Conslee).ServeHTTP`. `now` and `now2` are the two readings of
`time.Now()`. -/
def ServeHTTP {σ : Type} (rt : Runtime σ) (dispatch : σ → URL → Request → σ × Option Nat)
    (now now2 : Time) (c : Conslee) (w : σ) (r : Request) : Served σ :=
  match GetByHost c r.Host with
  | none =>
    if r.Path = "/" ∨ r.Path = "" then
      { state := c, world := w, effects := [], status := 302, signature := none,
        location := some "/ui/" }
    else
      { state := c, world := w, effects := [], status := 502, signature := none,
        location := none }
  | some p =>
    let svc := c.heap p
    if svc.Config.Disabled then
      { state := c, world := w, effects := [], status := 503, signature := none,
        location := none }
    else
      let shouldUp : Bool :=
        match svc.Schedule with
        | some _ => svc.ShouldBeUp now
        | none => false
      let mode : ScheduleMode :=
        match svc.Schedule with
        | some sch => sch.Mode
        | none => ModeOnDemand
      if mode = ModeScheduleOnly ∧ shouldUp = false then
        { state := c, world := w, effects := [], status := 503, signature := none,
          location := none }
      else if mode = ModeScheduleOnly ∨ mode = ModeBoth ∨ mode = ModeOnDemand then
        if skipEnsure (r.Header.Get probeAllowWakeHeader) then
          { state := c, world := w, effects := [], status := 204,
            signature := some svc.Config.Name, location := none }
        else
          let e := ensureRunning rt w svc
          match e.result with
          | some _ =>
            { state := c, world := e.world, effects := [Effect.ensure e.calls e.result],
              status := 502, signature := none, location := none }
          | none =>
            serveForward dispatch now2 c e.world p r [Effect.ensure e.calls e.result]
      else serveForward dispatch now2 c w p r []

/-! ## Idle reaper and scheduler (internal/proxy/scheduler.go) -/

/-- The interface `ContainerRuntime` as the two passes use it: the runtime of
`ensureRunning` together with the method `Stop`. -/
structure ContainerRuntime (σ : Type) extends Runtime σ where
  Stop : σ → String → Int → σ × Option Err

/-- A step of a pass that leaves the process: an `Inspect` or a `Stop` with the
answer it got, or the start of the goroutine that runs `ensureRunning` for the
service at an address. -/
inductive PassCall where
  | Inspect (name : String) (res : Except Err Bool)
  | Stop (name : String) (timeout : Int) (res : Option Err)
  | Launch (svc : Nat)

/-- The stop loop of `runSchedule` over the container names of one service. -/
def stopNames {σ : Type} (rt : ContainerRuntime σ) : σ → List String → σ × List PassCall
  | w, [] => (w, [])
  | w, name :: rest =>
    match rt.Stop w name 0 with
    | (w1, res) =>
      let r := stopNames rt w1 rest
      (r.1, PassCall.Stop name 0 res :: r.2)

/-- The body of the loop of `runSchedule` for the service at address `p`. The
goroutine started for `ensureRunning` runs on its own; only its start is part of
the pass. -/
def scheduleOne {σ : Type} (rt : ContainerRuntime σ) (now : Time) (w : σ) (p : Nat)
    (svc : ServiceState) : σ × List PassCall :=
  if svc.Config.Disabled then (w, [])
  else
    match svc.Schedule with
    | none => (w, [])
    | some sch =>
      if svc.ShouldBeUp now = false then
        if sch.Mode = ModeScheduleOnly then stopNames rt w (resolveNames svc.Config)
        else (w, [])
      else if sch.Mode = ModeScheduleOnly ∨ sch.Mode = ModeBoth then (w, [PassCall.Launch p])
      else (w, [])

/-- The loop of `runSchedule` over the snapshot returned by `All`. -/
def scheduleServices {σ : Type} (rt : ContainerRuntime σ) (now : Time)
    (heap : Nat → ServiceState) : σ → List Nat → σ × List PassCall
  | w, [] => (w, [])
  | w, p :: rest =>
    let r1 := scheduleOne rt now w p (heap p)
    let r2 := scheduleServices rt now heap r1.1 rest
    (r2.1, r1.2 ++ r2.2)

/-- The method `(*Conslee).runSchedule`; `now` is its reading of `time.Now()`. -/
def runSchedule {σ : Type} (rt : ContainerRuntime σ) (now : Time) (c : Conslee) (w : σ) :
    σ × List PassCall :=
  scheduleServices rt now c.heap w (All c)

/-! ## Reading a pass -/

/-- A step of a pass without the answer it got. -/
inductive PassAction where
  | inspect (name : String)
  | stop (name : String) (timeout : Int)
  | ensure (svc : Nat)
  deriving DecidableEq, Repr

/-- The step of a pass call, the answer left out. -/
def PassCall.action : PassCall → PassAction
  | .Inspect n _ => PassAction.inspect n
  | .Stop n t _ => PassAction.stop n t
  | .Launch p => PassAction.ensure p

/-- The call is a `Stop`. -/
def PassCall.isStop : PassCall → Bool
  | .Stop _ _ _ => true
  | _ => false

/-- The call is an `Inspect`. -/
def PassCall.isInspect : PassCall → Bool
  | .Inspect _ _ => true
  | _ => false

/-- The container name of an `Inspect` call of a pass. -/
def PassCall.inspectedName? : PassCall → Option String
  | .Inspect n _ => some n
  | _ => none

/-- The call of a pass was really made: asked in world `w`, the runtime gives the
recorded answer and leaves world `w1`; the launch of a goroutine leaves the world as
it is. -/
def PassCall.answeredBy {σ : Type} (rt : ContainerRuntime σ) (w : σ) (c : PassCall) (w1 : σ) :
    Prop :=
  match c with
  | .Inspect n res => rt.Inspect w n = (w1, res)
  | .Stop n t res => rt.Stop w n t = (w1, res)
  | .Launch _ => w1 = w

/-- The calls of a pass are exactly what the runtime was asked, one after the
other, from world `w` to world `w1`. -/
def PassReplays {σ : Type} (rt : ContainerRuntime σ) : σ → List PassCall → σ → Prop
  | w, [], w1 => w1 = w
  | w, c :: cs, w1 => ∃ w2, c.answeredBy rt w w2 ∧ PassReplays rt w2 cs w1

/-- Follows the spec (times): the string is two colon-separated decimal integers,
an hour in 0..23 and a minute in 0..59. -/
def readableHHMM (s : String) : Prop :=
  ∃ a b h m, Split s ':' = [a, b] ∧ Atoi a = some h ∧ Atoi b = some m ∧
    0 ≤ h ∧ h ≤ 23 ∧ 0 ≤ m ∧ m ≤ 59

/-! ## Reading the answers of the facade -/

/-- The reasons for which `HandleCreateService` answers 400: an undecodable body, an
empty name, a missing host or target URL for a mode other than `schedule_only`, a
duration that does not parse, a target URL that does not parse. -/
def CreateRejected (lib : Lib) (body : Option CreateServiceRequest) : Prop :=
  body = none ∨
  ∃ req, body = some req ∧
    (req.Name = "" ∨
     (createMode req ≠ "schedule_only" ∧ TrimSpace req.Host = "") ∨
     (createMode req ≠ "schedule_only" ∧ req.TargetURL = "") ∨
     lib.ParseDuration (createIdleRaw req) = none ∨
     lib.ParseDuration req.StartupTimeout = none ∨
     (req.TargetURL ≠ "" ∧ lib.urlParse req.TargetURL = none))

/-- The reasons for which `HandleUpdateService` answers 400: an empty service name,
an undecodable body, an invalid mode, a blank host, a duration that does not parse,
a target URL that does not parse. -/
def UpdateRejected (lib : Lib) (name : String) (body : Option UpdateServiceRequest) : Prop :=
  name = "" ∨ body = none ∨
  ∃ req, body = some req ∧
    ((∃ v, req.Mode = some v ∧ v ≠ "" ∧ v ≠ "on_demand" ∧ v ≠ "schedule_only" ∧ v ≠ "both") ∨
     (∃ raw, req.Host = some raw ∧ TrimSpace raw = "") ∨
     (∃ d, req.IdleTimeout = some d ∧ d ≠ "" ∧ lib.ParseDuration d = none) ∨
     (∃ u, req.TargetURL = some u ∧ u ≠ "" ∧ lib.urlParse u = none) ∨
     (∃ d, req.StartupTimeout = some d ∧ d ≠ "" ∧ lib.ParseDuration d = none))

/-! ## Header copy (internal/proxy/reverse_proxy.go) -/

/-- The map literal `hopByHopHeaders` of `copyHeaders`. -/
def hopByHopHeaders : GoMap String Bool :=
  [("Connection", true), ("Keep-Alive", true), ("Proxy-Authenticate", true),
   ("Proxy-Authorization", true), ("Te", true), ("Trailers", true),
   ("Transfer-Encoding", true), ("Upgrade", true)]

/-- The test `hopByHopHeaders[key]`: the zero value `false` for a missing key. -/
def isHopByHop (key : String) : Bool := (hopByHopHeaders.get? key).getD false

/-- The loop `for key, values := range src.Header` of `copyHeaders`, over the
entries of the inbound header. -/
def copyLoop (entries : List (String × List String)) (h : Header) : Header :=
  entries.foldl (fun acc e => if isHopByHop e.1 then acc else GoMap.set acc e.1 e.2) h

/-- The `Connection` block of `copyHeaders`. -/
def copyConnection (src : Request) (h : Header) : Header :=
  if src.Header.Get "Connection" ≠ "" then Header.Set h "Connection" (src.Header.Get "Connection")
  else h

/-- The `Upgrade` block of `copyHeaders`. -/
def copyUpgrade (src : Request) (h : Header) : Header :=
  if src.Header.Get "Upgrade" ≠ "" then Header.Set h "Upgrade" (src.Header.Get "Upgrade")
  else h

/-- The function `copyHeaders`: the upstream request `dst` with its header after the
loop and the two blocks. -/
def copyHeaders (src dst : Request) : Request :=
  { dst with Header := copyUpgrade src (copyConnection src (copyLoop src.Header dst.Header)) }

/-- The header names the specification lists as hop-by-hop. -/
def hopByHopNames : List String :=
  ["Connection", "Keep-Alive", "Proxy-Authenticate", "Proxy-Authorization", "TE", "Trailers",
   "Transfer-Encoding", "Upgrade"]

/-- The hop-by-hop names that are never sent upstream: all but `Connection` and
`Upgrade`. -/
def droppedNames : List String :=
  ["Keep-Alive", "Proxy-Authenticate", "Proxy-Authorization", "TE", "Trailers",
   "Transfer-Encoding"]

/-- Header names are compared without regard to letter case: two names are the
same header when their canonical keys are equal. -/
def sameHeaderName (a b : String) : Prop := CanonicalMIMEHeaderKey a = CanonicalMIMEHeaderKey b

/-- The keys of a header map are in canonical form, as in every header map built by
the net/http server from a request it read. -/
def canonicalKeys (h : Header) : Prop := ∀ e ∈ h, CanonicalMIMEHeaderKey e.1 = e.1

/-! ## Reading the container list and the day set -/

/-- Follows the spec (container list): the containers list if it is not empty,
otherwise the single legacy container name if that is not empty, otherwise nothing. -/
def containerList (cfg : ServiceConfig) : List String :=
  match cfg.Containers with
  | _ :: _ => cfg.Containers
  | [] => if cfg.ContainerName = "" then [] else [cfg.ContainerName]

/-- The three-letter abbreviation of a weekday. -/
def Weekday.abbreviation : Weekday → String
  | .Monday => "mon"
  | .Tuesday => "tue"
  | .Wednesday => "wed"
  | .Thursday => "thu"
  | .Friday => "fri"
  | .Saturday => "sat"
  | .Sunday => "sun"

/-- The day set of a schedule contains the weekday: `sch.Days[d]` is true. -/
def ServiceSchedule.hasDay (sch : ServiceSchedule) (d : Weekday) : Bool :=
  (sch.Days.get? d).getD false

/-- The service lists the container name: in `Containers` or as the legacy
`ContainerName`. -/
def listsContainer (svc : ServiceState) (name : String) : Prop :=
  name ∈ svc.Config.Containers ∨ svc.Config.ContainerName = name

/-! ## Reading the activity write -/

/-- What a request leaves behind as to the activity write. Either no activity write
and no dispatch happened and the state is unchanged; or the effects are the call of
`ensureRunning` that returned nil, then the activity write, then the dispatch, made
in the world `ensureRunning` left (for a schedule whose mode is none of the three
constants there is no `ensureRunning` call and the dispatch is made in the first
world), and the final state is the state right after the activity write. -/
def TouchFacts {σ : Type} (rt : Runtime σ) (dispatch : σ → URL → Request → σ × Option Nat)
    (c : Conslee) (w : σ) (r : Request) (now2 : Time) (s : Served σ) : Prop :=
  ((∀ e ∈ s.effects, e.kind ≠ EffectKind.touch ∧ e.kind ≠ EffectKind.dispatch) ∧ s.state = c) ∨
  ∃ p u a, GetByHost c r.Host = some p ∧ (c.heap p).Config.Disabled = false ∧
    (c.heap p).Target = some u ∧
    (((ensureRunning rt w (c.heap p)).result = none ∧
        s.effects = [Effect.ensure (ensureRunning rt w (c.heap p)).calls none,
          Effect.touch p now2, Effect.dispatch u a] ∧
        dispatch (ensureRunning rt w (c.heap p)).world u r = (s.world, a)) ∨
      (¬ validMode (c.heap p) ∧
        s.effects = [Effect.touch p now2, Effect.dispatch u a] ∧
        dispatch w u r = (s.world, a))) ∧
    s.state = c.modify p (fun st => { st with LastActivity := now2 }) ∧
    (s.state.heap p).LastActivity = now2

/-! ## Sample values -/

/-- A service `night` with the wrap-around window 22:00 to 06:00 on every day. -/
def nightService (mode : String) : ServiceState :=
  { ServiceState.zero with
    Config := { ServiceState.zero.Config with Name := "night", Mode := mode }
    Schedule := ParseSchedule (some { Days := [], Start := "22:00", Stop := "06:00" }) mode }

/-- A service `office` with the window 09:00 to 17:00 on Mondays. -/
def officeService (mode : String) : ServiceState :=
  { ServiceState.zero with
    Config := { ServiceState.zero.Config with Name := "office", Mode := mode }
    Schedule := ParseSchedule (some { Days := ["mon"], Start := "09:00", Stop := "17:00" }) mode }

/-- A clock reading. -/
def clock (d : Weekday) (h m : Nat) : Time := { Weekday := d, Hour := h, Minute := m, nanos := 0 }

/-- The answers of `time.ParseDuration` and `url.Parse` on the strings the sample
requests below contain: `0s`, `10s` and `http://127.0.0.1:9000`. No other string
is asked for by the samples. -/
def sampleLib : Lib :=
  { ParseDuration := fun s =>
      if s = "0s" then some 0 else if s = "10s" then some 10000000000 else none
    urlParse := fun s =>
      if s = "http://127.0.0.1:9000" then some { raw := s, Host := "127.0.0.1:9000" }
      else none }

/-- A create request with the given name, host and containers, target
`http://127.0.0.1:9000`, startup timeout `10s`, and the other fields empty. -/
def sampleCreate (name host : String) (containers : List String) : CreateServiceRequest :=
  { Name := name, Host := host, Containers := containers
    TargetURL := "http://127.0.0.1:9000", Mode := "", IdleTimeout := ""
    StartupTimeout := "10s", HealthPath := "", Schedule := none }

/-- An update request that only sets the host. -/
def sampleSetHost (host : String) : UpdateServiceRequest :=
  { Mode := none, IdleTimeout := none, Schedule := none, Containers := none
    TargetURL := none, HealthPath := none, StartupTimeout := none
    Host := some host, Enabled := none }

/-- The registry after creating service `a` (host `x.local`, container `a-c`). -/
def regA : Conslee :=
  (HandleCreateService sampleLib (clock Weekday.Monday 10 0) Conslee.empty
    (some (sampleCreate "a" "x.local" ["a-c"]))).1

/-- The registry after creating `a` and then service `b` (host `y.local`,
container `b-c`). -/
def regAB : Conslee :=
  (HandleCreateService sampleLib (clock Weekday.Monday 10 0) regA
    (some (sampleCreate "b" "y.local" ["b-c"]))).1

/-- The first step of the shared-container run: on the empty registry, create
service `a` with the container list `[" web"]`. -/
def createWebA : Conslee × Nat :=
  HandleCreateService sampleLib (clock Weekday.Monday 10 0) Conslee.empty
    (some (sampleCreate "a" "a.local" [" web"]))

/-- The second step of the shared-container run: then create service `b` with the
same container list `[" web"]`. -/
def createWebB : Conslee × Nat :=
  HandleCreateService sampleLib (clock Weekday.Monday 10 0) createWebA.1
    (some (sampleCreate "b" "b.local" [" web"]))

/-- A sample upstream: every dispatch is answered by the backend with 200. -/
def sampleDispatch : List String → URL → Request → List String × Option Nat :=
  fun w _ _ => (w, some 200)

/-- An inbound request `GET /` for the given host from peer `3.3.3.3:5555`, with
the given value of the allow-wake header (no header when the value is empty). -/
def sampleRequest (host allowWake : String) : Request :=
  { Host := host, Path := "/", RemoteAddr := "3.3.3.3:5555", TLS := false
    Header := if allowWake = "" then [] else [(probeAllowWakeHeader, [allowWake])] }

/-- The registry after creating service `office`: host `office.local`, container
`office-c`, mode `schedule_only`, schedule Mondays 09:00 to 17:00. -/
def regOffice : Conslee :=
  (HandleCreateService sampleLib (clock Weekday.Monday 8 0) Conslee.empty
    (some { sampleCreate "office" "office.local" ["office-c"] with
      Mode := "schedule_only"
      Schedule := some { Days := ["mon"], Start := "09:00", Stop := "17:00" } })).1

/-- The registry after creating service `lazy`: host `lazy.local`, container
`lazy-c`, mode `schedule_only`, and no schedule. -/
def regLazy : Conslee :=
  (HandleCreateService sampleLib (clock Weekday.Monday 8 0) Conslee.empty
    (some { sampleCreate "lazy" "lazy.local" ["lazy-c"] with Mode := "schedule_only" })).1

/-- A sample runtime with `Stop`: as `sampleRuntime`, and `Stop` removes the
container from the running ones. -/
def sampleStopRuntime : ContainerRuntime (List String) :=
  { toRuntime := sampleRuntime
    Stop := fun w n _ => (w.filter (fun m => decide (m ≠ n)), none) }

/-- An update request that only sets the mode. -/
def sampleSetMode (mode : String) : UpdateServiceRequest :=
  { Mode := some mode, IdleTimeout := none, Schedule := none, Containers := none
    TargetURL := none, HealthPath := none, StartupTimeout := none
    Host := none, Enabled := none }

/-- The first step of the mode-change run: on the empty registry, create service
`s` with mode `schedule_only`, no host and no target URL. -/
def createBare : Conslee × Nat :=
  HandleCreateService sampleLib (clock Weekday.Monday 10 0) Conslee.empty
    (some { sampleCreate "s" "" ["s-c"] with Mode := "schedule_only", TargetURL := "" })

/-- The second step of the mode-change run: update `s` with a request that only
sets the mode to `on_demand`. -/
def updateBare : Conslee × Nat :=
  HandleUpdateService sampleLib (clock Weekday.Monday 10 0) createBare.1 "s"
    (some (sampleSetMode "on_demand"))

/-- The create request of the invalid-mode run: service `m` with mode `bogus`. -/
def createBogus : Conslee × Nat :=
  HandleCreateService sampleLib (clock Weekday.Monday 10 0) Conslee.empty
    (some { sampleCreate "m" "m.local" ["m-c"] with Mode := "bogus" })

/-- The create request of the invalid-time run: service `t` with the schedule
start `25:00` and stop `17:00`. -/
def createBadTime : Conslee × Nat :=
  HandleCreateService sampleLib (clock Weekday.Monday 10 0) Conslee.empty
    (some { sampleCreate "t" "t.local" ["t-c"] with
      Schedule := some { Days := [], Start := "25:00", Stop := "17:00" } })

/-- The answer of `net.SplitHostPort` on the peer address of the sample requests,
`3.3.3.3:5555`; the samples ask for no other address. -/
def sampleSplit : String → Option (String × String) :=
  fun s => if s = "3.3.3.3:5555" then some ("3.3.3.3", "5555") else none

/-- An inbound request from peer `3.3.3.3:5555` that carries two `X-Forwarded-For`
header lines, `1.1.1.1` and `2.2.2.2`. -/
def twoLineRequest : Request :=
  { Host := "app.local", Path := "/", RemoteAddr := "3.3.3.3:5555", TLS := false
    Header := [("X-Forwarded-For", ["1.1.1.1", "2.2.2.2"])] }

/-- An inbound request for service `a` of `regA` (host `x.local`) that is allowed to
wake it. -/
def wakeRequest : Request := sampleRequest "x.local" ""

/-- The answer of `regA` to `wakeRequest` with no container running: the two clock
readings are Monday 10:00 and 10:01. -/
def wakeServed : Served (List String) :=
  ServeHTTP sampleRuntime sampleDispatch (clock Weekday.Monday 10 0) (clock Weekday.Monday 10 1)
    regA [] wakeRequest

/-- An update request that sets the host to `z.local` and the idle timeout to
`soon`, a string `time.ParseDuration` rejects. -/
def hostAndBadIdle : UpdateServiceRequest :=
  { sampleSetHost "z.local" with IdleTimeout := some "soon" }

/-- The rejected update of the partial-write run: `hostAndBadIdle` sent for
service `a` of `regA`. -/
def partialUpdate : Conslee × Nat :=
  HandleUpdateService sampleLib (clock Weekday.Monday 10 0) regA "a" (some hostAndBadIdle)

/-- An inbound request with a cookie, a `Keep-Alive` header and a WebSocket
upgrade. -/
def upgradeRequest : Request :=
  { Host := "app.local", Path := "/ws", RemoteAddr := "3.3.3.3:5555", TLS := false
    Header :=
      [("Cookie", ["a=1", "b=2"]), ("Keep-Alive", ["timeout=5"]), ("Connection", ["Upgrade"]),
       ("Upgrade", ["websocket"])] }

/-- An upstream request with an empty header. -/
def emptyUpstream : Request :=
  { Host := "app.local", Path := "/ws", RemoteAddr := "", TLS := false, Header := [] }

/-- A runtime whose TCP probe fails: as `sampleRuntime`, but `waitTCP` answers with
an error. -/
def tcpDownRuntime : Runtime (List String) :=
  { sampleRuntime with waitTCP := fun w _ _ => (w, some "connection refused") }

/-- The first step of the shared-stop run: on the empty registry, create service `a`
with mode `both`, the schedule 09:00 to 17:00 and the container list `[" web"]`. -/
def createSharedA : Conslee × Nat :=
  HandleCreateService sampleLib (clock Weekday.Monday 8 0) Conslee.empty
    (some { sampleCreate "a" "a.local" [" web"] with
      Mode := "both", Schedule := some { Days := [], Start := "09:00", Stop := "17:00" } })

/-- The second step of the shared-stop run: then create service `b` with mode
`schedule_only`, the schedule 22:00 to 23:00 and the same container list. -/
def createSharedB : Conslee × Nat :=
  HandleCreateService sampleLib (clock Weekday.Monday 8 0) createSharedA.1
    (some { sampleCreate "b" "b.local" [" web"] with
      Mode := "schedule_only"
      Schedule := some { Days := [], Start := "22:00", Stop := "23:00" } })

/-- The registry of the shared-stop run. -/
def regShared : Conslee := createSharedB.1

/-! ## Go maps: lemmas -/

namespace GoMap

variable {κ ν : Type} [DecidableEq κ]

theorem get?_cons (k' : κ) (v : ν) (rest : GoMap κ ν) (k : κ) :
    get? ((k', v) :: rest) k = if k' = k then some v else get? rest k := rfl

theorem delete_cons (e : κ × ν) (rest : GoMap κ ν) (k : κ) :
    delete (e :: rest) k = if e.1 = k then delete rest k else e :: delete rest k := by
  by_cases h : e.1 = k <;> simp [delete, List.filter, h]

theorem get?_delete_self (m : GoMap κ ν) (k : κ) : (m.delete k).get? k = none := by
  induction m with
  | nil => rfl
  | cons e rest ih =>
    rw [delete_cons]
    by_cases h : e.1 = k
    · simpa [h] using ih
    · obtain ⟨k', v⟩ := e
      simp only [h, if_false, get?_cons]
      exact ih

theorem get?_delete_ne (m : GoMap κ ν) {k k' : κ} (hne : k' ≠ k) :
    (m.delete k).get? k' = m.get? k' := by
  induction m with
  | nil => rfl
  | cons e rest ih =>
    obtain ⟨a, v⟩ := e
    rw [delete_cons]
    by_cases h : a = k
    · have hak : a ≠ k' := fun h2 => hne (h2 ▸ h)
      simp only [h, if_true, get?_cons]
      rw [ih]
      have : ¬ k = k' := fun h2 => hne h2.symm
      simp [this]
    · simp only [h, if_false, get?_cons, ih]

theorem get?_set_self (m : GoMap κ ν) (k : κ) (v : ν) : (m.set k v).get? k = some v := by
  simp [set, get?_cons]

theorem get?_set_ne (m : GoMap κ ν) {k k' : κ} (v : ν) (hne : k' ≠ k) :
    (m.set k v).get? k' = m.get? k' := by
  have : ¬ k = k' := fun h2 => hne h2.symm
  simp [set, get?_cons, this, get?_delete_ne m hne]

theorem mem_of_get? (m : GoMap κ ν) {k : κ} {v : ν} (h : m.get? k = some v) : (k, v) ∈ m := by
  induction m with
  | nil => simp [get?] at h
  | cons e rest ih =>
    obtain ⟨a, b⟩ := e
    rw [get?_cons] at h
    by_cases hak : a = k
    · simp only [hak, if_true, Option.some.injEq] at h
      simp [hak, h]
    · simp only [hak, if_false] at h
      exact List.mem_cons_of_mem _ (ih h)

theorem get?_of_mem (m : GoMap κ ν) (hwf : m.WF) {k : κ} {v : ν} (h : (k, v) ∈ m) :
    m.get? k = some v := by
  induction m with
  | nil => simp at h
  | cons e rest ih =>
    obtain ⟨a, b⟩ := e
    have hnd : a ∉ rest.map Prod.fst ∧ (rest.map Prod.fst).Nodup := by
      simpa [WF] using hwf
    rw [get?_cons]
    rcases List.mem_cons.mp h with heq | hin
    · have h1 : k = a := congrArg Prod.fst heq
      have h2 : v = b := congrArg Prod.snd heq
      simp [h1, h2]
    · have hne : a ≠ k := by
        intro hak
        apply hnd.1
        rw [hak]
        exact List.mem_map_of_mem Prod.fst hin
      simp only [hne, if_false]
      exact ih hnd.2 hin

theorem get?_of_mem_values (m : GoMap κ ν) (hwf : m.WF) {v : ν} (h : v ∈ m.values) :
    ∃ k, m.get? k = some v := by
  obtain ⟨e, he, hv⟩ := List.mem_map.mp h
  obtain ⟨a, b⟩ := e
  exact ⟨a, get?_of_mem m hwf (by simpa [← hv] using he)⟩

theorem WF_delete (m : GoMap κ ν) (k : κ) (hwf : m.WF) : (m.delete k).WF := by
  unfold WF delete
  exact List.Nodup.sublist (List.Sublist.map _ (List.filter_sublist m)) hwf

theorem not_mem_keys_delete (m : GoMap κ ν) (k : κ) : k ∉ (m.delete k).map Prod.fst := by
  intro h
  obtain ⟨e, he, hk⟩ := List.mem_map.mp h
  have := (List.mem_filter.mp he).2
  simp [hk] at this

theorem WF_set (m : GoMap κ ν) (k : κ) (v : ν) (hwf : m.WF) : (m.set k v).WF := by
  unfold WF set
  rw [List.map_cons, List.nodup_cons]
  exact ⟨not_mem_keys_delete m k, WF_delete m k hwf⟩

theorem mem_values_delete (m : GoMap κ ν) (k : κ) {v : ν} (h : v ∈ (m.delete k).values) :
    v ∈ m.values := by
  obtain ⟨e, he, hv⟩ := List.mem_map.mp h
  exact List.mem_map.mpr ⟨e, (List.mem_filter.mp he).1, hv⟩

end GoMap

/-! ## Registry invariant: preservation -/

theorem regInv_empty : RegInv Conslee.empty := by
  refine ⟨?_, ?_, ?_, ?_, ?_⟩ <;>
    simp [Conslee.empty, NewRegistry, GoMap.WF, GoMap.get?]

theorem regInv_modify (c : Conslee) (p : Nat) (f : ServiceState → ServiceState)
    (hinv : RegInv c) (hn : ∀ s, (f s).Config.Name = s.Config.Name)
    (hh : ∀ s, (f s).Config.Host = s.Config.Host) : RegInv (c.modify p f) := by
  have e1 : (fun q => ((c.modify p f).heap q).Config.Name) =
      fun q => (c.heap q).Config.Name := by
    funext q
    by_cases h : q = p
    · subst h
      simp [Conslee.modify, hn]
    · simp [Conslee.modify, Function.update_noteq h]
  have e2 : (fun q => ((c.modify p f).heap q).Config.Host) =
      fun q => (c.heap q).Config.Host := by
    funext q
    by_cases h : q = p
    · subst h
      simp [Conslee.modify, hh]
    · simp [Conslee.modify, Function.update_noteq h]
  unfold RegInv
  rw [e1, e2]
  exact hinv

theorem regInv_alloc_add (c : Conslee) (st : ServiceState) (hinv : RegInv c)
    (hname : GetByName c st.Config.Name = none)
    (hhost : st.Config.Host ≠ "" → GetByHost c st.Config.Host = none) :
    RegInv (Add (c.alloc st).2 st.Config.Host (c.alloc st).1) := by
  obtain ⟨wfN, wfH, nameKey, hostKey, hostOfName⟩ := hinv
  simp only [GetByName, GetByHost] at hname hhost
  have hp : (Function.update c.heap c.next st) c.next = st := Function.update_same _ _ _
  have hq : ∀ q, q < c.next → (Function.update c.heap c.next st) q = c.heap q := by
    intro q hlt
    exact Function.update_noteq (Nat.ne_of_lt hlt) _ _
  unfold RegInv
  simp only [Add, Conslee.alloc, hp]
  refine ⟨?_, ?_, ?_, ?_, ?_⟩
  · exact GoMap.WF_set _ _ _ wfN
  · by_cases hh : st.Config.Host ≠ ""
    · rw [if_pos hh]
      exact GoMap.WF_set _ _ _ wfH
    · rw [if_neg hh]
      exact wfH
  · intro k p hk
    by_cases hkn : k = st.Config.Name
    · subst hkn
      rw [GoMap.get?_set_self] at hk
      cases hk
      exact ⟨Nat.lt_succ_self _, by rw [hp]⟩
    · rw [GoMap.get?_set_ne _ _ hkn] at hk
      obtain ⟨hlt, hnm⟩ := nameKey k p hk
      exact ⟨Nat.lt_succ_of_lt hlt, by rw [hq p hlt]; exact hnm⟩
  · intro h p hget
    have old : c.reg.byHost.get? h = some p →
        h ≠ "" ∧ ((Function.update c.heap c.next st) p).Config.Host = h ∧
          (c.reg.byName.set st.Config.Name c.next).get?
            ((Function.update c.heap c.next st) p).Config.Name = some p := by
      intro hold
      obtain ⟨hne, hhs, hnm⟩ := hostKey h p hold
      have hlt : p < c.next := (nameKey _ _ hnm).1
      rw [hq p hlt]
      refine ⟨hne, hhs, ?_⟩
      have hdiff : (c.heap p).Config.Name ≠ st.Config.Name := by
        intro heq
        rw [heq, hname] at hnm
        cases hnm
      rw [GoMap.get?_set_ne _ _ hdiff]
      exact hnm
    by_cases hh : st.Config.Host ≠ ""
    · rw [if_pos hh] at hget
      by_cases hkh : h = st.Config.Host
      · subst hkh
        rw [GoMap.get?_set_self] at hget
        cases hget
        rw [hp]
        exact ⟨hh, rfl, GoMap.get?_set_self _ _ _⟩
      · rw [GoMap.get?_set_ne _ _ hkh] at hget
        exact old hget
    · rw [if_neg hh] at hget
      exact old hget
  · intro k p hk hne
    by_cases hkn : k = st.Config.Name
    · subst hkn
      rw [GoMap.get?_set_self] at hk
      cases hk
      rw [hp] at hne ⊢
      rw [if_pos hne]
      exact GoMap.get?_set_self _ _ _
    · rw [GoMap.get?_set_ne _ _ hkn] at hk
      have hlt : p < c.next := (nameKey k p hk).1
      rw [hq p hlt] at hne ⊢
      have hold := hostOfName k p hk hne
      by_cases hh : st.Config.Host ≠ ""
      · rw [if_pos hh]
        have hdiff : (c.heap p).Config.Host ≠ st.Config.Host := by
          intro heq
          rw [heq, hhost hh] at hold
          cases hold
        rw [GoMap.get?_set_ne _ _ hdiff]
        exact hold
      · rw [if_neg hh]
        exact hold

theorem regInv_UpdateHost (c : Conslee) (p : Nat) (newHost : String) (k0 : String)
    (hinv : RegInv c) (hstored : c.reg.byName.get? k0 = some p)
    (hfree : newHost ≠ "" → ∀ q, c.reg.byHost.get? newHost = some q → q = p)
    (hne : newHost ≠ (c.heap p).Config.Host) :
    RegInv (UpdateHost c p newHost) := by
  obtain ⟨wfN, wfH, nameKey, hostKey, hostOfName⟩ := hinv
  have hname : ∀ q, ((Function.update c.heap p
      { c.heap p with Config := { (c.heap p).Config with Host := newHost } }) q).Config.Name =
      (c.heap q).Config.Name := by
    intro q
    by_cases h : q = p
    · subst h
      simp
    · simp [Function.update_noteq h]
  have hhostp : ((Function.update c.heap p
      { c.heap p with Config := { (c.heap p).Config with Host := newHost } }) p).Config.Host =
      newHost := by simp
  have hhostq : ∀ q, q ≠ p → ((Function.update c.heap p
      { c.heap p with Config := { (c.heap p).Config with Host := newHost } }) q).Config.Host =
      (c.heap q).Config.Host := by
    intro q h
    simp [Function.update_noteq h]
  -- the index after the old host entry has been deleted
  have wf1 : (if (c.heap p).Config.Host ≠ "" then c.reg.byHost.delete (c.heap p).Config.Host
      else c.reg.byHost).WF := by
    by_cases hh : (c.heap p).Config.Host ≠ ""
    · rw [if_pos hh]
      exact GoMap.WF_delete _ _ wfH
    · rw [if_neg hh]
      exact wfH
  have b1 : ∀ h q, (if (c.heap p).Config.Host ≠ "" then
      c.reg.byHost.delete (c.heap p).Config.Host else c.reg.byHost).get? h = some q →
      c.reg.byHost.get? h = some q ∧ q ≠ p := by
    intro h q hget
    by_cases hh : (c.heap p).Config.Host ≠ ""
    · rw [if_pos hh] at hget
      by_cases hk : h = (c.heap p).Config.Host
      · rw [hk, GoMap.get?_delete_self] at hget
        cases hget
      · rw [GoMap.get?_delete_ne _ hk] at hget
        refine ⟨hget, ?_⟩
        intro hqp
        subst hqp
        exact hk (hostKey h q hget).2.1.symm
    · rw [if_neg hh] at hget
      refine ⟨hget, ?_⟩
      intro hqp
      subst hqp
      obtain ⟨h1, h2, _⟩ := hostKey h q hget
      exact hh (by rw [h2]; exact h1)
  have c1 : ∀ h q, c.reg.byHost.get? h = some q → q ≠ p →
      (if (c.heap p).Config.Host ≠ "" then
        c.reg.byHost.delete (c.heap p).Config.Host else c.reg.byHost).get? h = some q := by
    intro h q hget hqp
    by_cases hh : (c.heap p).Config.Host ≠ ""
    · rw [if_pos hh]
      have hk : h ≠ (c.heap p).Config.Host := by
        intro hk
        have := hostOfName k0 p hstored hh
        rw [← hk, hget] at this
        exact hqp (Option.some.inj this)
      rw [GoMap.get?_delete_ne _ hk]
      exact hget
    · rw [if_neg hh]
      exact hget
  unfold RegInv
  simp only [UpdateHost, hname]
  refine ⟨wfN, ?_, nameKey, ?_, ?_⟩
  · by_cases hn : newHost ≠ ""
    · rw [if_pos hn]
      exact GoMap.WF_set _ _ _ wf1
    · rw [if_neg hn]
      exact wf1
  · intro h q hget
    have old : (if (c.heap p).Config.Host ≠ "" then
        c.reg.byHost.delete (c.heap p).Config.Host else c.reg.byHost).get? h = some q →
        h ≠ "" ∧ ((Function.update c.heap p
          { c.heap p with Config := { (c.heap p).Config with Host := newHost } }) q).Config.Host = h ∧
          c.reg.byName.get? (c.heap q).Config.Name = some q := by
      intro h1
      obtain ⟨h2, hqp⟩ := b1 h q h1
      rw [hhostq q hqp]
      exact hostKey h q h2
    by_cases hn : newHost ≠ ""
    · rw [if_pos hn] at hget
      by_cases hk : h = newHost
      · subst hk
        rw [GoMap.get?_set_self] at hget
        cases hget
        refine ⟨hn, hhostp, ?_⟩
        rw [(nameKey k0 _ hstored).2]
        exact hstored
      · rw [GoMap.get?_set_ne _ _ hk] at hget
        exact old hget
    · rw [if_neg hn] at hget
      exact old hget
  · intro k q hk hhne
    by_cases hqp : q = p
    · subst hqp
      rw [hhostp] at hhne ⊢
      rw [if_pos hhne]
      exact GoMap.get?_set_self _ _ _
    · rw [hhostq q hqp] at hhne ⊢
      have hold := c1 _ q (hostOfName k q hk hhne) hqp
      by_cases hn : newHost ≠ ""
      · rw [if_pos hn]
        have hdiff : (c.heap q).Config.Host ≠ newHost := by
          intro heq
          exact hqp (hfree hn q (by rw [← heq]; exact hostOfName k q hk hhne))
        rw [GoMap.get?_set_ne _ _ hdiff]
        exact hold
      · rw [if_neg hn]
        exact hold

theorem regInv_DelByName (c : Conslee) (name : String) (hinv : RegInv c) :
    RegInv (DelByName c name) := by
  unfold DelByName
  cases hlook : c.reg.byName.get? name with
  | none => exact hinv
  | some p =>
    obtain ⟨wfN, wfH, nameKey, hostKey, hostOfName⟩ := hinv
    unfold RegInv
    simp only
    refine ⟨GoMap.WF_delete _ _ wfN, GoMap.WF_delete _ _ wfH, ?_, ?_, ?_⟩
    · intro k q hk
      by_cases hkn : k = name
      · rw [hkn, GoMap.get?_delete_self] at hk
        cases hk
      · rw [GoMap.get?_delete_ne _ hkn] at hk
        exact nameKey k q hk
    · intro h q hget
      by_cases hk : h = (c.heap p).Config.Host
      · rw [hk, GoMap.get?_delete_self] at hget
        cases hget
      · rw [GoMap.get?_delete_ne _ hk] at hget
        obtain ⟨h1, h2, h3⟩ := hostKey h q hget
        refine ⟨h1, h2, ?_⟩
        have hdiff : (c.heap q).Config.Name ≠ name := by
          intro heq
          rw [heq, hlook] at h3
          have hpq : p = q := Option.some.inj h3
          exact hk (by rw [hpq]; exact h2.symm)
        rw [GoMap.get?_delete_ne _ hdiff]
        exact h3
    · intro k q hk hhne
      by_cases hkn : k = name
      · rw [hkn, GoMap.get?_delete_self] at hk
        cases hk
      · rw [GoMap.get?_delete_ne _ hkn] at hk
        have hold := hostOfName k q hk hhne
        have hdiff : (c.heap q).Config.Host ≠ (c.heap p).Config.Host := by
          intro heq
          have hp := hostOfName name p hlook (by rw [← heq]; exact hhne)
          rw [← heq, hold] at hp
          have hqp : q = p := Option.some.inj hp
          have h1 := (nameKey k q hk).2
          have h2 := (nameKey name p hlook).2
          exact hkn (by rw [← h1, hqp, h2])
        rw [GoMap.get?_delete_ne _ hdiff]
        exact hold

theorem create_cases (lib : Lib) (now : Time) (c : Conslee)
    (body : Option CreateServiceRequest) :
    ((HandleCreateService lib now c body).1 = c ∧ (HandleCreateService lib now c body).2 ≠ 201) ∨
    ∃ req idle startup parsedTarget,
      body = some req ∧
      req.Name ≠ "" ∧
      ¬ (createMode req ≠ "schedule_only" ∧ TrimSpace req.Host = "") ∧
      ¬ (createMode req ≠ "schedule_only" ∧ req.TargetURL = "") ∧
      GetByName c req.Name = none ∧
      (TrimSpace req.Host ≠ "" → GetByHost c (TrimSpace req.Host) = none) ∧
      (FindContainerConflict c req.Containers "").1 = "" ∧
      lib.ParseDuration (createIdleRaw req) = some idle ∧
      lib.ParseDuration req.StartupTimeout = some startup ∧
      createTarget lib req = some parsedTarget ∧
      HandleCreateService lib now c body =
        (Add (c.alloc (createState req idle startup parsedTarget now)).2
          (TrimSpace req.Host)
          (c.alloc (createState req idle startup parsedTarget now)).1, 201) := by
  cases body with
  | none => exact Or.inl ⟨rfl, by simp [HandleCreateService]⟩
  | some req =>
    have bad : ∀ st : Nat, st ≠ 201 → HandleCreateService lib now c (some req) = (c, st) →
        ((HandleCreateService lib now c (some req)).1 = c ∧
          (HandleCreateService lib now c (some req)).2 ≠ 201) := by
      intro st hst e
      rw [e]
      exact ⟨rfl, hst⟩
    by_cases h1 : req.Name = ""
    · refine Or.inl (bad 400 (by decide) ?_)
      unfold HandleCreateService
      dsimp only
      rw [if_pos h1]
    by_cases h2 : createMode req ≠ "schedule_only" ∧ TrimSpace req.Host = ""
    · refine Or.inl (bad 400 (by decide) ?_)
      unfold HandleCreateService
      dsimp only
      rw [if_neg h1, if_pos h2]
    by_cases h3 : createMode req ≠ "schedule_only" ∧ req.TargetURL = ""
    · refine Or.inl (bad 400 (by decide) ?_)
      unfold HandleCreateService
      dsimp only
      rw [if_neg h1, if_neg h2, if_pos h3]
    by_cases h4 : (GetByName c req.Name).isSome = true
    · refine Or.inl (bad 409 (by decide) ?_)
      unfold HandleCreateService
      dsimp only
      rw [if_neg h1, if_neg h2, if_neg h3, if_pos h4]
    by_cases h5 : TrimSpace req.Host ≠ "" ∧ (GetByHost c (TrimSpace req.Host)).isSome = true
    · refine Or.inl (bad 409 (by decide) ?_)
      unfold HandleCreateService
      dsimp only
      rw [if_neg h1, if_neg h2, if_neg h3, if_neg h4, if_pos h5]
    by_cases h6 : (FindContainerConflict c req.Containers "").1 ≠ ""
    · refine Or.inl (bad 409 (by decide) ?_)
      unfold HandleCreateService
      dsimp only
      rw [if_neg h1, if_neg h2, if_neg h3, if_neg h4, if_neg h5, if_pos h6]
    have e0 : HandleCreateService lib now c (some req) =
        (match lib.ParseDuration (createIdleRaw req) with
        | none => (c, 400)
        | some idle =>
          match lib.ParseDuration req.StartupTimeout with
          | none => (c, 400)
          | some startup =>
            match createTarget lib req with
            | none => (c, 400)
            | some parsedTarget =>
              (Add (c.alloc (createState req idle startup parsedTarget now)).2
                (TrimSpace req.Host)
                (c.alloc (createState req idle startup parsedTarget now)).1, 201)) := by
      unfold HandleCreateService
      dsimp only
      rw [if_neg h1, if_neg h2, if_neg h3, if_neg h4, if_neg h5, if_neg h6]
      rfl
    cases hidle : lib.ParseDuration (createIdleRaw req) with
    | none =>
      refine Or.inl (bad 400 (by decide) ?_)
      rw [e0, hidle]
    | some idle =>
      cases hstart : lib.ParseDuration req.StartupTimeout with
      | none =>
        refine Or.inl (bad 400 (by decide) ?_)
        rw [e0, hidle, hstart]
      | some startup =>
        cases htarget : createTarget lib req with
        | none =>
          refine Or.inl (bad 400 (by decide) ?_)
          rw [e0, hidle, hstart, htarget]
        | some parsedTarget =>
          refine Or.inr ⟨req, idle, startup, parsedTarget, rfl, h1, h2, h3, ?_, ?_, ?_,
            hidle, hstart, htarget, ?_⟩
          · simpa using h4
          · intro hne
            have h5b : ¬ (GetByHost c (TrimSpace req.Host)).isSome = true :=
              fun hs => h5 ⟨hne, hs⟩
            simpa using h5b
          · simpa using h6
          · rw [e0, hidle, hstart, htarget]

theorem regInv_create (lib : Lib) (now : Time) (c : Conslee)
    (body : Option CreateServiceRequest) (hinv : RegInv c) :
    RegInv (HandleCreateService lib now c body).1 := by
  rcases create_cases lib now c body with ⟨h, _⟩ | ⟨req, idle, startup, pt, _, _, _, _, hn, hh, _, _, _, _, heq⟩
  · rw [h]
    exact hinv
  · rw [heq]
    exact regInv_alloc_add c (createState req idle startup pt now) hinv hn hh

theorem regInv_delete (c : Conslee) (name : String) (hinv : RegInv c) :
    RegInv (HandleDeleteService c name).1 := by
  unfold HandleDeleteService
  split_ifs
  · exact hinv
  · exact hinv
  · exact regInv_DelByName c name hinv

theorem regInv_updHost (c c1 : Conslee) (svc : Nat) (k0 : String) (desiredMode : String)
    (h : Option String) (hinv : RegInv c) (hstored : c.reg.byName.get? k0 = some svc)
    (hok : updHost c svc desiredMode h = .ok c1) : RegInv c1 := by
  unfold updHost at hok
  cases h with
  | none =>
    cases hok
    exact hinv
  | some raw =>
    dsimp only at hok
    split_ifs at hok with h1 h2 h3
    · cases hok
      refine regInv_UpdateHost c svc (TrimSpace raw) k0 hinv hstored ?_ h2
      intro hne q hq
      by_contra hqs
      apply h3
      refine ⟨hne, ?_⟩
      simp [GetByHost, hq, hqs]
    · cases hok
      exact hinv

theorem regInv_updEnabled (c : Conslee) (svc : Nat) (now : Time) (e : Option Bool)
    (hinv : RegInv c) : RegInv (updEnabled c svc now e) := by
  unfold updEnabled
  cases e with
  | none => exact hinv
  | some en =>
    dsimp only
    have i1 := regInv_modify c svc
      (fun s => { s with Config := { s.Config with Disabled := !en } }) hinv
      (fun _ => rfl) (fun _ => rfl)
    split_ifs
    · exact regInv_modify _ svc _ i1 (fun _ => rfl) (fun _ => rfl)
    · exact i1

theorem regInv_updMode (c : Conslee) (svc : Nat) (modeChanged : Bool) (desiredMode : String)
    (hinv : RegInv c) : RegInv (updMode c svc modeChanged desiredMode) := by
  unfold updMode
  split_ifs
  · exact regInv_modify _ svc _ hinv (fun _ => rfl) (fun _ => rfl)
  · exact hinv

theorem regInv_updIdleTimeout (lib : Lib) (c c1 : Conslee) (svc : Nat) (v : Option String)
    (hinv : RegInv c) (hok : updIdleTimeout lib c svc v = .ok c1) : RegInv c1 := by
  unfold updIdleTimeout at hok
  cases v with
  | none =>
    cases hok
    exact hinv
  | some raw =>
    dsimp only at hok
    split_ifs at hok
    · cases hok
      exact hinv
    · cases hd : lib.ParseDuration raw with
      | none => simp [hd] at hok
      | some d =>
        simp only [hd, Except.ok.injEq] at hok
        rw [← hok]
        exact regInv_modify _ svc _ hinv (fun _ => rfl) (fun _ => rfl)

theorem regInv_updSchedule (c : Conslee) (svc : Nat) (q : Option ScheduleUpdate)
    (hinv : RegInv c) : RegInv (updSchedule c svc q) := by
  unfold updSchedule
  cases q with
  | none => exact hinv
  | some u => exact regInv_modify _ svc _ hinv (fun _ => rfl) (fun _ => rfl)

theorem regInv_updContainers (c c1 : Conslee) (svc : Nat) (v : Option (List String))
    (hinv : RegInv c) (hok : updContainers c svc v = .ok c1) : RegInv c1 := by
  unfold updContainers at hok
  cases v with
  | none =>
    cases hok
    exact hinv
  | some l =>
    dsimp only at hok
    split_ifs at hok
    cases hok
    exact regInv_modify _ svc _ hinv (fun _ => rfl) (fun _ => rfl)

theorem regInv_updTargetURL (lib : Lib) (c c1 : Conslee) (svc : Nat) (v : Option String)
    (hinv : RegInv c) (hok : updTargetURL lib c svc v = .ok c1) : RegInv c1 := by
  unfold updTargetURL at hok
  cases v with
  | none =>
    cases hok
    exact hinv
  | some raw =>
    dsimp only at hok
    split_ifs at hok
    · cases hok
      exact hinv
    · cases hd : lib.urlParse raw with
      | none => simp [hd] at hok
      | some d =>
        simp only [hd, Except.ok.injEq] at hok
        rw [← hok]
        exact regInv_modify _ svc _ hinv (fun _ => rfl) (fun _ => rfl)

theorem regInv_updHealthPath (c : Conslee) (svc : Nat) (v : Option String)
    (hinv : RegInv c) : RegInv (updHealthPath c svc v) := by
  unfold updHealthPath
  cases v with
  | none => exact hinv
  | some u => exact regInv_modify _ svc _ hinv (fun _ => rfl) (fun _ => rfl)

theorem regInv_updStartupTimeout (lib : Lib) (c c1 : Conslee) (svc : Nat) (v : Option String)
    (hinv : RegInv c) (hok : updStartupTimeout lib c svc v = .ok c1) : RegInv c1 := by
  unfold updStartupTimeout at hok
  cases v with
  | none =>
    cases hok
    exact hinv
  | some raw =>
    dsimp only at hok
    split_ifs at hok
    · cases hok
      exact hinv
    · cases hd : lib.ParseDuration raw with
      | none => simp [hd] at hok
      | some d =>
        simp only [hd, Except.ok.injEq] at hok
        rw [← hok]
        exact regInv_modify _ svc _ hinv (fun _ => rfl) (fun _ => rfl)

theorem regInv_update (lib : Lib) (now : Time) (c : Conslee) (name : String)
    (body : Option UpdateServiceRequest) (hinv : RegInv c) :
    RegInv (HandleUpdateService lib now c name body).1 := by
  unfold HandleUpdateService
  split_ifs with h0
  · exact hinv
  · cases hget : GetByName c name with
    | none => exact hinv
    | some svc =>
      cases body with
      | none => exact hinv
      | some req =>
        dsimp only
        cases hm : updDesiredMode (c.heap svc).Config.Mode req.Mode with
        | none => exact hinv
        | some dm =>
          obtain ⟨desiredMode, modeChanged⟩ := dm
          dsimp only
          cases hh : updHost c svc desiredMode req.Host with
          | error st => exact hinv
          | ok c1 =>
            have i1 : RegInv c1 := regInv_updHost c c1 svc name desiredMode req.Host hinv hget hh
            have i3 := regInv_updMode _ svc modeChanged desiredMode
              (regInv_updEnabled c1 svc now req.Enabled i1)
            dsimp only
            cases h4 : updIdleTimeout lib
                (updMode (updEnabled c1 svc now req.Enabled) svc modeChanged desiredMode)
                svc req.IdleTimeout with
            | error st => exact i3
            | ok c4 =>
              have i5 := regInv_updSchedule c4 svc req.Schedule
                (regInv_updIdleTimeout lib _ c4 svc _ i3 h4)
              dsimp only
              cases h6 : updContainers (updSchedule c4 svc req.Schedule) svc req.Containers with
              | error st => exact i5
              | ok c6 =>
                have i6 := regInv_updContainers _ c6 svc _ i5 h6
                dsimp only
                cases h7 : updTargetURL lib c6 svc req.TargetURL with
                | error st => exact i6
                | ok c7 =>
                  have i8 := regInv_updHealthPath c7 svc req.HealthPath
                    (regInv_updTargetURL lib _ c7 svc _ i6 h7)
                  dsimp only
                  cases h9 : updStartupTimeout lib (updHealthPath c7 svc req.HealthPath) svc
                      req.StartupTimeout with
                  | error st => exact i8
                  | ok c9 => exact regInv_updStartupTimeout lib _ c9 svc _ i8 h9

theorem reachable_regInv (c : Conslee) (h : Reachable c) : RegInv c := by
  induction h with
  | init => exact regInv_empty
  | create lib now c body _ ih => exact regInv_create lib now c body ih
  | update lib now c name body _ ih => exact regInv_update lib now c name body ih
  | delete c name _ ih => exact regInv_delete c name ih

theorem lookupInv_of_regInv (c : Conslee) (hinv : RegInv c) : LookupInv c := by
  obtain ⟨wfN, wfH, nameKey, hostKey, hostOfName⟩ := hinv
  have inName : ∀ p, Stored c p → ∃ k, c.reg.byName.get? k = some p := by
    intro p hs
    rcases hs with hn | hh
    · exact GoMap.get?_of_mem_values _ wfN hn
    · obtain ⟨h, hget⟩ := GoMap.get?_of_mem_values _ wfH hh
      exact ⟨_, (hostKey h p hget).2.2⟩
  intro p hs
  obtain ⟨k, hk⟩ := inName p hs
  refine ⟨?_, ?_⟩
  · unfold GetByName
    rw [(nameKey k p hk).2]
    exact hk
  · intro hne
    exact hostOfName k p hk hne

/-! ## Schedule evaluator: theorems -/

theorem shouldBeUp_of_schedule (s : ServiceState) (sch : ServiceSchedule) (now : Time)
    (hs : s.Schedule = some sch) :
    s.ShouldBeUp now =
      (dayGateOpen sch now &&
        (if sch.StartMinutes = sch.StopMinutes then true
         else if sch.StartMinutes < sch.StopMinutes then
           decide ((now.Hour : Int) * 60 + (now.Minute : Int) ≥ sch.StartMinutes) &&
             decide ((now.Hour : Int) * 60 + (now.Minute : Int) < sch.StopMinutes)
         else decide ((now.Hour : Int) * 60 + (now.Minute : Int) ≥ sch.StartMinutes) ||
             decide ((now.Hour : Int) * 60 + (now.Minute : Int) < sch.StopMinutes))) := by
  unfold ServiceState.ShouldBeUp dayGateOpen
  rw [hs]
  by_cases hg : (decide (sch.Days.len > 0) && !((sch.Days.get? now.Weekday).getD false)) = true
  · simp [hg]
  · simp only [hg, Bool.false_eq_true, if_false]
    have hg2 : (decide (sch.Days.len > 0) && !((sch.Days.get? now.Weekday).getD false)) = false := by
      simpa using hg
    simp [hg2]

/-- C1: for a service with a schedule and a time whose weekday passes the day gate,
`ShouldBeUp` is the three-case window policy on `m = hour*60+minute`: true when
start = stop; `start ≤ m < stop` when start < stop; `m ≥ start` or `m < stop` when
start > stop. In particular, with start 22:00 and stop 06:00 (as `parseHHMM` reads
them) it is true at 23:30 and 05:59 and false at 06:00 and 21:59. -/
theorem C1_window_policy (s : ServiceState) (sch : ServiceSchedule) (now : Time)
    (hs : s.Schedule = some sch) (hgate : dayGateOpen sch now = true) :
    (sch.StartMinutes = sch.StopMinutes → s.ShouldBeUp now = true) ∧
    (sch.StartMinutes < sch.StopMinutes →
      (s.ShouldBeUp now = true ↔
        sch.StartMinutes ≤ (now.Hour : Int) * 60 + now.Minute ∧
          (now.Hour : Int) * 60 + now.Minute < sch.StopMinutes)) ∧
    (sch.StartMinutes > sch.StopMinutes →
      (s.ShouldBeUp now = true ↔
        (now.Hour : Int) * 60 + now.Minute ≥ sch.StartMinutes ∨
          (now.Hour : Int) * 60 + now.Minute < sch.StopMinutes)) ∧
    (sch.StartMinutes = parseHHMM "22:00" → sch.StopMinutes = parseHHMM "06:00" →
      (now.Hour = 23 → now.Minute = 30 → s.ShouldBeUp now = true) ∧
      (now.Hour = 5 → now.Minute = 59 → s.ShouldBeUp now = true) ∧
      (now.Hour = 6 → now.Minute = 0 → s.ShouldBeUp now = false) ∧
      (now.Hour = 21 → now.Minute = 59 → s.ShouldBeUp now = false)) := by
  have h2200 : parseHHMM "22:00" = 1320 := by decide
  have h0600 : parseHHMM "06:00" = 360 := by decide
  rw [shouldBeUp_of_schedule s sch now hs, hgate, h2200, h0600]
  refine ⟨?_, ?_, ?_, ?_⟩
  · intro h
    simp [h]
  · intro h
    have hne : sch.StartMinutes ≠ sch.StopMinutes := by omega
    simp [hne, h]
  · intro h
    have hne : sch.StartMinutes ≠ sch.StopMinutes := by omega
    have hnlt : ¬ sch.StartMinutes < sch.StopMinutes := by omega
    simp [hne, hnlt]
  · intro h1 h2
    rw [h1, h2]
    refine ⟨?_, ?_, ?_, ?_⟩ <;> intro hh hm <;> rw [hh, hm] <;> decide

/-- C1 witness: the `night` service (22:00 to 06:00, every day) is up on a Monday
at 23:30. -/
theorem C1_window_policy_witness :
    (nightService "both").ShouldBeUp (clock Weekday.Monday 23 30) = true :=
  ((C1_window_policy (nightService "both")
      { Mode := "both", Days := [], StartMinutes := 1320, StopMinutes := 360 }
      (clock Weekday.Monday 23 30) (by decide) (by decide)).2.2.2
    (by decide) (by decide)).1 rfl rfl

/-- C2: for a service with a schedule, if the day set is not empty and does not
contain the weekday of `now` then `ShouldBeUp now` is false whatever start and stop
are; if the day set is empty the day gate is open and changing the weekday of `now`
does not change the result. -/
theorem C2_day_gate (s : ServiceState) (sch : ServiceSchedule) (now : Time)
    (hs : s.Schedule = some sch) :
    (sch.Days.len > 0 → (sch.Days.get? now.Weekday).getD false = false →
      s.ShouldBeUp now = false) ∧
    (sch.Days.len = 0 →
      dayGateOpen sch now = true ∧
      ∀ d : Weekday, s.ShouldBeUp { now with Weekday := d } = s.ShouldBeUp now) := by
  constructor
  · intro hlen hday
    rw [shouldBeUp_of_schedule s sch now hs]
    simp [dayGateOpen, hlen, hday]
  · intro hlen
    have hopen : ∀ t : Time, dayGateOpen sch t = true := by
      intro t
      simp [dayGateOpen, hlen]
    refine ⟨hopen now, ?_⟩
    intro d
    rw [shouldBeUp_of_schedule s sch now hs, shouldBeUp_of_schedule s sch _ hs, hopen, hopen]

/-- C2 witness: the `office` service (Mondays only) is down on a Tuesday at 10:00. -/
theorem C2_day_gate_witness :
    (officeService "schedule_only").ShouldBeUp (clock Weekday.Tuesday 10 0) = false :=
  (C2_day_gate (officeService "schedule_only")
      { Mode := "schedule_only", Days := [(Weekday.Monday, true)],
        StartMinutes := 540, StopMinutes := 1020 }
      (clock Weekday.Tuesday 10 0) (by decide)).1 (by decide) (by decide)

/-- C3: `ShouldBeUp` does not depend on the mode: two service states whose schedules
have the same days, start and stop give the same answer at every time, whatever
their `Schedule.Mode`, their `Config.Mode` and their other fields are. -/
theorem C3_mode_independent (s1 s2 : ServiceState) (sch1 sch2 : ServiceSchedule) (now : Time)
    (h1 : s1.Schedule = some sch1) (h2 : s2.Schedule = some sch2)
    (hdays : sch1.Days = sch2.Days) (hstart : sch1.StartMinutes = sch2.StartMinutes)
    (hstop : sch1.StopMinutes = sch2.StopMinutes) :
    s1.ShouldBeUp now = s2.ShouldBeUp now := by
  rw [shouldBeUp_of_schedule s1 sch1 now h1, shouldBeUp_of_schedule s2 sch2 now h2]
  simp only [dayGateOpen, hdays, hstart, hstop]

/-- C3 witness: the `office` service answers the same in mode `schedule_only` and
in mode `on_demand` on a Monday at 10:00. -/
theorem C3_mode_independent_witness :
    (officeService "schedule_only").ShouldBeUp (clock Weekday.Monday 10 0) =
      (officeService "on_demand").ShouldBeUp (clock Weekday.Monday 10 0) ∧
    (officeService "schedule_only").Schedule ≠ (officeService "on_demand").Schedule :=
  ⟨C3_mode_independent (officeService "schedule_only") (officeService "on_demand")
      { Mode := "schedule_only", Days := [(Weekday.Monday, true)],
        StartMinutes := 540, StopMinutes := 1020 }
      { Mode := "on_demand", Days := [(Weekday.Monday, true)],
        StartMinutes := 540, StopMinutes := 1020 }
      (clock Weekday.Monday 10 0) (by decide) (by decide) rfl rfl rfl,
    by decide⟩

/-! ## Service registry and facade: theorems -/

theorem reachable_regAB : Reachable regAB :=
  Reachable.create _ _ _ _ (Reachable.create _ _ _ _ Reachable.init)

theorem handleCreate_split (lib : Lib) (now : Time) (c : Conslee)
    (body : Option CreateServiceRequest) :
    HandleCreateService lib now c body =
      match createChecked lib now c body with
      | .ok st => (createCommit c st, 201)
      | .error e => (c, e) := by
  cases body with
  | none => rfl
  | some req =>
    unfold HandleCreateService createChecked
    simp only []
    split_ifs
    · rfl
    · rfl
    · rfl
    · rfl
    · rfl
    · rfl
    · cases lib.ParseDuration (createIdleRaw req) with
      | none => rfl
      | some idle =>
        cases lib.ParseDuration req.StartupTimeout with
        | none => rfl
        | some startup =>
          cases createTarget lib req with
          | none => rfl
          | some t => rfl

theorem reachable_interleaved (c : Conslee) (h : Reachable c) : Interleaved c [] := by
  induction h with
  | init => exact Interleaved.init
  | create lib now c body _ ih =>
    rw [handleCreate_split]
    cases hc : createChecked lib now c body with
    | error e => exact ih
    | ok st =>
      exact Interleaved.added c [] [] st (Interleaved.checked lib now c [] body st ih hc)
  | update lib now c name body _ ih => exact Interleaved.update lib now c [] name body ih
  | delete c name _ ih => exact Interleaved.delete c [] name ih

/-- C6 (the code departs from the claim): two create requests that both list the
container name ` web` (with a leading space) are both answered 201, and in the
registry state reached the two different stored services `a` (address 0) and `b`
(address 1) both list ` web`.
`FindContainerConflict` looks for the stored names among the trimmed forms of the
requested names (`web`) and so reports no conflict for the second request, while
`HandleCreateService` stores the names as requested. -/
theorem C6_shared_container_accepted :
    Reachable createWebB.1 ∧
    createWebA.2 = 201 ∧
    FindContainerConflict createWebA.1 [" web"] "" = ("", "") ∧
    createWebB.2 = 201 ∧
    0 ∈ All createWebB.1 ∧
    1 ∈ All createWebB.1 ∧
    GetByName createWebB.1 "a" = some 0 ∧
    GetByName createWebB.1 "b" = some 1 ∧
    (createWebB.1.heap 0).Config.Containers = [" web"] ∧
    (createWebB.1.heap 1).Config.Containers = [" web"] :=
  ⟨Reachable.create _ _ _ _ (Reachable.create _ _ _ _ Reachable.init), by decide⟩

/-- C7: in a registry that holds two different services `a` and `b` with different
non-empty hosts (each found under its host, `b` found under its non-empty name),
an update_service request on `b` whose host, once trimmed, is the host of `a`, and
whose mode is absent, empty or one of the three valid modes, is answered with 409
and leaves the whole state as it was: the registry indexes and every service
state are unchanged, `GetByHost` of the host of `a` is still `a` and `GetByHost`
of the host of `b` is still `b`. The other fields of the request are arbitrary. -/
theorem C7_host_conflict_rejected (lib : Lib) (now : Time) (c : Conslee) (a b : Nat)
    (req : UpdateServiceRequest) (rawHost : String)
    (hab : a ≠ b)
    (hbName : GetByName c (c.heap b).Config.Name = some b)
    (hbNonEmpty : (c.heap b).Config.Name ≠ "")
    (haHost : GetByHost c (c.heap a).Config.Host = some a)
    (hbHost : GetByHost c (c.heap b).Config.Host = some b)
    (haNonEmpty : (c.heap a).Config.Host ≠ "")
    (hdiff : (c.heap a).Config.Host ≠ (c.heap b).Config.Host)
    (hreq : req.Host = some rawHost)
    (htrim : TrimSpace rawHost = (c.heap a).Config.Host)
    (hmode : ∀ m, req.Mode = some m →
      m = "" ∨ m = "on_demand" ∨ m = "schedule_only" ∨ m = "both") :
    (HandleUpdateService lib now c (c.heap b).Config.Name (some req)).2 = 409 ∧
    (HandleUpdateService lib now c (c.heap b).Config.Name (some req)).1 = c ∧
    GetByHost (HandleUpdateService lib now c (c.heap b).Config.Name (some req)).1
      (c.heap a).Config.Host = some a ∧
    GetByHost (HandleUpdateService lib now c (c.heap b).Config.Name (some req)).1
      (c.heap b).Config.Host = some b := by
  have hm : ∃ dm, updDesiredMode (c.heap b).Config.Mode req.Mode = some dm := by
    unfold updDesiredMode
    cases hmo : req.Mode with
    | none => exact ⟨_, rfl⟩
    | some m =>
      dsimp only
      rcases hmode m hmo with h | h | h | h
      · subst h
        exact ⟨((c.heap b).Config.Mode, false), by simp⟩
      · subst h
        exact ⟨("on_demand", true), by simp⟩
      · subst h
        exact ⟨("schedule_only", true), by simp⟩
      · subst h
        exact ⟨("both", true), by simp⟩
  obtain ⟨⟨desiredMode, modeChanged⟩, hm⟩ := hm
  have hhost : updHost c b desiredMode req.Host = .error 409 := by
    unfold updHost
    rw [hreq]
    dsimp only
    rw [htrim]
    have h1 : ¬ (desiredMode ≠ "schedule_only" ∧ (c.heap a).Config.Host = "") :=
      fun h => haNonEmpty h.2
    rw [if_neg h1, if_pos hdiff, haHost]
    dsimp only
    rw [if_pos ⟨haNonEmpty, by simpa using hab⟩]
  have e : HandleUpdateService lib now c (c.heap b).Config.Name (some req) = (c, 409) := by
    unfold HandleUpdateService
    rw [if_neg hbNonEmpty, hbName]
    dsimp only
    rw [hm]
    dsimp only
    rw [hhost]
  rw [e]
  exact ⟨rfl, rfl, haHost, hbHost⟩

/-- C7 witness: with services `a` (host `x.local`) and `b` (host `y.local`),
the update of `b` to host `x.local` is answered 409 and changes nothing. -/
theorem C7_host_conflict_rejected_witness :
    (HandleUpdateService sampleLib (clock Weekday.Monday 10 0) regAB
      (regAB.heap 1).Config.Name (some (sampleSetHost "x.local"))).2 = 409 ∧
    (HandleUpdateService sampleLib (clock Weekday.Monday 10 0) regAB
      (regAB.heap 1).Config.Name (some (sampleSetHost "x.local"))).1 = regAB ∧
    GetByHost (HandleUpdateService sampleLib (clock Weekday.Monday 10 0) regAB
      (regAB.heap 1).Config.Name (some (sampleSetHost "x.local"))).1
      (regAB.heap 0).Config.Host = some 0 ∧
    GetByHost (HandleUpdateService sampleLib (clock Weekday.Monday 10 0) regAB
      (regAB.heap 1).Config.Name (some (sampleSetHost "x.local"))).1
      (regAB.heap 1).Config.Host = some 1 :=
  C7_host_conflict_rejected sampleLib (clock Weekday.Monday 10 0) regAB 0 1
    (sampleSetHost "x.local") "x.local" (by decide) (by decide) (by decide) (by decide)
    (by decide) (by decide) (by decide) rfl (by decide) (by intro m h; cases h)

/-- C8: in a registry that satisfies the lookup invariant, for every stored service
`s`, after `DelByName(s.Config.Name)` both `GetByName(s.Config.Name)` and
`GetByHost(s.Config.Host)` report absence, no service state is changed, and every
other stored service is still returned by `GetByName` for its name and, when its
host is not empty, by `GetByHost` for its host; `DelByName` of a name that is not
present leaves the state as it is. -/
theorem C8_delete_frame (c : Conslee) (hinv : LookupInv c) :
    (∀ p, Stored c p →
      GetByName (DelByName c (c.heap p).Config.Name) (c.heap p).Config.Name = none ∧
      GetByHost (DelByName c (c.heap p).Config.Name) (c.heap p).Config.Host = none ∧
      (DelByName c (c.heap p).Config.Name).heap = c.heap ∧
      ∀ q, Stored c q → q ≠ p →
        GetByName (DelByName c (c.heap p).Config.Name) (c.heap q).Config.Name = some q ∧
        ((c.heap q).Config.Host ≠ "" →
          GetByHost (DelByName c (c.heap p).Config.Name) (c.heap q).Config.Host = some q)) ∧
    (∀ name, GetByName c name = none → DelByName c name = c) := by
  constructor
  · intro p hp
    have hpn : c.reg.byName.get? (c.heap p).Config.Name = some p := (hinv p hp).1
    have e : DelByName c (c.heap p).Config.Name =
        { c with
          reg :=
            { byHost := c.reg.byHost.delete (c.heap p).Config.Host
              byName := c.reg.byName.delete (c.heap p).Config.Name } } := by
      unfold DelByName
      rw [hpn]
    rw [e]
    refine ⟨GoMap.get?_delete_self _ _, GoMap.get?_delete_self _ _, rfl, ?_⟩
    intro q hq hqp
    have hqn : c.reg.byName.get? (c.heap q).Config.Name = some q := (hinv q hq).1
    constructor
    · have hdiff : (c.heap q).Config.Name ≠ (c.heap p).Config.Name := by
        intro heq
        rw [heq, hpn] at hqn
        exact hqp (Option.some.inj hqn).symm
      unfold GetByName
      dsimp only
      rw [GoMap.get?_delete_ne _ hdiff]
      exact hqn
    · intro hqh
      have hq2 : c.reg.byHost.get? (c.heap q).Config.Host = some q := (hinv q hq).2 hqh
      have hdiff : (c.heap q).Config.Host ≠ (c.heap p).Config.Host := by
        intro heq
        have hp2 : c.reg.byHost.get? (c.heap p).Config.Host = some p :=
          (hinv p hp).2 (by rw [← heq]; exact hqh)
        rw [heq, hp2] at hq2
        exact hqp (Option.some.inj hq2).symm
      unfold GetByHost
      dsimp only
      rw [GoMap.get?_delete_ne _ hdiff]
      exact hq2
  · intro name hnone
    unfold GetByName at hnone
    unfold DelByName
    rw [hnone]

/-- C8 witness: in the registry holding `a` and `b`, deleting `b` (address 1)
removes both of its index entries and keeps `a` (address 0) resolvable. -/
theorem C8_delete_frame_witness :
    GetByName (DelByName regAB (regAB.heap 1).Config.Name) (regAB.heap 1).Config.Name = none ∧
    GetByHost (DelByName regAB (regAB.heap 1).Config.Name) (regAB.heap 1).Config.Host = none ∧
    (DelByName regAB (regAB.heap 1).Config.Name).heap = regAB.heap ∧
    ∀ q, Stored regAB q → q ≠ 1 →
      GetByName (DelByName regAB (regAB.heap 1).Config.Name) (regAB.heap q).Config.Name =
        some q ∧
      ((regAB.heap q).Config.Host ≠ "" →
        GetByHost (DelByName regAB (regAB.heap 1).Config.Name) (regAB.heap q).Config.Host =
          some q) :=
  (C8_delete_frame regAB (lookupInv_of_regInv regAB (reachable_regInv regAB reachable_regAB))).1
    1 (by unfold Stored; decide)

/-! ## Ensure-running: theorems -/

theorem startLoop_all_running {σ : Type} (rt : Runtime σ) (P : σ → Prop)
    (names : List String)
    (hrun : ∀ w n, P w → n ∈ names →
      (rt.Inspect w n).2 = .ok true ∧ P (rt.Inspect w n).1) :
    ∀ (w : σ) (b : Bool), P w →
      (startLoop rt w names b).result = .ok b ∧
      (startLoop rt w names b).calls = names.map (fun n => Call.Inspect n (.ok true)) ∧
      P (startLoop rt w names b).world := by
  induction names with
  | nil =>
    intro w b hw
    exact ⟨rfl, rfl, hw⟩
  | cons n rest ih =>
    intro w b hw
    obtain ⟨h1, h2⟩ := hrun w n hw (List.mem_cons_self _ _)
    have ih2 := ih (fun w' m hw' hm => hrun w' m hw' (List.mem_cons_of_mem _ hm))
      (rt.Inspect w n).1 b h2
    rcases hI : rt.Inspect w n with ⟨w1, res⟩
    rw [hI] at h1 ih2
    dsimp only at h1 ih2
    subst h1
    simp only [startLoop, hI, List.map_cons]
    exact ⟨ih2.1, by rw [ih2.2.1], ih2.2.2⟩

/-- C9: for a service whose resolved container list is not empty, if every
container of the list inspects as running (in every state of the outside world of
a set `P` that holds now and is closed under these inspects), then `ensureRunning`
returns nil and its calls are exactly one inspect per container: no start call,
no TCP or HTTP probe; and a second call made right after does the same. -/
theorem C9_ensureRunning_idempotent {σ : Type} (rt : Runtime σ) (svc : ServiceState)
    (P : σ → Prop) (w : σ)
    (hnames : resolveNames svc.Config ≠ [])
    (hrun : ∀ w' n, P w' → n ∈ resolveNames svc.Config →
      (rt.Inspect w' n).2 = .ok true ∧ P (rt.Inspect w' n).1)
    (hw : P w) :
    (ensureRunning rt w svc).result = none ∧
    (ensureRunning rt w svc).calls =
      (resolveNames svc.Config).map (fun n => Call.Inspect n (.ok true)) ∧
    (∀ c ∈ (ensureRunning rt w svc).calls, c.isInspect = true ∧ c.isProbe = false) ∧
    (ensureRunning rt (ensureRunning rt w svc).world svc).result = none ∧
    (ensureRunning rt (ensureRunning rt w svc).world svc).calls =
      (resolveNames svc.Config).map (fun n => Call.Inspect n (.ok true)) ∧
    (∀ c ∈ (ensureRunning rt (ensureRunning rt w svc).world svc).calls,
      c.isInspect = true ∧ c.isProbe = false) := by
  have one : ∀ w0, P w0 →
      (ensureRunning rt w0 svc).result = none ∧
      (ensureRunning rt w0 svc).calls =
        (resolveNames svc.Config).map (fun n => Call.Inspect n (.ok true)) ∧
      P (ensureRunning rt w0 svc).world := by
    intro w0 hw0
    obtain ⟨h1, h2, h3⟩ :=
      startLoop_all_running rt P (resolveNames svc.Config) hrun w0 false hw0
    have hlen : ¬ (resolveNames svc.Config).length = 0 := by
      intro h
      exact hnames (List.length_eq_zero.mp h)
    unfold ensureRunning
    simp only [hlen, if_false, h1]
    exact ⟨rfl, h2, h3⟩
  have onlyInspect : ∀ c ∈ (resolveNames svc.Config).map (fun n => Call.Inspect n (.ok true)),
      c.isInspect = true ∧ c.isProbe = false := by
    intro c hc
    obtain ⟨n, _, rfl⟩ := List.mem_map.mp hc
    exact ⟨rfl, rfl⟩
  obtain ⟨a1, a2, a3⟩ := one w hw
  obtain ⟨b1, b2, _⟩ := one _ a3
  refine ⟨a1, a2, ?_, b1, b2, ?_⟩
  · rw [a2]
    exact onlyInspect
  · rw [b2]
    exact onlyInspect

/-- C9 witness: the service `app` with its container `app-c` already running: two
calls in a row return nil and only inspect. -/
theorem C9_ensureRunning_idempotent_witness :
    (ensureRunning sampleRuntime ["app-c"] appService).result = none ∧
    (ensureRunning sampleRuntime ["app-c"] appService).calls =
      (resolveNames appService.Config).map (fun n => Call.Inspect n (.ok true)) ∧
    (∀ c ∈ (ensureRunning sampleRuntime ["app-c"] appService).calls,
      c.isInspect = true ∧ c.isProbe = false) ∧
    (ensureRunning sampleRuntime
      (ensureRunning sampleRuntime ["app-c"] appService).world appService).result = none ∧
    (ensureRunning sampleRuntime
      (ensureRunning sampleRuntime ["app-c"] appService).world appService).calls =
      (resolveNames appService.Config).map (fun n => Call.Inspect n (.ok true)) ∧
    (∀ c ∈ (ensureRunning sampleRuntime
        (ensureRunning sampleRuntime ["app-c"] appService).world appService).calls,
      c.isInspect = true ∧ c.isProbe = false) :=
  C9_ensureRunning_idempotent sampleRuntime appService (fun w => "app-c" ∈ w) ["app-c"]
    (by decide)
    (by
      intro w' n hw' hn
      have hn2 : n = "app-c" := by simpa [resolveNames, appService] using hn
      subst hn2
      exact ⟨by simp [sampleRuntime, hw'], hw'⟩)
    (by decide)

theorem inspectedNames_append_probes (l p : List Call) (hp : ∀ c ∈ p, c.isProbe = true) :
    inspectedNames (l ++ p) = inspectedNames l := by
  unfold inspectedNames
  rw [List.filterMap_append]
  have : List.filterMap Call.inspectedName? p = [] := by
    rw [List.filterMap_eq_nil_iff]
    intro c hc
    have := hp c hc
    cases c <;> simp [Call.isProbe, Call.inspectedName?] at this ⊢
  rw [this, List.append_nil]

theorem startLoop_facts {σ : Type} (rt : Runtime σ) (names : List String) :
    ∀ (w : σ) (b : Bool),
      LoopFacts names b (startLoop rt w names b).calls (startLoop rt w names b).result := by
  induction names with
  | nil =>
    intro w b
    refine ⟨?_, ?_, ?_, ?_, ?_, ?_, ?_, ?_, ?_, ?_, ?_⟩ <;> simp [startLoop, inspectedNames]
  | cons n rest ih =>
    intro w b
    rcases hI : rt.Inspect w n with ⟨w1, e | running⟩
    · simp only [startLoop, hI]
      refine ⟨?_, ?_, ?_, ?_, ?_, ?_, ?_, ?_, ?_, ?_, ?_⟩
      · simp [inspectedNames, Call.inspectedName?]
      · simp
      · simp [Call.isInspect]
      · simp [Call.isProbe]
      · simp [Call.error?]
      · simp [Call.error?]
      · simp
      · simp
      · simp
      · simp
      · intro c hc
        simp at hc
        subst hc
        rfl
    · cases running
      · rcases hS : rt.Start w1 n with ⟨w2, _ | e⟩
        · have h := ih w2 true
          simp only [startLoop, hI, hS]
          refine ⟨?_, ?_, ?_, ?_, ?_, ?_, ?_, ?_, ?_, ?_, ?_⟩
          · simpa [inspectedNames, Call.inspectedName?, List.prefix_cons_inj] using h.order
          · rw [List.chain'_cons, List.chain'_cons']
            refine ⟨by simp [allowedNext], ?_, h.chain⟩
            intro y hy
            have := h.head y (by simpa using hy)
            cases y <;> simp [Call.isInspect] at this
            simp [allowedNext]
          · simp [Call.isInspect]
          · intro c hc
            simp only [List.mem_cons] at hc
            rcases hc with rfl | rfl | hc
            · rfl
            · rfl
            · exact h.noProbe c hc
          · intro c hc e he
            simp only [List.mem_cons] at hc
            rcases hc with rfl | rfl | hc
            · simp [Call.error?] at he
            · simp [Call.error?] at he
            · exact h.failure c hc e he
          · intro e he
            obtain ⟨c, hc, hce⟩ := h.errorHasCall e he
            exact ⟨c, by simp [hc], hce⟩
          · intro b' hb' c hc
            simp only [List.mem_cons] at hc
            rcases hc with rfl | rfl | hc
            · rfl
            · rfl
            · exact h.okClean b' hb' c hc
          · intro b' hb'
            simpa [inspectedNames, Call.inspectedName?] using h.okAll b' hb'
          · intro b' hb'
            have := (h.okWait b' hb').mpr (Or.inl rfl)
            simp [this]
          · intro b' hb' c hc hp t r
            cases hcalls : (startLoop rt w2 rest true).calls with
            | nil =>
              rw [hcalls] at hc
              simp at hc
              subst hc
              simp [allowedNext]
            | cons d l =>
              rw [hcalls] at hc
              rw [List.getLast?_cons_cons, List.getLast?_cons_cons] at hc
              exact h.okLast b' hb' c (by rw [hcalls]; exact hc) hp t r
          · intro c hc
            cases hcalls : (startLoop rt w2 rest true).calls with
            | nil =>
              rw [hcalls] at hc
              simp at hc
              subst hc
              rfl
            | cons d l =>
              rw [hcalls] at hc
              rw [List.getLast?_cons_cons, List.getLast?_cons_cons] at hc
              exact h.lastStarted c (by rw [hcalls]; exact hc)
        · simp only [startLoop, hI, hS]
          refine ⟨?_, ?_, ?_, ?_, ?_, ?_, ?_, ?_, ?_, ?_, ?_⟩
          · simp [inspectedNames, Call.inspectedName?]
          · simp [allowedNext]
          · simp [Call.isInspect]
          · simp [Call.isProbe]
          · simp [Call.error?]
          · simp [Call.error?]
          · simp
          · simp
          · simp
          · simp
          · intro c hc
            simp at hc
            subst hc
            rfl
      · have h := ih w1 b
        simp only [startLoop, hI]
        refine ⟨?_, ?_, ?_, ?_, ?_, ?_, ?_, ?_, ?_, ?_, ?_⟩
        · simpa [inspectedNames, Call.inspectedName?, List.prefix_cons_inj] using h.order
        · rw [List.chain'_cons']
          refine ⟨?_, h.chain⟩
          intro y hy
          have := h.head y (by simpa using hy)
          cases y <;> simp [Call.isInspect] at this
          simp [allowedNext]
        · simp [Call.isInspect]
        · intro c hc
          simp only [List.mem_cons] at hc
          rcases hc with rfl | hc
          · rfl
          · exact h.noProbe c hc
        · intro c hc e he
          simp only [List.mem_cons] at hc
          rcases hc with rfl | hc
          · simp [Call.error?] at he
          · exact h.failure c hc e he
        · intro e he
          obtain ⟨c, hc, hce⟩ := h.errorHasCall e he
          exact ⟨c, by simp [hc], hce⟩
        · intro b' hb' c hc
          simp only [List.mem_cons] at hc
          rcases hc with rfl | hc
          · rfl
          · exact h.okClean b' hb' c hc
        · intro b' hb'
          simpa [inspectedNames, Call.inspectedName?] using h.okAll b' hb'
        · intro b' hb'
          rw [h.okWait b' hb']
          simp
        · intro b' hb' c hc hp t r
          cases hcalls : (startLoop rt w1 rest b).calls with
          | nil =>
            rw [hcalls] at hc
            simp at hc
            subst hc
            simp [allowedNext]
          | cons d l =>
            rw [hcalls] at hc
            rw [List.getLast?_cons_cons] at hc
            exact h.okLast b' hb' c (by rw [hcalls]; exact hc) hp t r
        · intro c hc
          cases hcalls : (startLoop rt w1 rest b).calls with
          | nil =>
            rw [hcalls] at hc
            simp at hc
            subst hc
            rfl
          | cons d l =>
            rw [hcalls] at hc
            rw [List.getLast?_cons_cons] at hc
            exact h.lastStarted c (by rw [hcalls]; exact hc)


theorem allowedNext_failed (c d : Call) (h : c.failed = true) : allowedNext c d = false := by
  cases c with
  | Inspect n r =>
    cases r with
    | error e => cases d <;> rfl
    | ok b => simp [Call.failed, Call.error?] at h
  | Start n r =>
    cases r with
    | none => simp [Call.failed, Call.error?] at h
    | some e => cases d <;> rfl
  | WaitTCP hp t r =>
    cases r with
    | none => simp [Call.failed, Call.error?] at h
    | some e => cases d <;> rfl
  | WaitHTTP u p t r => cases d <;> rfl

theorem chain_failed_last (l : List Call)
    (hch : List.Chain' (fun x y => allowedNext x y = true) l) (c : Call) (hc : c ∈ l)
    (hf : c.failed = true) : l.getLast? = some c := by
  obtain ⟨pre, post, rfl⟩ := List.append_of_mem hc
  have h2 := (List.chain'_split.mp hch).2
  cases post with
  | nil => simp
  | cons d rest =>
    rw [List.chain'_cons] at h2
    rw [allowedNext_failed c d hf] at h2
    exact absurd h2.1 (by decide)

theorem runFacts_noContainers (svc : ServiceState) (h : resolveNames svc.Config = []) :
    RunFacts svc [] (some (EnsureError.noContainers svc.Config.Name)) := by
  refine ⟨?_, ?_, ?_, ?_, ?_, ?_, ?_, ?_, ?_⟩ <;> simp [inspectedNames, h]

theorem runFacts_loopError (svc : ServiceState) (calls : List Call) (e : EnsureError)
    (h : LoopFacts (resolveNames svc.Config) false calls (.error e)) :
    RunFacts svc calls (some e) := by
  refine ⟨h.order, h.chain, h.head, ?_, ?_, ?_, ?_, ?_, h.lastStarted⟩
  · intro c hc hf
    unfold Call.failed at hf
    obtain ⟨e2, he2⟩ := Option.isSome_iff_exists.mp hf
    have := h.failure c hc e2 he2
    cases this
    exact he2.symm
  · constructor
    · intro h0
      cases h0
    · intro h0
      obtain ⟨c, hc, hce⟩ := h.errorHasCall e rfl
      have := h0.2 c hc
      simp [Call.failed, hce] at this
  · intro h0
    cases h0
  · intro c hc hp
    rw [h.noProbe c hc] at hp
    cases hp
  · intro u _ _ _ hclean
    obtain ⟨c, hc, hce⟩ := h.errorHasCall e rfl
    have := hclean c hc (h.noProbe c hc)
    simp [Call.failed, hce] at this

theorem runFacts_loopOk (svc : ServiceState) (calls : List Call) (b : Bool)
    (hne : resolveNames svc.Config ≠ [])
    (h : LoopFacts (resolveNames svc.Config) false calls (.ok b))
    (hskip : b = false ∨ svc.Target = none ∨ ∃ u, svc.Target = some u ∧ u.Host = "") :
    RunFacts svc calls none := by
  have hclean : ∀ c ∈ calls, c.failed = false := by
    intro c hc
    simp [Call.failed, h.okClean b rfl c hc]
  refine ⟨h.order, h.chain, h.head, ?_, ?_, ?_, ?_, ?_, h.lastStarted⟩
  · intro c hc hf
    rw [hclean c hc] at hf
    cases hf
  · exact ⟨fun _ => ⟨hne, hclean⟩, fun _ => rfl⟩
  · intro _
    exact h.okAll b rfl
  · intro c hc hp
    rw [h.noProbe c hc] at hp
    cases hp
  · intro u hu hhost hstarted _
    exfalso
    rcases hskip with hb | ht | ⟨u2, hu2, hh2⟩
    · have := (h.okWait b rfl).mpr (Or.inr hstarted)
      rw [hb] at this
      cases this
    · rw [ht] at hu
      cases hu
    · rw [hu2] at hu
      cases hu
      exact hhost hh2

theorem runFacts_probes (svc : ServiceState) (calls probes : List Call)
    (result : Option EnsureError) (u : URL)
    (hne : resolveNames svc.Config ≠ [])
    (h : LoopFacts (resolveNames svc.Config) false calls (.ok true))
    (hu : svc.Target = some u) (hhost : u.Host ≠ "")
    (hshape :
      (∃ e, probes = [Call.WaitTCP u.Host (startupTimeout svc.Config) (some e)] ∧
        result = some (EnsureError.probe e)) ∨
      (∃ e, probes = [Call.WaitTCP u.Host (startupTimeout svc.Config) none,
          Call.WaitHTTP u svc.Config.HealthPath (startupTimeout svc.Config) (some e)] ∧
        result = some (EnsureError.probe e)) ∨
      (probes = [Call.WaitTCP u.Host (startupTimeout svc.Config) none,
          Call.WaitHTTP u svc.Config.HealthPath (startupTimeout svc.Config) none] ∧
        result = none)) :
    RunFacts svc (calls ++ probes) result := by
  have hclean : ∀ c ∈ calls, c.failed = false := by
    intro c hc
    simp [Call.failed, h.okClean true rfl c hc]
  have hcallsne : calls ≠ [] := by
    intro h0
    have := h.okAll true rfl
    rw [h0] at this
    exact hne this.symm
  have hstarted : ∃ n, Call.Start n none ∈ calls := by
    have := (h.okWait true rfl).mp rfl
    simpa using this
  -- facts about the probe part, whatever its shape
  have hp_probe : ∀ c ∈ probes, c.isProbe = true ∧
      ((∃ r, c = Call.WaitTCP u.Host (startupTimeout svc.Config) r) ∨
       (∃ r, c = Call.WaitHTTP u svc.Config.HealthPath (startupTimeout svc.Config) r)) := by
    intro c hc
    rcases hshape with ⟨e, rfl, _⟩ | ⟨e, rfl, _⟩ | ⟨rfl, _⟩ <;>
      simp only [List.mem_cons, List.mem_singleton, List.not_mem_nil, or_false] at hc <;>
      rcases hc with rfl | rfl <;>
      first
        | exact ⟨rfl, Or.inl ⟨_, rfl⟩⟩
        | exact ⟨rfl, Or.inr ⟨_, rfl⟩⟩
  have hp_chain : List.Chain' (fun x y => allowedNext x y = true) probes := by
    rcases hshape with ⟨e, rfl, _⟩ | ⟨e, rfl, _⟩ | ⟨rfl, _⟩ <;> simp [allowedNext]
  have hp_head : ∀ y ∈ probes.head?, ∃ r, y = Call.WaitTCP u.Host (startupTimeout svc.Config) r := by
    intro y hy
    rcases hshape with ⟨e, rfl, _⟩ | ⟨e, rfl, _⟩ | ⟨rfl, _⟩ <;>
      simp at hy <;> exact ⟨_, hy.symm⟩
  have hp_fail : ∀ c ∈ probes, c.failed = true → result = c.error? := by
    intro c hc hf
    rcases hshape with ⟨e, rfl, rfl⟩ | ⟨e, rfl, rfl⟩ | ⟨rfl, rfl⟩ <;>
      simp only [List.mem_cons, List.mem_singleton, List.not_mem_nil, or_false] at hc <;>
      rcases hc with rfl | rfl <;>
      first
        | rfl
        | (simp [Call.failed, Call.error?] at hf)
  have hp_ok : result = none ↔ ∀ c ∈ probes, c.failed = false := by
    rcases hshape with ⟨e, rfl, rfl⟩ | ⟨e, rfl, rfl⟩ | ⟨rfl, rfl⟩ <;>
      simp [Call.failed, Call.error?]
  have hp_tcp : ∃ r, Call.WaitTCP u.Host (startupTimeout svc.Config) r ∈ probes ∧
      (r = none →
        ∃ r2, Call.WaitHTTP u svc.Config.HealthPath (startupTimeout svc.Config) r2 ∈ probes) := by
    rcases hshape with ⟨e, rfl, _⟩ | ⟨e, rfl, _⟩ | ⟨rfl, _⟩
    · exact ⟨some e, by simp, by intro h0; cases h0⟩
    · exact ⟨none, by simp, fun _ => ⟨some e, by simp⟩⟩
    · exact ⟨none, by simp, fun _ => ⟨none, by simp⟩⟩
  have hinsp : inspectedNames (calls ++ probes) = inspectedNames calls :=
    inspectedNames_append_probes calls probes (fun c hc => (hp_probe c hc).1)
  refine ⟨?_, ?_, ?_, ?_, ?_, ?_, ?_, ?_, ?_⟩
  · rw [hinsp]
    exact h.order
  · refine List.Chain'.append h.chain hp_chain ?_
    intro x hx y hy
    obtain ⟨r, rfl⟩ := hp_head y hy
    exact h.okLast true rfl x (by simpa using hx) _ _ _
  · intro c hc
    cases hcalls : calls with
    | nil => exact absurd hcalls hcallsne
    | cons d l =>
      rw [hcalls] at hc
      simp only [List.cons_append, List.head?_cons, Option.some.injEq] at hc
      exact h.head c (by rw [hcalls]; simp [hc])
  · intro c hc hf
    rcases List.mem_append.mp hc with h1 | h1
    · rw [hclean c h1] at hf
      cases hf
    · exact hp_fail c h1 hf
  · rw [hp_ok]
    constructor
    · intro h0
      refine ⟨hne, ?_⟩
      intro c hc
      rcases List.mem_append.mp hc with h1 | h1
      · exact hclean c h1
      · exact h0 c h1
    · intro h0 c hc
      exact h0.2 c (List.mem_append.mpr (Or.inr hc))
  · intro _
    rw [hinsp]
    exact h.okAll true rfl
  · intro c hc hp
    have hstarted2 : ∃ n, Call.Start n none ∈ calls ++ probes := by
      obtain ⟨n, hn⟩ := hstarted
      exact ⟨n, List.mem_append.mpr (Or.inl hn)⟩
    refine ⟨hstarted2, u, hu, hhost, ?_⟩
    rcases List.mem_append.mp hc with h1 | h1
    · rw [h.noProbe c h1] at hp
      cases hp
    · exact (hp_probe c h1).2
  · intro u2 hu2 _ _ _
    rw [hu] at hu2
    cases hu2
    obtain ⟨r, hr, hr2⟩ := hp_tcp
    refine ⟨r, List.mem_append.mpr (Or.inr hr), ?_⟩
    intro h0
    obtain ⟨r2, h2⟩ := hr2 h0
    exact ⟨r2, List.mem_append.mpr (Or.inr h2)⟩
  · intro c hc
    have hpne : probes ≠ [] := by
      rcases hshape with ⟨e, rfl, _⟩ | ⟨e, rfl, _⟩ | ⟨rfl, _⟩ <;> simp
    rw [List.getLast?_append_of_ne_nil _ hpne] at hc
    have hmem : c ∈ probes := List.mem_of_getLast?_eq_some hc
    have := (hp_probe c hmem).1
    cases c <;> simp [Call.isProbe] at this <;> rfl

theorem waitReady_shape {σ : Type} (rt : Runtime σ) (w : σ) (svc : ServiceState) :
    ((svc.Target = none ∨ ∃ u, svc.Target = some u ∧ u.Host = "") ∧
      (waitReady rt w svc (startupTimeout svc.Config)).calls = [] ∧
      (waitReady rt w svc (startupTimeout svc.Config)).result = none) ∨
    ∃ u, svc.Target = some u ∧ u.Host ≠ "" ∧
      ((∃ e, (waitReady rt w svc (startupTimeout svc.Config)).calls =
            [Call.WaitTCP u.Host (startupTimeout svc.Config) (some e)] ∧
          (waitReady rt w svc (startupTimeout svc.Config)).result =
            some (EnsureError.probe e)) ∨
        (∃ e, (waitReady rt w svc (startupTimeout svc.Config)).calls =
            [Call.WaitTCP u.Host (startupTimeout svc.Config) none,
              Call.WaitHTTP u svc.Config.HealthPath (startupTimeout svc.Config) (some e)] ∧
          (waitReady rt w svc (startupTimeout svc.Config)).result =
            some (EnsureError.probe e)) ∨
        ((waitReady rt w svc (startupTimeout svc.Config)).calls =
            [Call.WaitTCP u.Host (startupTimeout svc.Config) none,
              Call.WaitHTTP u svc.Config.HealthPath (startupTimeout svc.Config) none] ∧
          (waitReady rt w svc (startupTimeout svc.Config)).result = none)) := by
  unfold waitReady
  cases ht : svc.Target with
  | none => exact Or.inl ⟨Or.inl rfl, rfl, rfl⟩
  | some u =>
    dsimp only
    by_cases hh : u.Host = ""
    · rw [if_pos hh]
      exact Or.inl ⟨Or.inr ⟨u, rfl, hh⟩, rfl, rfl⟩
    · rw [if_neg hh]
      refine Or.inr ⟨u, rfl, hh, ?_⟩
      rcases hT : rt.waitTCP w u.Host (startupTimeout svc.Config) with ⟨w1, _ | e⟩
      · dsimp only
        rcases hH : waitHTTP rt w1 u svc.Config.HealthPath (startupTimeout svc.Config) with
          ⟨w2, _ | e⟩
        · exact Or.inr (Or.inr ⟨rfl, rfl⟩)
        · exact Or.inr (Or.inl ⟨e, rfl, rfl⟩)
      · exact Or.inl ⟨e, rfl, rfl⟩

theorem ensureRunning_facts {σ : Type} (rt : Runtime σ) (w : σ) (svc : ServiceState) :
    RunFacts svc (ensureRunning rt w svc).calls (ensureRunning rt w svc).result := by
  by_cases hnil : resolveNames svc.Config = []
  · have e : ensureRunning rt w svc =
        { world := w, calls := [], result := some (EnsureError.noContainers svc.Config.Name) } := by
      unfold ensureRunning
      simp [hnil]
    rw [e]
    exact runFacts_noContainers svc hnil
  · have hlen : ¬ (resolveNames svc.Config).length = 0 := by
      intro h
      exact hnil (List.length_eq_zero.mp h)
    have hL := startLoop_facts rt (resolveNames svc.Config) w false
    rcases hres : (startLoop rt w (resolveNames svc.Config) false).result with e | b
    · rw [hres] at hL
      have e1 : (ensureRunning rt w svc).calls =
          (startLoop rt w (resolveNames svc.Config) false).calls := by
        unfold ensureRunning
        simp [hlen, hres]
      have e2 : (ensureRunning rt w svc).result = some e := by
        unfold ensureRunning
        simp [hlen, hres]
      rw [e1, e2]
      exact runFacts_loopError svc _ e hL
    · rw [hres] at hL
      cases b with
      | false =>
        have e1 : (ensureRunning rt w svc).calls =
            (startLoop rt w (resolveNames svc.Config) false).calls := by
          unfold ensureRunning
          simp [hlen, hres]
        have e2 : (ensureRunning rt w svc).result = none := by
          unfold ensureRunning
          simp [hlen, hres]
        rw [e1, e2]
        exact runFacts_loopOk svc _ false hnil hL (Or.inl rfl)
      | true =>
        have e1 : (ensureRunning rt w svc).calls =
            (startLoop rt w (resolveNames svc.Config) false).calls ++
              (waitReady rt (startLoop rt w (resolveNames svc.Config) false).world svc
                (startupTimeout svc.Config)).calls := by
          unfold ensureRunning
          simp [hlen, hres]
        have e2 : (ensureRunning rt w svc).result =
            (waitReady rt (startLoop rt w (resolveNames svc.Config) false).world svc
              (startupTimeout svc.Config)).result := by
          unfold ensureRunning
          simp [hlen, hres]
        rw [e1, e2]
        rcases waitReady_shape rt (startLoop rt w (resolveNames svc.Config) false).world svc with
          ⟨hskip, hc, hr⟩ | ⟨u, hu, hhost, hshape⟩
        · rw [hc, hr, List.append_nil]
          exact runFacts_loopOk svc _ true hnil hL (Or.inr hskip)
        · exact runFacts_probes svc _ _ _ u hnil hL hu hhost hshape

theorem replays_append {σ : Type} (rt : Runtime σ) (xs ys : List Call) :
    ∀ (w w1 w2 : σ), Replays rt w xs w1 → Replays rt w1 ys w2 → Replays rt w (xs ++ ys) w2 := by
  induction xs with
  | nil =>
    intro w w1 w2 h1 h2
    simp only [Replays] at h1
    subst h1
    exact h2
  | cons x rest ih =>
    intro w w1 w2 h1 h2
    obtain ⟨w', hx, hrest⟩ := h1
    exact ⟨w', hx, ih w' w1 w2 hrest h2⟩

theorem startLoop_replays {σ : Type} (rt : Runtime σ) (names : List String) :
    ∀ (w : σ) (b : Bool),
      Replays rt w (startLoop rt w names b).calls (startLoop rt w names b).world := by
  induction names with
  | nil =>
    intro w b
    simp [startLoop, Replays]
  | cons name rest ih =>
    intro w b
    unfold startLoop
    rcases hI : rt.Inspect w name with ⟨w1, e | r⟩
    · exact ⟨w1, hI, rfl⟩
    · cases r with
      | true => exact ⟨w1, hI, ih w1 b⟩
      | false =>
        rcases hS : rt.Start w1 name with ⟨w2, _ | e⟩
        · simp only [hS]
          exact ⟨w1, hI, w2, hS, ih w2 true⟩
        · simp only [hS]
          exact ⟨w1, hI, w2, hS, rfl⟩

theorem waitReady_replays {σ : Type} (rt : Runtime σ) (w : σ) (svc : ServiceState)
    (timeout : Int) :
    Replays rt w (waitReady rt w svc timeout).calls (waitReady rt w svc timeout).world := by
  unfold waitReady
  cases svc.Target with
  | none => simp [Replays]
  | some u =>
    simp only
    by_cases hh : u.Host = ""
    · rw [if_pos hh]
      simp [Replays]
    · rw [if_neg hh]
      rcases hT : rt.waitTCP w u.Host timeout with ⟨w1, _ | e⟩
      · simp only
        rcases hH : waitHTTP rt w1 u svc.Config.HealthPath timeout with ⟨w2, _ | e⟩
        · exact ⟨w1, hT, w2, hH, rfl⟩
        · exact ⟨w1, hT, w2, hH, rfl⟩
      · exact ⟨w1, hT, rfl⟩

theorem ensureRunning_replays {σ : Type} (rt : Runtime σ) (w : σ) (svc : ServiceState) :
    Replays rt w (ensureRunning rt w svc).calls (ensureRunning rt w svc).world := by
  unfold ensureRunning
  simp only []
  by_cases hl : (resolveNames svc.Config).length = 0
  · rw [if_pos hl]
    simp [Replays]
  · rw [if_neg hl]
    have h1 := startLoop_replays rt (resolveNames svc.Config) w false
    rcases hres : (startLoop rt w (resolveNames svc.Config) false).result with e | b
    · exact h1
    · cases b with
      | false => exact h1
      | true =>
        simp only [Bool.not_true, Bool.false_eq_true, if_false]
        exact replays_append rt _ _ _ _ _ h1
          (waitReady_replays rt _ svc (startupTimeout svc.Config))

/-- C10: `ensureRunning` follows its algorithm. For every runtime, outside world and
service: (1) the containers inspected are a leading part of the resolved list, in
list order; (2) the calls are chained as the algorithm prescribes (`allowedNext`):
a start only right after the inspect of the same container that reported not
running, and such an inspect is followed by that start and by nothing else (it is
never the last call); the next inspect or `waitTCP` only after an inspect that
reported running or a successful start; `waitHTTP` only right after a successful
`waitTCP`; nothing after a failed call; and the first call is an inspect; (3) a
failed call is the last call and its error
is the one returned; (4) the result is nil exactly when the resolved list is not
empty and no call failed; (5) when the result is nil every container of the list
was inspected; (6) a probe is called only if some container was started and the
target has a host, with that host, the startup timeout and the health path as
arguments; (7) if some container was started, no inspect or start failed and the
target has a host, then `waitTCP` is called, and `waitHTTP` too when `waitTCP`
succeeded; (8) with no target no probe is called; (9) the calls are exactly what the
runtime and the probes were asked, one after the other: each recorded answer is the
answer given in the world the call before it left, and the world after the run is
the one the last call left (`Replays`); (10) the cold wake of `app` is evaluated:
with probes that succeed the calls are inspect, start, `waitTCP`, `waitHTTP` and the
result is nil, and with a `waitTCP` that fails the calls end with that `waitTCP`,
`waitHTTP` is not called and the probe error is returned. -/
theorem C10_ensureRunning_algorithm {σ : Type} (rt : Runtime σ) (w : σ) (svc : ServiceState) :
    inspectedNames (ensureRunning rt w svc).calls <+: resolveNames svc.Config ∧
    (List.Chain' (fun x y => allowedNext x y = true) (ensureRunning rt w svc).calls ∧
      (∀ c, (ensureRunning rt w svc).calls.head? = some c → c.isInspect = true) ∧
      ∀ c, (ensureRunning rt w svc).calls.getLast? = some c → c.reportsStopped = false) ∧
    (∀ c ∈ (ensureRunning rt w svc).calls, c.failed = true →
      (ensureRunning rt w svc).calls.getLast? = some c ∧
      (ensureRunning rt w svc).result = c.error?) ∧
    ((ensureRunning rt w svc).result = none ↔
      resolveNames svc.Config ≠ [] ∧
        ∀ c ∈ (ensureRunning rt w svc).calls, c.failed = false) ∧
    ((ensureRunning rt w svc).result = none →
      inspectedNames (ensureRunning rt w svc).calls = resolveNames svc.Config) ∧
    (∀ c ∈ (ensureRunning rt w svc).calls, c.isProbe = true →
      (∃ n, Call.Start n none ∈ (ensureRunning rt w svc).calls) ∧
      ∃ u, svc.Target = some u ∧ u.Host ≠ "" ∧
        ((∃ r, c = Call.WaitTCP u.Host (startupTimeout svc.Config) r) ∨
         (∃ r, c = Call.WaitHTTP u svc.Config.HealthPath (startupTimeout svc.Config) r))) ∧
    (∀ u, svc.Target = some u → u.Host ≠ "" →
      (∃ n, Call.Start n none ∈ (ensureRunning rt w svc).calls) →
      (∀ c ∈ (ensureRunning rt w svc).calls, c.isProbe = false → c.failed = false) →
      ∃ r, Call.WaitTCP u.Host (startupTimeout svc.Config) r ∈ (ensureRunning rt w svc).calls ∧
        (r = none →
          ∃ r2, Call.WaitHTTP u svc.Config.HealthPath (startupTimeout svc.Config) r2 ∈
            (ensureRunning rt w svc).calls)) ∧
    (svc.Target = none → ∀ c ∈ (ensureRunning rt w svc).calls, c.isProbe = false) ∧
    Replays rt w (ensureRunning rt w svc).calls (ensureRunning rt w svc).world ∧
    ((ensureRunning sampleRuntime [] appService).calls =
        [Call.Inspect "app-c" (.ok false), Call.Start "app-c" none,
          Call.WaitTCP "127.0.0.1:9000" 10000000000 none,
          Call.WaitHTTP { raw := "http://127.0.0.1:9000", Host := "127.0.0.1:9000" } "/healthz"
            10000000000 none] ∧
      (ensureRunning sampleRuntime [] appService).result = none ∧
      (ensureRunning sampleRuntime [] appService).world = ["app-c"] ∧
      (ensureRunning tcpDownRuntime [] appService).calls =
        [Call.Inspect "app-c" (.ok false), Call.Start "app-c" none,
          Call.WaitTCP "127.0.0.1:9000" 10000000000 (some "connection refused")] ∧
      (ensureRunning tcpDownRuntime [] appService).result =
        some (EnsureError.probe "connection refused") ∧
      (ensureRunning tcpDownRuntime [] appService).world = ["app-c"]) := by
  have h := ensureRunning_facts rt w svc
  refine ⟨h.order, ⟨h.chain, h.head, h.lastStarted⟩, ?_, h.okIff, h.okAll, h.probeOnly,
    h.probeDue, ?_, ensureRunning_replays rt w svc, rfl, by decide, by decide, rfl, by decide,
    by decide⟩
  · intro c hc hf
    exact ⟨chain_failed_last _ h.chain c hc hf, h.failure c hc hf⟩
  · intro hnone c hc
    cases hp : c.isProbe with
    | false => rfl
    | true =>
      obtain ⟨_, u, hu, _⟩ := h.probeOnly c hc hp
      rw [hnone] at hu
      cases hu

/-! ## Reverse proxy handler: theorems -/

/-- C11 (as amended): for every registered, non-disabled service that has a schedule
whose mode is `schedule_only` (the mode `ParseSchedule` and the update handler set
from the configured mode) and for which `ShouldBeUp(now)` is false, the proxy
handler answers a request for its host with 503, makes no runtime call, does not
forward the request, and leaves the state and the outside world as they are. -/
theorem C11_schedule_gate_refuses {σ : Type} (rt : Runtime σ)
    (dispatch : σ → URL → Request → σ × Option Nat) (now now2 : Time) (c : Conslee) (w : σ)
    (r : Request) (p : Nat) (sch : ServiceSchedule)
    (hhost : GetByHost c r.Host = some p)
    (henabled : (c.heap p).Config.Disabled = false)
    (hsch : (c.heap p).Schedule = some sch)
    (hmode : sch.Mode = ModeScheduleOnly)
    (hdown : (c.heap p).ShouldBeUp now = false) :
    (ServeHTTP rt dispatch now now2 c w r).status = 503 ∧
    (ServeHTTP rt dispatch now now2 c w r).effects = [] ∧
    (ServeHTTP rt dispatch now now2 c w r).state = c ∧
    (ServeHTTP rt dispatch now now2 c w r).world = w := by
  have e : ServeHTTP rt dispatch now now2 c w r =
      { state := c, world := w, effects := [], status := 503, signature := none,
        location := none } := by
    unfold ServeHTTP
    rw [hhost]
    simp [henabled, hsch, hmode, hdown]
  rw [e]
  exact ⟨rfl, rfl, rfl, rfl⟩

/-- C11 witness: the `office` service (mode `schedule_only`, Mondays 09:00 to
17:00) is refused with 503 on a Tuesday at 10:00. -/
theorem C11_schedule_gate_refuses_witness :
    (ServeHTTP sampleRuntime sampleDispatch (clock Weekday.Tuesday 10 0)
      (clock Weekday.Tuesday 10 0) regOffice [] (sampleRequest "office.local" "")).status = 503 ∧
    (ServeHTTP sampleRuntime sampleDispatch (clock Weekday.Tuesday 10 0)
      (clock Weekday.Tuesday 10 0) regOffice [] (sampleRequest "office.local" "")).effects = [] ∧
    (ServeHTTP sampleRuntime sampleDispatch (clock Weekday.Tuesday 10 0)
      (clock Weekday.Tuesday 10 0) regOffice [] (sampleRequest "office.local" "")).state =
        regOffice ∧
    (ServeHTTP sampleRuntime sampleDispatch (clock Weekday.Tuesday 10 0)
      (clock Weekday.Tuesday 10 0) regOffice [] (sampleRequest "office.local" "")).world = [] :=
  C11_schedule_gate_refuses sampleRuntime sampleDispatch (clock Weekday.Tuesday 10 0)
    (clock Weekday.Tuesday 10 0) regOffice [] (sampleRequest "office.local" "") 0
    { Mode := "schedule_only", Days := [(Weekday.Monday, true)],
      StartMinutes := 540, StopMinutes := 1020 }
    (by decide) (by decide) (by decide) (by decide) (by decide)

/-- C11 counterexample: the service `lazy` is registered, not disabled, configured
with mode `schedule_only` and has no schedule, so `ShouldBeUp` is false at every
time; a request for its host is not answered 503: `ensureRunning` is invoked (it
makes four calls: inspect, start, `waitTCP`, `waitHTTP`), the request is forwarded
and the backend status 200 is returned. -/
theorem C11_unscheduled_service_is_woken :
    GetByHost regLazy "lazy.local" = some 0 ∧
    (regLazy.heap 0).Config.Mode = "schedule_only" ∧
    (regLazy.heap 0).Config.Disabled = false ∧
    (regLazy.heap 0).ShouldBeUp (clock Weekday.Tuesday 10 0) = false ∧
    (ServeHTTP sampleRuntime sampleDispatch (clock Weekday.Tuesday 10 0)
      (clock Weekday.Tuesday 10 0) regLazy [] (sampleRequest "lazy.local" "")).status = 200 ∧
    (ServeHTTP sampleRuntime sampleDispatch (clock Weekday.Tuesday 10 0)
      (clock Weekday.Tuesday 10 0) regLazy [] (sampleRequest "lazy.local" "")).effects.map
        Effect.kind = [EffectKind.ensure 4, EffectKind.touch, EffectKind.dispatch] := by
  decide

/-- C12: for every registered service whose schedule mode, if it has a schedule, is
one of the three modes, and every request that carries the wake-suppression header
(`skipEnsure` holds): a disabled service is answered 503; a non-disabled service
that the schedule gate does not refuse is answered 204 with the response header
`X-Conslee-Service` equal to the service name; in both cases the handler makes no
runtime call, does not forward, and leaves the state (so `LastActivity`) and the
outside world unchanged. -/
theorem C12_non_waking_probe {σ : Type} (rt : Runtime σ)
    (dispatch : σ → URL → Request → σ × Option Nat) (now now2 : Time) (c : Conslee) (w : σ)
    (r : Request) (p : Nat)
    (hhost : GetByHost c r.Host = some p)
    (hprobe : skipEnsure (r.Header.Get probeAllowWakeHeader) = true)
    (hvalid : validMode (c.heap p)) :
    ((c.heap p).Config.Disabled = true →
      (ServeHTTP rt dispatch now now2 c w r).status = 503 ∧
      (ServeHTTP rt dispatch now now2 c w r).signature = none ∧
      (ServeHTTP rt dispatch now now2 c w r).effects = [] ∧
      (ServeHTTP rt dispatch now now2 c w r).state = c ∧
      (ServeHTTP rt dispatch now now2 c w r).world = w) ∧
    ((c.heap p).Config.Disabled = false → ¬ refusedBySchedule (c.heap p) now →
      (ServeHTTP rt dispatch now now2 c w r).status = 204 ∧
      (ServeHTTP rt dispatch now now2 c w r).signature = some (c.heap p).Config.Name ∧
      (ServeHTTP rt dispatch now now2 c w r).effects = [] ∧
      (ServeHTTP rt dispatch now now2 c w r).state = c ∧
      (ServeHTTP rt dispatch now now2 c w r).world = w) := by
  constructor
  · intro hdis
    have e : ServeHTTP rt dispatch now now2 c w r =
        { state := c, world := w, effects := [], status := 503, signature := none,
          location := none } := by
      unfold ServeHTTP
      rw [hhost]
      simp [hdis]
    rw [e]
    exact ⟨rfl, rfl, rfl, rfl, rfl⟩
  · intro hen hgate
    have e : ServeHTTP rt dispatch now now2 c w r =
        { state := c, world := w, effects := [], status := 204,
          signature := some (c.heap p).Config.Name, location := none } := by
      unfold ServeHTTP
      rw [hhost]
      cases hs : (c.heap p).Schedule with
      | none => simp [hen, hs, hprobe, ModeOnDemand, ModeScheduleOnly, ModeBoth]
      | some sch =>
        have hg : ¬ (sch.Mode = ModeScheduleOnly ∧ (c.heap p).ShouldBeUp now = false) :=
          fun h => hgate ⟨sch, hs, h.1, h.2⟩
        have hv := hvalid sch hs
        have hv2 : sch.Mode = ModeScheduleOnly ∨ sch.Mode = ModeBoth ∨ sch.Mode = ModeOnDemand := by
          rcases hv with h | h | h
          · exact Or.inr (Or.inr h)
          · exact Or.inl h
          · exact Or.inr (Or.inl h)
        simp only [hen, hs]
        rw [if_neg (by simp), if_neg hg, if_pos hv2, if_pos hprobe]
    rw [e]
    exact ⟨rfl, rfl, rfl, rfl, rfl⟩

/-- C12 witness: a probe with `X-Conslee-Probe-Allow-Wake: false` for the
on-demand service `a` is answered 204 with the signature `a`, without effects. -/
theorem C12_non_waking_probe_witness :
    (ServeHTTP sampleRuntime sampleDispatch (clock Weekday.Monday 10 0)
      (clock Weekday.Monday 10 0) regA [] (sampleRequest "x.local" "false")).status = 204 ∧
    (ServeHTTP sampleRuntime sampleDispatch (clock Weekday.Monday 10 0)
      (clock Weekday.Monday 10 0) regA [] (sampleRequest "x.local" "false")).signature =
        some (regA.heap 0).Config.Name ∧
    (ServeHTTP sampleRuntime sampleDispatch (clock Weekday.Monday 10 0)
      (clock Weekday.Monday 10 0) regA [] (sampleRequest "x.local" "false")).effects = [] ∧
    (ServeHTTP sampleRuntime sampleDispatch (clock Weekday.Monday 10 0)
      (clock Weekday.Monday 10 0) regA [] (sampleRequest "x.local" "false")).state = regA ∧
    (ServeHTTP sampleRuntime sampleDispatch (clock Weekday.Monday 10 0)
      (clock Weekday.Monday 10 0) regA [] (sampleRequest "x.local" "false")).world = [] :=
  (C12_non_waking_probe sampleRuntime sampleDispatch (clock Weekday.Monday 10 0)
    (clock Weekday.Monday 10 0) regA [] (sampleRequest "x.local" "false") 0
    (by decide) (by decide)
    (by
      intro sch hs
      rw [show (regA.heap 0).Schedule = none by decide] at hs
      cases hs)).2 (by decide)
    (by
      rintro ⟨sch, hs, _⟩
      rw [show (regA.heap 0).Schedule = none by decide] at hs
      cases hs)

/-- C13 (as amended): for every registered, non-disabled service that the schedule
gate does not refuse (schedule mode one of the three modes): the handler suppresses
the wake (answers 204 with no effect) when the value of the header
`X-Conslee-Probe-Allow-Wake`, put in lower case and with surrounding white space
removed, is one of `false`, `0`, `no`; for every other value, and when the header
is absent (`Get` gives the empty string), `ensureRunning` is invoked first.
So `true`, `off` and the empty value wake; `false`, `0`, `no`, `False`, `NO` and
also the padded ` no ` suppress. -/
theorem C13_wake_suppression {σ : Type} (rt : Runtime σ)
    (dispatch : σ → URL → Request → σ × Option Nat) (now now2 : Time) (c : Conslee) (w : σ)
    (r : Request) (p : Nat)
    (hhost : GetByHost c r.Host = some p)
    (henabled : (c.heap p).Config.Disabled = false)
    (hgate : ¬ refusedBySchedule (c.heap p) now)
    (hvalid : validMode (c.heap p)) :
    ((TrimSpace (ToLower (r.Header.Get probeAllowWakeHeader)) = "false" ∨
        TrimSpace (ToLower (r.Header.Get probeAllowWakeHeader)) = "0" ∨
        TrimSpace (ToLower (r.Header.Get probeAllowWakeHeader)) = "no") →
      (ServeHTTP rt dispatch now now2 c w r).status = 204 ∧
      (ServeHTTP rt dispatch now now2 c w r).effects = []) ∧
    (¬ (TrimSpace (ToLower (r.Header.Get probeAllowWakeHeader)) = "false" ∨
        TrimSpace (ToLower (r.Header.Get probeAllowWakeHeader)) = "0" ∨
        TrimSpace (ToLower (r.Header.Get probeAllowWakeHeader)) = "no") →
      ∃ rest, (ServeHTTP rt dispatch now now2 c w r).effects =
        Effect.ensure (ensureRunning rt w (c.heap p)).calls
          (ensureRunning rt w (c.heap p)).result :: rest) ∧
    (Header.Get [] probeAllowWakeHeader = "" ∧
      skipEnsure "" = false ∧ skipEnsure "true" = false ∧ skipEnsure "off" = false ∧
      skipEnsure "false" = true ∧ skipEnsure "0" = true ∧ skipEnsure "no" = true ∧
      skipEnsure "False" = true ∧ skipEnsure "NO" = true ∧ skipEnsure " no " = true) := by
  have hsw : ∀ b : Bool, skipEnsure (r.Header.Get probeAllowWakeHeader) = b →
      ServeHTTP rt dispatch now now2 c w r =
        (if b then
          { state := c, world := w, effects := [], status := 204,
            signature := some (c.heap p).Config.Name, location := none }
        else
          match (ensureRunning rt w (c.heap p)).result with
          | some _ =>
            { state := c, world := (ensureRunning rt w (c.heap p)).world
              effects := [Effect.ensure (ensureRunning rt w (c.heap p)).calls
                (ensureRunning rt w (c.heap p)).result]
              status := 502, signature := none, location := none }
          | none =>
            serveForward dispatch now2 c (ensureRunning rt w (c.heap p)).world p r
              [Effect.ensure (ensureRunning rt w (c.heap p)).calls
                (ensureRunning rt w (c.heap p)).result]) := by
    intro b hb
    unfold ServeHTTP
    rw [hhost]
    cases hs : (c.heap p).Schedule with
    | none =>
      simp only [henabled, hs]
      rw [if_neg (by simp), if_neg (by decide), if_pos (by decide), hb]
    | some sch =>
      have hg : ¬ (sch.Mode = ModeScheduleOnly ∧ (c.heap p).ShouldBeUp now = false) :=
        fun h => hgate ⟨sch, hs, h.1, h.2⟩
      have hv2 : sch.Mode = ModeScheduleOnly ∨ sch.Mode = ModeBoth ∨ sch.Mode = ModeOnDemand := by
        rcases hvalid sch hs with h | h | h
        · exact Or.inr (Or.inr h)
        · exact Or.inl h
        · exact Or.inr (Or.inl h)
      simp only [henabled, hs]
      rw [if_neg (by simp), if_neg hg, if_pos hv2, hb]
  have hiff : skipEnsure (r.Header.Get probeAllowWakeHeader) = true ↔
      (TrimSpace (ToLower (r.Header.Get probeAllowWakeHeader)) = "false" ∨
        TrimSpace (ToLower (r.Header.Get probeAllowWakeHeader)) = "0" ∨
        TrimSpace (ToLower (r.Header.Get probeAllowWakeHeader)) = "no") := by
    simp [skipEnsure, or_assoc]
  refine ⟨?_, ?_, by decide⟩
  · intro h
    rw [hsw true (hiff.mpr h)]
    exact ⟨rfl, rfl⟩
  · intro h
    have hb : skipEnsure (r.Header.Get probeAllowWakeHeader) = false := by
      cases hx : skipEnsure (r.Header.Get probeAllowWakeHeader) with
      | false => rfl
      | true => exact absurd (hiff.mp hx) h
    rw [hsw false hb]
    simp only [Bool.false_eq_true, if_false]
    cases hres : (ensureRunning rt w (c.heap p)).result with
    | some e => exact ⟨[], rfl⟩
    | none =>
      simp only
      unfold serveForward
      cases (c.heap p).Target with
      | none => exact ⟨[], rfl⟩
      | some u =>
        simp only
        rcases dispatch (ensureRunning rt w (c.heap p)).world u r with ⟨w1, _ | st⟩
        · exact ⟨_, rfl⟩
        · exact ⟨_, rfl⟩

/-- C13 witness: a request with `X-Conslee-Probe-Allow-Wake: off` for the service `a`
makes the handler invoke `ensureRunning`. -/
theorem C13_wake_suppression_witness :
    ∃ rest, (ServeHTTP sampleRuntime sampleDispatch (clock Weekday.Monday 10 0)
      (clock Weekday.Monday 10 0) regA [] (sampleRequest "x.local" "off")).effects =
        Effect.ensure (ensureRunning sampleRuntime [] (regA.heap 0)).calls
          (ensureRunning sampleRuntime [] (regA.heap 0)).result :: rest :=
  (C13_wake_suppression sampleRuntime sampleDispatch (clock Weekday.Monday 10 0)
    (clock Weekday.Monday 10 0) regA [] (sampleRequest "x.local" "off") 0
    (by decide) (by decide)
    (by
      rintro ⟨sch, hs, _⟩
      rw [show (regA.heap 0).Schedule = none by decide] at hs
      cases hs)
    (by
      intro sch hs
      rw [show (regA.heap 0).Schedule = none by decide] at hs
      cases hs)).2.1 (by decide)

/-- C13 counterexample: the header value ` no ` (with surrounding spaces) is none of
`false`, `0`, `no` when compared without regard to letter case, yet the handler
suppresses the wake: the answer is 204 and `ensureRunning` is not invoked. -/
theorem C13_padded_value_suppresses :
    ToLower " no " ≠ "false" ∧ ToLower " no " ≠ "0" ∧ ToLower " no " ≠ "no" ∧
    GetByHost regA "x.local" = some 0 ∧
    (regA.heap 0).Config.Disabled = false ∧
    (regA.heap 0).Schedule = none ∧
    (ServeHTTP sampleRuntime sampleDispatch (clock Weekday.Monday 10 0)
      (clock Weekday.Monday 10 0) regA [] (sampleRequest "x.local" " no ")).status = 204 ∧
    (ServeHTTP sampleRuntime sampleDispatch (clock Weekday.Monday 10 0)
      (clock Weekday.Monday 10 0) regA [] (sampleRequest "x.local" " no ")).effects.map
        Effect.kind = [] := by
  decide

/-! ## Idle reaper and scheduler: theorems -/

theorem stopNames_actions {σ : Type} (rt : ContainerRuntime σ) (names : List String) :
    ∀ w : σ, (stopNames rt w names).2.map PassCall.action =
      names.map (fun n => PassAction.stop n 0) := by
  induction names with
  | nil => intro w; rfl
  | cons n rest ih =>
    intro w
    rcases hS : rt.Stop w n 0 with ⟨w1, res⟩
    simp only [stopNames, hS, List.map_cons, ih]
    rfl

theorem scheduleOne_disabled {σ : Type} (rt : ContainerRuntime σ) (now : Time) (w : σ)
    (p : Nat) (svc : ServiceState) (h : svc.Config.Disabled = true ∨ svc.Schedule = none) :
    (scheduleOne rt now w p svc).2 = [] := by
  rcases h with h | h
  · simp [scheduleOne, h]
  · by_cases hd : svc.Config.Disabled = true
    · simp [scheduleOne, hd]
    · simp [scheduleOne, hd, h]

theorem scheduleOne_rule {σ : Type} (rt : ContainerRuntime σ) (now : Time) (w : σ)
    (p : Nat) (svc : ServiceState) (sch : ServiceSchedule)
    (hen : svc.Config.Disabled = false) (hs : svc.Schedule = some sch) :
    (svc.ShouldBeUp now = false → sch.Mode = ModeScheduleOnly →
      (scheduleOne rt now w p svc).2.map PassCall.action =
        (resolveNames svc.Config).map (fun n => PassAction.stop n 0)) ∧
    (svc.ShouldBeUp now = false → sch.Mode ≠ ModeScheduleOnly →
      (scheduleOne rt now w p svc).2 = []) ∧
    (svc.ShouldBeUp now = true → (sch.Mode = ModeScheduleOnly ∨ sch.Mode = ModeBoth) →
      (scheduleOne rt now w p svc).2 = [PassCall.Launch p]) ∧
    (svc.ShouldBeUp now = true → ¬ (sch.Mode = ModeScheduleOnly ∨ sch.Mode = ModeBoth) →
      (scheduleOne rt now w p svc).2 = []) := by
  unfold scheduleOne
  simp only [hen, hs, Bool.false_eq_true, if_false]
  refine ⟨?_, ?_, ?_, ?_⟩
  · intro hd hm
    rw [if_pos hd, if_pos hm]
    exact stopNames_actions rt _ w
  · intro hd hm
    rw [if_pos hd, if_neg hm]
  · intro hu hm
    rw [if_neg (by simp [hu]), if_pos hm]
  · intro hu hm
    rw [if_neg (by simp [hu]), if_neg hm]

theorem scheduleOne_actions_world {σ : Type} (rt : ContainerRuntime σ) (now : Time)
    (w w1 : σ) (p : Nat) (svc : ServiceState) :
    (scheduleOne rt now w p svc).2.map PassCall.action =
      (scheduleOne rt now w1 p svc).2.map PassCall.action := by
  unfold scheduleOne
  by_cases hd : svc.Config.Disabled = true
  · rw [if_pos hd, if_pos hd]
  · rw [if_neg hd, if_neg hd]
    cases svc.Schedule with
    | none => rfl
    | some sch =>
      dsimp only
      by_cases hu : svc.ShouldBeUp now = false
      · rw [if_pos hu, if_pos hu]
        by_cases hm : sch.Mode = ModeScheduleOnly
        · rw [if_pos hm, if_pos hm, stopNames_actions, stopNames_actions]
        · rw [if_neg hm, if_neg hm]
      · rw [if_neg hu, if_neg hu]
        by_cases hm : sch.Mode = ModeScheduleOnly ∨ sch.Mode = ModeBoth
        · rw [if_pos hm, if_pos hm]
        · rw [if_neg hm, if_neg hm]

theorem scheduleServices_actions {σ : Type} (rt : ContainerRuntime σ) (now : Time)
    (heap : Nat → ServiceState) (w0 : σ) (ps : List Nat) :
    ∀ w : σ, (scheduleServices rt now heap w ps).2.map PassCall.action =
      ps.flatMap (fun p => (scheduleOne rt now w0 p (heap p)).2.map PassCall.action) := by
  induction ps with
  | nil => intro w; rfl
  | cons p rest ih =>
    intro w
    simp only [scheduleServices, List.map_append, ih, List.flatMap_cons]
    rw [scheduleOne_actions_world rt now w w0]

theorem stopNames_mem {σ : Type} (rt : ContainerRuntime σ) (names : List String) :
    ∀ (w : σ) (x : PassCall), x ∈ (stopNames rt w names).2 →
      ∃ n res, x = PassCall.Stop n 0 res ∧ n ∈ names := by
  induction names with
  | nil =>
    intro w x hx
    simp [stopNames] at hx
  | cons n rest ih =>
    intro w x hx
    rcases hS : rt.Stop w n 0 with ⟨w1, res⟩
    simp only [stopNames, hS, List.mem_cons] at hx
    rcases hx with rfl | hx
    · exact ⟨n, res, rfl, List.mem_cons_self _ _⟩
    · obtain ⟨m, r2, h1, h2⟩ := ih w1 x hx
      exact ⟨m, r2, h1, List.mem_cons_of_mem _ h2⟩

theorem scheduleOne_stop {σ : Type} (rt : ContainerRuntime σ) (now : Time) (w : σ)
    (p : Nat) (svc : ServiceState) (x : PassCall) (hx : x ∈ (scheduleOne rt now w p svc).2)
    (hstop : x.isStop = true) :
    svc.Config.Disabled = false ∧ svc.ShouldBeUp now = false ∧
    (∃ sch, svc.Schedule = some sch ∧ sch.Mode = ModeScheduleOnly) ∧
    ∃ n res, x = PassCall.Stop n 0 res ∧ n ∈ resolveNames svc.Config := by
  unfold scheduleOne at hx
  by_cases hd : svc.Config.Disabled = true
  · simp [hd] at hx
  · have hd2 : svc.Config.Disabled = false := by simpa using hd
    simp only [hd2, Bool.false_eq_true, if_false] at hx
    cases hs : svc.Schedule with
    | none => simp [hs] at hx
    | some sch =>
      simp only [hs] at hx
      by_cases hu : svc.ShouldBeUp now = false
      · rw [if_pos hu] at hx
        by_cases hm : sch.Mode = ModeScheduleOnly
        · rw [if_pos hm] at hx
          exact ⟨hd2, hu, ⟨sch, rfl, hm⟩, stopNames_mem rt _ w x hx⟩
        · rw [if_neg hm] at hx
          simp at hx
      · rw [if_neg hu] at hx
        by_cases hm : sch.Mode = ModeScheduleOnly ∨ sch.Mode = ModeBoth
        · rw [if_pos hm] at hx
          simp at hx
          subst hx
          simp [PassCall.isStop] at hstop
        · rw [if_neg hm] at hx
          simp at hx

theorem scheduleServices_stop {σ : Type} (rt : ContainerRuntime σ) (now : Time)
    (heap : Nat → ServiceState) (ps : List Nat) :
    ∀ (w : σ) (x : PassCall), x ∈ (scheduleServices rt now heap w ps).2 → x.isStop = true →
      ∃ p ∈ ps, (heap p).Config.Disabled = false ∧ (heap p).ShouldBeUp now = false ∧
        (∃ sch, (heap p).Schedule = some sch ∧ sch.Mode = ModeScheduleOnly) ∧
        ∃ n res, x = PassCall.Stop n 0 res ∧ n ∈ resolveNames (heap p).Config := by
  induction ps with
  | nil =>
    intro w x hx
    simp [scheduleServices] at hx
  | cons p rest ih =>
    intro w x hx hstop
    simp only [scheduleServices, List.mem_append] at hx
    rcases hx with hx | hx
    · exact ⟨p, List.mem_cons_self _ _, scheduleOne_stop rt now w p (heap p) x hx hstop⟩
    · obtain ⟨q, hq, h⟩ := ih _ x hx hstop
      exact ⟨q, List.mem_cons_of_mem _ hq, h⟩

theorem passReplays_append {σ : Type} (rt : ContainerRuntime σ) (xs ys : List PassCall) :
    ∀ (w w1 w2 : σ), PassReplays rt w xs w1 → PassReplays rt w1 ys w2 →
      PassReplays rt w (xs ++ ys) w2 := by
  induction xs with
  | nil =>
    intro w w1 w2 h1 h2
    simp only [PassReplays] at h1
    subst h1
    exact h2
  | cons x rest ih =>
    intro w w1 w2 h1 h2
    obtain ⟨w', hx, hrest⟩ := h1
    exact ⟨w', hx, ih w' w1 w2 hrest h2⟩

theorem stopNames_replays {σ : Type} (rt : ContainerRuntime σ) (names : List String) :
    ∀ w : σ, PassReplays rt w (stopNames rt w names).2 (stopNames rt w names).1 := by
  induction names with
  | nil =>
    intro w
    simp [stopNames, PassReplays]
  | cons n rest ih =>
    intro w
    unfold stopNames
    rcases hS : rt.Stop w n 0 with ⟨w1, res⟩
    exact ⟨w1, hS, ih w1⟩

theorem scheduleOne_replays {σ : Type} (rt : ContainerRuntime σ) (now : Time) (w : σ)
    (p : Nat) (svc : ServiceState) :
    PassReplays rt w (scheduleOne rt now w p svc).2 (scheduleOne rt now w p svc).1 := by
  unfold scheduleOne
  by_cases hd : svc.Config.Disabled = true
  · rw [if_pos hd]
    rfl
  · rw [if_neg hd]
    cases svc.Schedule with
    | none => rfl
    | some sch =>
      dsimp only
      by_cases hu : svc.ShouldBeUp now = false
      · rw [if_pos hu]
        by_cases hm : sch.Mode = ModeScheduleOnly
        · rw [if_pos hm]
          exact stopNames_replays rt _ w
        · rw [if_neg hm]
          rfl
      · rw [if_neg hu]
        by_cases hm : sch.Mode = ModeScheduleOnly ∨ sch.Mode = ModeBoth
        · rw [if_pos hm]
          exact ⟨w, rfl, rfl⟩
        · rw [if_neg hm]
          rfl

theorem scheduleServices_replays {σ : Type} (rt : ContainerRuntime σ) (now : Time)
    (heap : Nat → ServiceState) (ps : List Nat) :
    ∀ w : σ, PassReplays rt w (scheduleServices rt now heap w ps).2
      (scheduleServices rt now heap w ps).1 := by
  induction ps with
  | nil =>
    intro w
    simp [scheduleServices, PassReplays]
  | cons p rest ih =>
    intro w
    simp only [scheduleServices]
    exact passReplays_append rt _ _ _ _ _ (scheduleOne_replays rt now w p (heap p)) (ih _)


/-- C14 (as amended): the schedule pass `runSchedule`, for every runtime, time,
registry and outside world: (1) while it handles a service whose schedule has mode
`both` it issues no stop, and the calls of that step are all the runtime was asked;
(2) the same holds for a service whose configured mode is `both`, its schedule
carrying the configured mode as `ParseSchedule` sets it; (3) every stop of the pass
is the stop, with timeout 0, of a container in the resolved list of a non-disabled
service whose schedule has mode `schedule_only` and for which `ShouldBeUp(now)` is
false; (4) so a container that no `schedule_only` service lists is never stopped by
the pass; (5) in a registry in which no two services list the same container name,
no container of a service of mode `both` is stopped; (6) the calls of the pass are
exactly what the runtime was asked, and the world after the pass is the one the
last call left (`PassReplays`); (7) evaluated: service `a` of mode `both` alone,
outside its window at 20:00 with its container running, gets no call and the
container keeps running. -/
theorem C14_both_never_stopped {σ : Type} (rt : ContainerRuntime σ) (now : Time) (c : Conslee)
    (w : σ) :
    (∀ (w1 : σ) (p : Nat) (svc : ServiceState),
      (∀ sch, svc.Schedule = some sch → sch.Mode = ModeBoth) →
      (∀ x ∈ (scheduleOne rt now w1 p svc).2, x.isStop = false) ∧
      PassReplays rt w1 (scheduleOne rt now w1 p svc).2 (scheduleOne rt now w1 p svc).1) ∧
    (∀ (w1 : σ) (p : Nat) (svc : ServiceState),
      svc.Config.Mode = "both" →
      (∀ sch, svc.Schedule = some sch → sch.Mode = modeOfString svc.Config.Mode) →
      ∀ x ∈ (scheduleOne rt now w1 p svc).2, x.isStop = false) ∧
    (∀ x ∈ (runSchedule rt now c w).2, x.isStop = true →
      ∃ p ∈ All c, (c.heap p).Config.Disabled = false ∧ (c.heap p).ShouldBeUp now = false ∧
        (∃ sch, (c.heap p).Schedule = some sch ∧ sch.Mode = ModeScheduleOnly) ∧
        ∃ n res, x = PassCall.Stop n 0 res ∧ n ∈ resolveNames (c.heap p).Config) ∧
    (∀ n : String,
      (∀ p ∈ All c, ∀ sch, (c.heap p).Schedule = some sch → sch.Mode = ModeScheduleOnly →
        n ∉ resolveNames (c.heap p).Config) →
      ∀ t res, PassCall.Stop n t res ∉ (runSchedule rt now c w).2) ∧
    ((∀ p ∈ All c, ∀ q ∈ All c, p ≠ q →
        ∀ n ∈ resolveNames (c.heap p).Config, n ∉ resolveNames (c.heap q).Config) →
      ∀ q ∈ All c, (∀ sch, (c.heap q).Schedule = some sch → sch.Mode = ModeBoth) →
        ∀ n ∈ resolveNames (c.heap q).Config,
          ∀ t res, PassCall.Stop n t res ∉ (runSchedule rt now c w).2) ∧
    PassReplays rt w (runSchedule rt now c w).2 (runSchedule rt now c w).1 ∧
    runSchedule sampleStopRuntime (clock Weekday.Monday 20 0) createSharedA.1 [" web"] =
      ([" web"], []) := by
  have one : ∀ (w1 : σ) (p : Nat) (svc : ServiceState),
      (∀ sch, svc.Schedule = some sch → sch.Mode = ModeBoth) →
      ∀ x ∈ (scheduleOne rt now w1 p svc).2, x.isStop = false := by
    intro w1 p svc hboth x hx
    cases hst : x.isStop with
    | false => rfl
    | true =>
      obtain ⟨_, _, ⟨sch, hs, hm⟩, _⟩ := scheduleOne_stop rt now w1 p svc x hx hst
      have := hboth sch hs
      rw [hm] at this
      exact absurd this (by decide)
  refine ⟨?_, ?_, ?_, ?_, ?_, scheduleServices_replays rt now c.heap (All c) w, rfl⟩
  · intro w1 p svc hboth
    exact ⟨one w1 p svc hboth, scheduleOne_replays rt now w1 p svc⟩
  · intro w1 p svc hcfg hsync
    apply one
    intro sch hs
    rw [hsync sch hs, hcfg]
    rfl
  · intro x hx hstop
    exact scheduleServices_stop rt now c.heap (All c) w x hx hstop
  · intro n hn t res hmem
    obtain ⟨p, hp, _, _, ⟨sch, hs, hm⟩, m, r2, heq, hin⟩ :=
      scheduleServices_stop rt now c.heap (All c) w _ hmem rfl
    cases heq
    exact hn p hp sch hs hm hin
  · intro hshare q hq hboth n hn t res hmem
    obtain ⟨p, hp, _, _, ⟨sch, hs, hm⟩, m, r2, heq, hin⟩ :=
      scheduleServices_stop rt now c.heap (All c) w _ hmem rfl
    cases heq
    have hpq : p ≠ q := by
      intro h
      rw [h] at hs
      have := hboth sch hs
      rw [hm] at this
      exact absurd this (by decide)
    exact hshare p hp q hq hpq n hin hn

/-- C14 (the claim as stated fails): service `a` with mode `both` and service `b`
with mode `schedule_only` are created, both with the container list `[" web"]`
(each request is answered 201). In the pass of Monday 12:00, inside the window of
`a` and outside the window of `b`, `runSchedule` issues `Stop(" web", 0)` while it
handles `b`: a container of the service `a` of mode `both` is stopped. -/
theorem C14_shared_container_stopped :
    Reachable regShared ∧
    createSharedA.2 = 201 ∧ createSharedB.2 = 201 ∧
    GetByName regShared "a" = some 0 ∧
    (regShared.heap 0).Config.Mode = "both" ∧
    (regShared.heap 0).Schedule.map ServiceSchedule.Mode = some ModeBoth ∧
    " web" ∈ resolveNames (regShared.heap 0).Config ∧
    (runSchedule sampleStopRuntime (clock Weekday.Monday 12 0) regShared [" web"]).2 =
      [PassCall.Stop " web" 0 none, PassCall.Launch 0] ∧
    (runSchedule sampleStopRuntime (clock Weekday.Monday 12 0) regShared [" web"]).1 = [] :=
  ⟨Reachable.create _ _ _ _ (Reachable.create _ _ _ _ Reachable.init), by decide, by decide,
    by decide, by decide, by decide, by decide, rfl, by decide⟩

/-- C16: the rule of the schedule pass. For the loop body on one service: a disabled
service or one without a schedule gets no call; with `ShouldBeUp(now)` false, a
service of mode `schedule_only` gets exactly a stop with timeout 0 for each
container of its resolved list, in order and without any inspect, and a service of
another mode gets no call; with `ShouldBeUp(now)` true, a service of mode
`schedule_only` or `both` gets exactly the launch of `ensureRunning`, and a service
of another mode (`on_demand`) gets no call. The whole pass is the sequence of
these steps over the services of `All()`, whatever the stops answer. The calls of a
step and of the pass are exactly what the runtime was asked: every recorded stop
was issued to the runtime in the world the call before it left, with the recorded
answer, and the world afterwards is the one the last call left (`PassReplays`).
Evaluated on service `office` (Mondays 09:00 to 17:00, container running): on a
Tuesday the pass stops `office-c` and no container runs afterwards; on a Monday at
10:00 it launches `ensureRunning` and asks the runtime nothing. -/
theorem C16_schedule_rule {σ : Type} (rt : ContainerRuntime σ) (now : Time) (c : Conslee)
    (w : σ) :
    (∀ (w1 : σ) (p : Nat) (svc : ServiceState),
      (svc.Config.Disabled = true ∨ svc.Schedule = none) →
      (scheduleOne rt now w1 p svc).2 = []) ∧
    (∀ (w1 : σ) (p : Nat) (svc : ServiceState) (sch : ServiceSchedule),
      svc.Config.Disabled = false → svc.Schedule = some sch →
      (svc.ShouldBeUp now = false → sch.Mode = ModeScheduleOnly →
        (scheduleOne rt now w1 p svc).2.map PassCall.action =
          (resolveNames svc.Config).map (fun n => PassAction.stop n 0)) ∧
      (svc.ShouldBeUp now = false → sch.Mode ≠ ModeScheduleOnly →
        (scheduleOne rt now w1 p svc).2 = []) ∧
      (svc.ShouldBeUp now = true → (sch.Mode = ModeScheduleOnly ∨ sch.Mode = ModeBoth) →
        (scheduleOne rt now w1 p svc).2 = [PassCall.Launch p]) ∧
      (svc.ShouldBeUp now = true → ¬ (sch.Mode = ModeScheduleOnly ∨ sch.Mode = ModeBoth) →
        (scheduleOne rt now w1 p svc).2 = [])) ∧
    (runSchedule rt now c w).2.map PassCall.action =
      (All c).flatMap (fun p => (scheduleOne rt now w p (c.heap p)).2.map PassCall.action) ∧
    (∀ (w1 : σ) (p : Nat) (svc : ServiceState),
      PassReplays rt w1 (scheduleOne rt now w1 p svc).2 (scheduleOne rt now w1 p svc).1) ∧
    PassReplays rt w (runSchedule rt now c w).2 (runSchedule rt now c w).1 ∧
    ((runSchedule sampleStopRuntime (clock Weekday.Tuesday 10 0) regOffice ["office-c"]).2 =
        [PassCall.Stop "office-c" 0 none] ∧
      (runSchedule sampleStopRuntime (clock Weekday.Tuesday 10 0) regOffice ["office-c"]).1 = [] ∧
      (runSchedule sampleStopRuntime (clock Weekday.Monday 10 0) regOffice []).2 =
        [PassCall.Launch 0] ∧
      (runSchedule sampleStopRuntime (clock Weekday.Monday 10 0) regOffice []).1 = []) :=
  ⟨fun w1 p svc h => scheduleOne_disabled rt now w1 p svc h,
    fun w1 p svc sch hen hs => scheduleOne_rule rt now w1 p svc sch hen hs,
    scheduleServices_actions rt now c.heap w (All c) w,
    fun w1 p svc => scheduleOne_replays rt now w1 p svc,
    scheduleServices_replays rt now c.heap (All c) w,
    rfl, by decide, rfl, by decide⟩

/-! ## Facade validation: theorems -/

theorem parseHHMM_unreadable (s : String) (h : ¬ readableHHMM s) : parseHHMM s = 0 := by
  unfold parseHHMM
  by_cases hs : s = ""
  · rw [if_pos hs]
  · rw [if_neg hs]
    split
    · rename_i p0 p1 hsplit
      split
      · rename_i hh mm h0 h1
        split_ifs with hr
        · rfl
        · exfalso
          apply h
          refine ⟨p0, p1, hh, mm, hsplit, h0, h1, ?_, ?_, ?_, ?_⟩ <;> omega
      · rfl
    · rfl

theorem modify_heap_self (c : Conslee) (p : Nat) (f : ServiceState → ServiceState) :
    (c.modify p f).heap p = f (c.heap p) := by
  simp [Conslee.modify]

theorem modify_reg (c : Conslee) (p : Nat) (f : ServiceState → ServiceState) :
    (c.modify p f).reg = c.reg := rfl

theorem updDesiredMode_none (cur : String) (m : Option String)
    (h : updDesiredMode cur m = none) :
    ∃ v, m = some v ∧ v ≠ "" ∧ v ≠ "on_demand" ∧ v ≠ "schedule_only" ∧ v ≠ "both" := by
  unfold updDesiredMode at h
  cases m with
  | none => simp at h
  | some v =>
    dsimp only at h
    by_cases h1 : v = ""
    · rw [if_pos h1] at h
      cases h
    · rw [if_neg h1] at h
      by_cases h2 : v = "on_demand" ∨ v = "schedule_only" ∨ v = "both"
      · rw [if_pos h2] at h
        cases h
      · exact ⟨v, rfl, h1, fun e => h2 (Or.inl e), fun e => h2 (Or.inr (Or.inl e)),
          fun e => h2 (Or.inr (Or.inr e))⟩

theorem updHost_error (c : Conslee) (svc : Nat) (dm : String) (h : Option String) (st : Nat)
    (herr : updHost c svc dm h = .error st) :
    (st = 400 ∧ ∃ raw, h = some raw ∧ TrimSpace raw = "") ∨ st = 409 := by
  unfold updHost at herr
  cases h with
  | none => cases herr
  | some raw =>
    dsimp only at herr
    by_cases h1 : dm ≠ "schedule_only" ∧ TrimSpace raw = ""
    · rw [if_pos h1] at herr
      cases herr
      exact Or.inl ⟨rfl, raw, rfl, h1.2⟩
    · rw [if_neg h1] at herr
      split_ifs at herr
      cases herr
      exact Or.inr rfl

theorem updIdleTimeout_error (lib : Lib) (c : Conslee) (svc : Nat) (v : Option String)
    (st : Nat) (herr : updIdleTimeout lib c svc v = .error st) :
    st = 400 ∧ ∃ d, v = some d ∧ d ≠ "" ∧ lib.ParseDuration d = none := by
  unfold updIdleTimeout at herr
  cases v with
  | none => cases herr
  | some raw =>
    dsimp only at herr
    by_cases h1 : raw = ""
    · rw [if_pos h1] at herr
      cases herr
    · rw [if_neg h1] at herr
      cases hd : lib.ParseDuration raw with
      | none =>
        rw [hd] at herr
        cases herr
        exact ⟨rfl, raw, rfl, h1, hd⟩
      | some d =>
        rw [hd] at herr
        cases herr

theorem updStartupTimeout_error (lib : Lib) (c : Conslee) (svc : Nat) (v : Option String)
    (st : Nat) (herr : updStartupTimeout lib c svc v = .error st) :
    st = 400 ∧ ∃ d, v = some d ∧ d ≠ "" ∧ lib.ParseDuration d = none := by
  unfold updStartupTimeout at herr
  cases v with
  | none => cases herr
  | some raw =>
    dsimp only at herr
    by_cases h1 : raw = ""
    · rw [if_pos h1] at herr
      cases herr
    · rw [if_neg h1] at herr
      cases hd : lib.ParseDuration raw with
      | none =>
        rw [hd] at herr
        cases herr
        exact ⟨rfl, raw, rfl, h1, hd⟩
      | some d =>
        rw [hd] at herr
        cases herr

theorem updTargetURL_error (lib : Lib) (c : Conslee) (svc : Nat) (v : Option String)
    (st : Nat) (herr : updTargetURL lib c svc v = .error st) :
    st = 400 ∧ ∃ u, v = some u ∧ u ≠ "" ∧ lib.urlParse u = none := by
  unfold updTargetURL at herr
  cases v with
  | none => cases herr
  | some raw =>
    dsimp only at herr
    by_cases h1 : raw = ""
    · rw [if_pos h1] at herr
      cases herr
    · rw [if_neg h1] at herr
      cases hd : lib.urlParse raw with
      | none =>
        rw [hd] at herr
        cases herr
        exact ⟨rfl, raw, rfl, h1, hd⟩
      | some d =>
        rw [hd] at herr
        cases herr

theorem updContainers_error (c : Conslee) (svc : Nat) (v : Option (List String)) (st : Nat)
    (herr : updContainers c svc v = .error st) : st = 409 := by
  unfold updContainers at herr
  cases v with
  | none => cases herr
  | some l =>
    dsimp only at herr
    split_ifs at herr
    cases herr
    rfl

theorem updContainers_schedule (c c1 : Conslee) (svc : Nat) (v : Option (List String))
    (hok : updContainers c svc v = .ok c1) :
    (c1.heap svc).Schedule = (c.heap svc).Schedule := by
  unfold updContainers at hok
  cases v with
  | none => cases hok; rfl
  | some l =>
    dsimp only at hok
    split_ifs at hok
    cases hok
    rw [modify_heap_self]

theorem updTargetURL_schedule (lib : Lib) (c c1 : Conslee) (svc : Nat) (v : Option String)
    (hok : updTargetURL lib c svc v = .ok c1) :
    (c1.heap svc).Schedule = (c.heap svc).Schedule := by
  unfold updTargetURL at hok
  cases v with
  | none => cases hok; rfl
  | some raw =>
    dsimp only at hok
    split_ifs at hok
    · cases hok; rfl
    · cases hd : lib.urlParse raw with
      | none => rw [hd] at hok; cases hok
      | some d =>
        rw [hd] at hok
        cases hok
        rw [modify_heap_self]

theorem updHealthPath_schedule (c : Conslee) (svc : Nat) (v : Option String) :
    ((updHealthPath c svc v).heap svc).Schedule = (c.heap svc).Schedule := by
  unfold updHealthPath
  cases v with
  | none => rfl
  | some hp => rw [modify_heap_self]

theorem updStartupTimeout_schedule (lib : Lib) (c c1 : Conslee) (svc : Nat) (v : Option String)
    (hok : updStartupTimeout lib c svc v = .ok c1) :
    (c1.heap svc).Schedule = (c.heap svc).Schedule := by
  unfold updStartupTimeout at hok
  cases v with
  | none => cases hok; rfl
  | some raw =>
    dsimp only at hok
    split_ifs at hok
    · cases hok; rfl
    · cases hd : lib.ParseDuration raw with
      | none => rw [hd] at hok; cases hok
      | some d =>
        rw [hd] at hok
        cases hok
        rw [modify_heap_self]

theorem updSchedule_times (c : Conslee) (svc : Nat) (u : ScheduleUpdate) :
    ∃ sch, ((updSchedule c svc (some u)).heap svc).Schedule = some sch ∧
      (∀ s, u.Start = some s → sch.StartMinutes = parseHHMM s) ∧
      (∀ s, u.Stop = some s → sch.StopMinutes = parseHHMM s) := by
  unfold updSchedule
  dsimp only
  rw [modify_heap_self]
  refine ⟨_, rfl, ?_, ?_⟩
  · intro s hs
    simp [hs]
  · intro s hs
    simp [hs]


theorem update_outcome (lib : Lib) (now : Time) (c : Conslee) (name : String)
    (body : Option UpdateServiceRequest) :
    ((HandleUpdateService lib now c name body).2 = 400 → UpdateRejected lib name body) ∧
    ((HandleUpdateService lib now c name body).2 = 204 →
      ∀ req u, body = some req → req.Schedule = some u →
        ∃ svc sch, GetByName c name = some svc ∧
          ((HandleUpdateService lib now c name body).1.heap svc).Schedule = some sch ∧
          (∀ s, u.Start = some s → sch.StartMinutes = parseHHMM s) ∧
          (∀ s, u.Stop = some s → sch.StopMinutes = parseHHMM s)) := by
  unfold HandleUpdateService
  by_cases h0 : name = ""
  · rw [if_pos h0]
    refine ⟨fun _ => Or.inl h0, fun h => ?_⟩
    simp at h
  rw [if_neg h0]
  cases hget : GetByName c name with
  | none =>
    refine ⟨fun h => ?_, fun h => ?_⟩ <;> simp at h
  | some svc =>
    cases body with
    | none =>
      refine ⟨fun _ => Or.inr (Or.inl rfl), fun h => ?_⟩
      simp at h
    | some req =>
      dsimp only
      cases hm : updDesiredMode (c.heap svc).Config.Mode req.Mode with
      | none =>
        refine ⟨fun _ => Or.inr (Or.inr ⟨req, rfl, Or.inl (updDesiredMode_none _ _ hm)⟩),
          fun h => ?_⟩
        simp at h
      | some dm =>
        obtain ⟨desiredMode, modeChanged⟩ := dm
        dsimp only
        cases hh : updHost c svc desiredMode req.Host with
        | error st =>
          dsimp only
          rcases updHost_error c svc desiredMode req.Host st hh with ⟨rfl, hc⟩ | rfl
          · refine ⟨fun _ => Or.inr (Or.inr ⟨req, rfl, Or.inr (Or.inl hc)⟩), fun h => ?_⟩
            simp at h
          · refine ⟨fun h => ?_, fun h => ?_⟩ <;> simp at h
        | ok c1 =>
          dsimp only
          cases h4 : updIdleTimeout lib
              (updMode (updEnabled c1 svc now req.Enabled) svc modeChanged desiredMode)
              svc req.IdleTimeout with
          | error st =>
            dsimp only
            obtain ⟨rfl, hc⟩ := updIdleTimeout_error lib _ svc _ st h4
            refine ⟨fun _ => Or.inr (Or.inr ⟨req, rfl, Or.inr (Or.inr (Or.inl hc))⟩),
              fun h => ?_⟩
            simp at h
          | ok c4 =>
            dsimp only
            cases h6 : updContainers (updSchedule c4 svc req.Schedule) svc req.Containers with
            | error st =>
              dsimp only
              have := updContainers_error _ svc _ st h6
              subst this
              refine ⟨fun h => ?_, fun h => ?_⟩ <;> simp at h
            | ok c6 =>
              dsimp only
              cases h7 : updTargetURL lib c6 svc req.TargetURL with
              | error st =>
                dsimp only
                obtain ⟨rfl, hc⟩ := updTargetURL_error lib _ svc _ st h7
                refine ⟨fun _ =>
                    Or.inr (Or.inr ⟨req, rfl, Or.inr (Or.inr (Or.inr (Or.inl hc)))⟩),
                  fun h => ?_⟩
                simp at h
              | ok c7 =>
                dsimp only
                cases h9 : updStartupTimeout lib (updHealthPath c7 svc req.HealthPath) svc
                    req.StartupTimeout with
                | error st =>
                  dsimp only
                  obtain ⟨rfl, hc⟩ := updStartupTimeout_error lib _ svc _ st h9
                  refine ⟨fun _ =>
                      Or.inr (Or.inr ⟨req, rfl, Or.inr (Or.inr (Or.inr (Or.inr hc)))⟩),
                    fun h => ?_⟩
                  simp at h
                | ok c9 =>
                  dsimp only
                  refine ⟨fun h => ?_, ?_⟩
                  · simp at h
                  intro _ req2 u hb hu
                  cases hb
                  obtain ⟨sch, hs, ht1, ht2⟩ := updSchedule_times c4 svc u
                  refine ⟨svc, sch, rfl, ?_, ht1, ht2⟩
                  rw [updStartupTimeout_schedule lib _ c9 svc _ h9, updHealthPath_schedule,
                    updTargetURL_schedule lib _ c7 svc _ h7,
                    updContainers_schedule _ c6 svc _ h6, hu]
                  exact hs

theorem createTarget_none (lib : Lib) (req : CreateServiceRequest)
    (h : createTarget lib req = none) : req.TargetURL ≠ "" ∧ lib.urlParse req.TargetURL = none := by
  unfold createTarget at h
  by_cases h1 : req.TargetURL ≠ ""
  · rw [if_pos h1] at h
    refine ⟨h1, ?_⟩
    cases hu : lib.urlParse req.TargetURL with
    | none => rfl
    | some u => rw [hu] at h; cases h
  · rw [if_neg h1] at h
    cases h

theorem create_400 (lib : Lib) (now : Time) (c : Conslee)
    (body : Option CreateServiceRequest)
    (h : (HandleCreateService lib now c body).2 = 400) : CreateRejected lib body := by
  cases body with
  | none => exact Or.inl rfl
  | some req =>
    refine Or.inr ⟨req, rfl, ?_⟩
    by_cases h1 : req.Name = ""
    · exact Or.inl h1
    by_cases h2 : createMode req ≠ "schedule_only" ∧ TrimSpace req.Host = ""
    · exact Or.inr (Or.inl h2)
    by_cases h3 : createMode req ≠ "schedule_only" ∧ req.TargetURL = ""
    · exact Or.inr (Or.inr (Or.inl h3))
    by_cases h4 : (GetByName c req.Name).isSome = true
    · exfalso
      unfold HandleCreateService at h
      dsimp only at h
      rw [if_neg h1, if_neg h2, if_neg h3, if_pos h4] at h
      simp at h
    by_cases h5 : TrimSpace req.Host ≠ "" ∧ (GetByHost c (TrimSpace req.Host)).isSome = true
    · exfalso
      unfold HandleCreateService at h
      dsimp only at h
      rw [if_neg h1, if_neg h2, if_neg h3, if_neg h4, if_pos h5] at h
      simp at h
    by_cases h6 : (FindContainerConflict c req.Containers "").1 ≠ ""
    · exfalso
      unfold HandleCreateService at h
      dsimp only at h
      rw [if_neg h1, if_neg h2, if_neg h3, if_neg h4, if_neg h5, if_pos h6] at h
      simp at h
    unfold HandleCreateService at h
    dsimp only at h
    rw [if_neg h1, if_neg h2, if_neg h3, if_neg h4, if_neg h5, if_neg h6] at h
    cases hidle : lib.ParseDuration (createIdleRaw req) with
    | none => exact Or.inr (Or.inr (Or.inr (Or.inl rfl)))
    | some idle =>
      cases hstart : lib.ParseDuration req.StartupTimeout with
      | none => exact Or.inr (Or.inr (Or.inr (Or.inr (Or.inl rfl))))
      | some startup =>
        cases htarget : createTarget lib req with
        | none =>
          exact Or.inr (Or.inr (Or.inr (Or.inr (Or.inr (createTarget_none lib req htarget)))))
        | some pt =>
          rw [hidle, hstart, htarget] at h
          simp at h

theorem create_201_schedule (lib : Lib) (now : Time) (c : Conslee)
    (body : Option CreateServiceRequest)
    (h : (HandleCreateService lib now c body).2 = 201) (req : CreateServiceRequest)
    (q : ScheduleRequest) (hb : body = some req) (hq : req.Schedule = some q) :
    ∃ p sch, GetByName (HandleCreateService lib now c body).1 req.Name = some p ∧
      ((HandleCreateService lib now c body).1.heap p).Schedule = some sch ∧
      sch.StartMinutes = parseHHMM q.Start ∧ sch.StopMinutes = parseHHMM q.Stop := by
  rcases create_cases lib now c body with ⟨_, hne⟩ | ⟨req2, idle, startup, pt, hb2, _, _, _, _, _, _, _, _, _, heq⟩
  · exact absurd h hne
  · rw [hb] at hb2
    cases hb2
    rw [heq]
    have hheap : (Add (c.alloc (createState req idle startup pt now)).2 (TrimSpace req.Host)
        (c.alloc (createState req idle startup pt now)).1).heap c.next =
        createState req idle startup pt now := by
      simp [Add, Conslee.alloc]
    refine ⟨c.next,
      { Mode := modeOfString (createMode req), Days := q.Days.foldl addDay [],
        StartMinutes := parseHHMM q.Start, StopMinutes := parseHHMM q.Stop }, ?_, ?_, rfl, rfl⟩
    · simp only [GetByName, Add, Conslee.alloc, Function.update_same]
      exact GoMap.get?_set_self _ _ _
    · dsimp only
      rw [hheap]
      simp [createState, createConfig, hq, ParseSchedule]

/-- C17 (the code departs from the claim): service `s` is created with mode
`schedule_only`, no host and no target URL (answer 201); an update that only sets
the mode to `on_demand` is answered 204, and afterwards `s` has mode `on_demand`
with an empty host, an empty target URL and no parsed target. The host check of
`HandleUpdateService` runs only when the request carries a host, and the update
never checks the target URL. -/
theorem C17_mode_change_unchecked :
    Reachable updateBare.1 ∧
    createBare.2 = 201 ∧
    updateBare.2 = 204 ∧
    GetByName updateBare.1 "s" = some 0 ∧
    (createBare.1.heap 0).Config.Mode = "schedule_only" ∧
    (updateBare.1.heap 0).Config.Mode = "on_demand" ∧
    (updateBare.1.heap 0).Config.Host = "" ∧
    (updateBare.1.heap 0).Config.TargetURL = "" ∧
    (updateBare.1.heap 0).Target = none :=
  ⟨Reachable.update _ _ _ _ _ (Reachable.create _ _ _ _ Reachable.init), by decide⟩

/-- C18 (the code departs from the claim): a create request with the mode `bogus` is
answered 201 and the service `m` is stored with the configured mode `bogus`
(`HandleCreateService` only trims the mode and replaces an empty one); the update
handler, on the same registry, answers the mode `bogus` with 400 and changes
nothing. -/
theorem C18_create_accepts_any_mode :
    createBogus.2 = 201 ∧
    GetByName createBogus.1 "m" = some 0 ∧
    (createBogus.1.heap 0).Config.Mode = "bogus" ∧
    (HandleUpdateService sampleLib (clock Weekday.Monday 10 0) createBogus.1 "m"
      (some (sampleSetMode "bogus"))).2 = 400 ∧
    ((HandleUpdateService sampleLib (clock Weekday.Monday 10 0) createBogus.1 "m"
      (some (sampleSetMode "bogus"))).1.heap 0).Config.Mode = "bogus" := by
  decide

/-- C19 (as amended): a malformed schedule time is not rejected. (1) `parseHHMM`
gives 0 for every string that is not two colon-separated integers with an hour in
0..23 and a minute in 0..59. (2) `HandleCreateService` answers 400 only for the
reasons of `CreateRejected`, none of which reads the schedule, and when it answers
201 for a request with a schedule the new service has a parsed schedule whose
start and stop are `parseHHMM` of the requested strings. (3) `HandleUpdateService`
answers 400 only for the reasons of `UpdateRejected`, none of which reads the
schedule, and when it answers 204 for a request with a schedule the service has a
parsed schedule whose start (stop) is `parseHHMM` of the requested start (stop)
string, when the request gives one. -/
theorem C19_malformed_time_read_as_zero (lib : Lib) (now : Time) (c : Conslee) :
    (∀ s, ¬ readableHHMM s → parseHHMM s = 0) ∧
    (∀ body, (HandleCreateService lib now c body).2 = 400 → CreateRejected lib body) ∧
    (∀ body, (HandleCreateService lib now c body).2 = 201 →
      ∀ req q, body = some req → req.Schedule = some q →
        ∃ p sch, GetByName (HandleCreateService lib now c body).1 req.Name = some p ∧
          ((HandleCreateService lib now c body).1.heap p).Schedule = some sch ∧
          sch.StartMinutes = parseHHMM q.Start ∧ sch.StopMinutes = parseHHMM q.Stop) ∧
    (∀ name body, (HandleUpdateService lib now c name body).2 = 400 →
      UpdateRejected lib name body) ∧
    (∀ name body, (HandleUpdateService lib now c name body).2 = 204 →
      ∀ req u, body = some req → req.Schedule = some u →
        ∃ svc sch, GetByName c name = some svc ∧
          ((HandleUpdateService lib now c name body).1.heap svc).Schedule = some sch ∧
          (∀ s, u.Start = some s → sch.StartMinutes = parseHHMM s) ∧
          (∀ s, u.Stop = some s → sch.StopMinutes = parseHHMM s)) :=
  ⟨parseHHMM_unreadable,
    fun body h => create_400 lib now c body h,
    fun body h req q hb hq => create_201_schedule lib now c body h req q hb hq,
    fun name body => (update_outcome lib now c name body).1,
    fun name body => (update_outcome lib now c name body).2⟩

/-- C19 counterexample: the create request for service `t` has the schedule start
`25:00`, a non-empty string that is not a valid time (hour 25), and is answered
201, not 400; the parsed schedule of `t` is created, with start 0 and stop 1020. -/
theorem C19_bad_time_accepted :
    ¬ readableHHMM "25:00" ∧
    createBadTime.2 = 201 ∧
    GetByName createBadTime.1 "t" = some 0 ∧
    (createBadTime.1.heap 0).Schedule =
      some { Mode := "on_demand", Days := [], StartMinutes := 0, StopMinutes := 1020 } := by
  refine ⟨?_, by decide⟩
  rintro ⟨a, b, h, m, hs, ha, _, _, h23, _, _⟩
  rw [show Split "25:00" ':' = ["25", "00"] by decide] at hs
  have ha2 : a = "25" := by
    simp only [List.cons.injEq] at hs
    exact hs.1.symm
  rw [ha2, show Atoi "25" = some 25 by decide] at ha
  cases ha
  omega

/-! ## Forwarded headers: theorems -/

/-- C20 (the code departs from the claim): the inbound request from peer
`3.3.3.3:5555` carries the `X-Forwarded-For` chain `1.1.1.1`, `2.2.2.2` in two
header lines; the peer IP is `3.3.3.3`; `setForwardedHeaders` sets the upstream
`X-Forwarded-For` to `1.1.1.1, 3.3.3.3`: the second inbound value is dropped,
because `Header.Get` returns the first value only. -/
theorem C20_forwarded_for_drops_values :
    twoLineRequest.RemoteAddr ≠ "" ∧
    twoLineRequest.Header.get? "X-Forwarded-For" = some ["1.1.1.1", "2.2.2.2"] ∧
    extractIPFromRemoteAddr sampleSplit twoLineRequest.RemoteAddr = "3.3.3.3" ∧
    (setForwardedHeaders sampleSplit twoLineRequest twoLineRequest).Header.get?
      "X-Forwarded-For" = some ["1.1.1.1, 3.3.3.3"] ∧
    (setForwardedHeaders sampleSplit twoLineRequest
      { twoLineRequest with Header := [] }).Header.get? "X-Forwarded-For" =
        some ["1.1.1.1, 3.3.3.3"] := by
  decide

/-! ## Header copy: theorems -/

theorem isHopByHop_iff (key : String) :
    isHopByHop key = true ↔
      key ∈ ["Connection", "Keep-Alive", "Proxy-Authenticate", "Proxy-Authorization", "Te",
        "Trailers", "Transfer-Encoding", "Upgrade"] := by
  unfold isHopByHop hopByHopHeaders
  simp only [GoMap.get?, List.mem_cons, List.mem_singleton, List.not_mem_nil, or_false]
  constructor
  · intro h
    by_contra hne
    push_neg at hne
    obtain ⟨h1, h2, h3, h4, h5, h6, h7, h8⟩ := hne
    rw [if_neg (Ne.symm h1), if_neg (Ne.symm h2), if_neg (Ne.symm h3), if_neg (Ne.symm h4),
      if_neg (Ne.symm h5), if_neg (Ne.symm h6), if_neg (Ne.symm h7), if_neg (Ne.symm h8)] at h
    simp at h
  · rintro (rfl | rfl | rfl | rfl | rfl | rfl | rfl | rfl) <;> decide

theorem get?_none_of_not_key {κ ν : Type} [DecidableEq κ] (m : GoMap κ ν) (k : κ)
    (h : k ∉ m.map Prod.fst) : m.get? k = none := by
  cases hg : m.get? k with
  | none => rfl
  | some v =>
    exact absurd (List.mem_map.mpr ⟨(k, v), GoMap.mem_of_get? m hg, rfl⟩) h

theorem copyLoop_cons (e : String × List String) (es : List (String × List String))
    (h : Header) :
    copyLoop (e :: es) h =
      copyLoop es (if isHopByHop e.1 then h else GoMap.set h e.1 e.2) := rfl

theorem copyLoop_get?_hop (entries : List (String × List String)) (h : Header) (key : String)
    (hk : isHopByHop key = true) : (copyLoop entries h).get? key = h.get? key := by
  induction entries generalizing h with
  | nil => rfl
  | cons e es ih =>
    rw [copyLoop_cons, ih]
    by_cases he : isHopByHop e.1 = true
    · rw [if_pos he]
    · rw [if_neg he]
      have hne : key ≠ e.1 := by
        intro heq
        rw [heq] at hk
        exact he hk
      exact GoMap.get?_set_ne h e.2 hne

theorem copyLoop_get?_keep (entries : List (String × List String)) (h : Header) (key : String)
    (hwf : GoMap.WF entries) (hk : isHopByHop key = false) :
    (copyLoop entries h).get? key =
      match GoMap.get? entries key with
      | some v => some v
      | none => h.get? key := by
  induction entries generalizing h with
  | nil => rfl
  | cons e es ih =>
    have hwf2 : GoMap.WF es := by
      unfold GoMap.WF at hwf ⊢
      rw [List.map_cons, List.nodup_cons] at hwf
      exact hwf.2
    have hnot : e.1 ∉ es.map Prod.fst := by
      unfold GoMap.WF at hwf
      rw [List.map_cons, List.nodup_cons] at hwf
      exact hwf.1
    rw [copyLoop_cons, ih _ hwf2]
    obtain ⟨k, v⟩ := e
    rw [GoMap.get?_cons]
    by_cases heq : k = key
    · subst heq
      rw [if_pos rfl, get?_none_of_not_key es k hnot]
      simp only [hk, Bool.false_eq_true, if_false]
      exact GoMap.get?_set_self h k v
    · rw [if_neg heq]
      have hstep : GoMap.get? (if isHopByHop k = true then h else GoMap.set h k v) key =
          GoMap.get? h key := by
        by_cases he : isHopByHop k = true
        · rw [if_pos he]
        · rw [if_neg he]
          exact GoMap.get?_set_ne h v (fun x => heq x.symm)
      simp only [hstep]

theorem mem_set {κ ν : Type} [DecidableEq κ] (m : GoMap κ ν) (k : κ) (v : ν) (x : κ × ν)
    (hx : x ∈ GoMap.set m k v) : x = (k, v) ∨ x ∈ m := by
  unfold GoMap.set at hx
  rcases List.mem_cons.mp hx with h | h
  · exact Or.inl h
  · exact Or.inr (List.mem_filter.mp h).1

theorem copyLoop_mem (entries : List (String × List String)) (h : Header)
    (x : String × List String) (hx : x ∈ copyLoop entries h) :
    x ∈ h ∨ (x ∈ entries ∧ isHopByHop x.1 = false) := by
  induction entries generalizing h with
  | nil => exact Or.inl hx
  | cons e es ih =>
    rw [copyLoop_cons] at hx
    rcases ih _ hx with h1 | ⟨h1, h2⟩
    · by_cases he : isHopByHop e.1 = true
      · rw [if_pos he] at h1
        exact Or.inl h1
      · rw [if_neg he] at h1
        rcases mem_set h e.1 e.2 x h1 with h3 | h3
        · right
          rw [h3]
          refine ⟨List.mem_cons_self _ _, ?_⟩
          cases hb : isHopByHop e.1 with
          | false => rfl
          | true => exact absurd hb he
        · exact Or.inl h3
    · exact Or.inr ⟨List.mem_cons_of_mem _ h1, h2⟩

theorem canonical_connection : CanonicalMIMEHeaderKey "Connection" = "Connection" := by decide

theorem canonical_upgrade : CanonicalMIMEHeaderKey "Upgrade" = "Upgrade" := by decide

theorem hop_of_same_name (key : String) (h : isHopByHop key = true) :
    ∃ n ∈ hopByHopNames, sameHeaderName key n := by
  rcases (isHopByHop_iff key).mp h with hk
  simp only [List.mem_cons, List.mem_singleton, List.not_mem_nil, or_false] at hk
  unfold hopByHopNames sameHeaderName
  rcases hk with rfl | rfl | rfl | rfl | rfl | rfl | rfl | rfl
  · exact ⟨"Connection", by decide, by decide⟩
  · exact ⟨"Keep-Alive", by decide, by decide⟩
  · exact ⟨"Proxy-Authenticate", by decide, by decide⟩
  · exact ⟨"Proxy-Authorization", by decide, by decide⟩
  · exact ⟨"TE", by decide, by decide⟩
  · exact ⟨"Trailers", by decide, by decide⟩
  · exact ⟨"Transfer-Encoding", by decide, by decide⟩
  · exact ⟨"Upgrade", by decide, by decide⟩

theorem dropped_is_hop (n : String) (hn : n ∈ droppedNames) :
    isHopByHop (CanonicalMIMEHeaderKey n) = true ∧
      CanonicalMIMEHeaderKey n ≠ "Connection" ∧ CanonicalMIMEHeaderKey n ≠ "Upgrade" := by
  unfold droppedNames at hn
  simp only [List.mem_cons, List.mem_singleton, List.not_mem_nil, or_false] at hn
  rcases hn with rfl | rfl | rfl | rfl | rfl | rfl <;> decide

theorem copyHeaders_header (src dst : Request) :
    (copyHeaders src dst).Header =
      copyUpgrade src (copyConnection src (copyLoop src.Header dst.Header)) := rfl

theorem copyUpgrade_get? (src : Request) (h : Header) (key : String) (hk : key ≠ "Upgrade") :
    (copyUpgrade src h).get? key = h.get? key := by
  unfold copyUpgrade
  by_cases hu : src.Header.Get "Upgrade" ≠ ""
  · rw [if_pos hu]
    unfold Header.Set
    rw [canonical_upgrade]
    exact GoMap.get?_set_ne h _ hk
  · rw [if_neg hu]

theorem copyConnection_get? (src : Request) (h : Header) (key : String)
    (hk : key ≠ "Connection") : (copyConnection src h).get? key = h.get? key := by
  unfold copyConnection
  by_cases hu : src.Header.Get "Connection" ≠ ""
  · rw [if_pos hu]
    unfold Header.Set
    rw [canonical_connection]
    exact GoMap.get?_set_ne h _ hk
  · rw [if_neg hu]

theorem copyUpgrade_mem (src : Request) (h : Header) (x : String × List String)
    (hx : x ∈ copyUpgrade src h) : x.1 = "Upgrade" ∨ x ∈ h := by
  unfold copyUpgrade at hx
  by_cases hu : src.Header.Get "Upgrade" ≠ ""
  · rw [if_pos hu] at hx
    unfold Header.Set at hx
    rw [canonical_upgrade] at hx
    rcases mem_set h _ _ x hx with h1 | h1
    · exact Or.inl (by rw [h1])
    · exact Or.inr h1
  · rw [if_neg hu] at hx
    exact Or.inr hx

theorem copyConnection_mem (src : Request) (h : Header) (x : String × List String)
    (hx : x ∈ copyConnection src h) : x.1 = "Connection" ∨ x ∈ h := by
  unfold copyConnection at hx
  by_cases hu : src.Header.Get "Connection" ≠ ""
  · rw [if_pos hu] at hx
    unfold Header.Set at hx
    rw [canonical_connection] at hx
    rcases mem_set h _ _ x hx with h1 | h1
    · exact Or.inl (by rw [h1])
    · exact Or.inr h1
  · rw [if_neg hu] at hx
    exact Or.inr hx

theorem header_get_of_get? (h : Header) (key v : String) (rest : List String)
    (hg : GoMap.get? h (CanonicalMIMEHeaderKey key) = some (v :: rest)) :
    Header.Get h key = v := by
  unfold Header.Get
  rw [hg]

/-- C21: for every inbound request (a header map with canonical keys, as the
net/http server builds it) and an upstream request whose header is empty,
`copyHeaders` (1) copies every inbound header whose name is not hop-by-hop with all
its values: the upstream values under such a key are the inbound ones; (2) copies
none of Keep-Alive, Proxy-Authenticate, Proxy-Authorization, TE, Trailers,
Transfer-Encoding: no upstream key has one of these names; (3) sets `Connection`,
and likewise `Upgrade`, on the upstream request to the inbound value (`Header.Get`)
whenever that value is not empty, and leaves it unset otherwise. -/
theorem C21_copyHeaders (src dst : Request) (hwf : GoMap.WF src.Header)
    (hcanon : canonicalKeys src.Header) (hempty : dst.Header = []) :
    (∀ key, (∀ n ∈ hopByHopNames, ¬ sameHeaderName key n) →
      (copyHeaders src dst).Header.get? key = src.Header.get? key) ∧
    (∀ n ∈ droppedNames, ∀ e ∈ (copyHeaders src dst).Header, ¬ sameHeaderName e.1 n) ∧
    (src.Header.Get "Connection" ≠ "" →
      (copyHeaders src dst).Header.get? "Connection" = some [src.Header.Get "Connection"] ∧
      (copyHeaders src dst).Header.Get "Connection" = src.Header.Get "Connection") ∧
    (src.Header.Get "Upgrade" ≠ "" →
      (copyHeaders src dst).Header.get? "Upgrade" = some [src.Header.Get "Upgrade"] ∧
      (copyHeaders src dst).Header.Get "Upgrade" = src.Header.Get "Upgrade") ∧
    (src.Header.Get "Connection" = "" → (copyHeaders src dst).Header.get? "Connection" = none) ∧
    (src.Header.Get "Upgrade" = "" → (copyHeaders src dst).Header.get? "Upgrade" = none) := by
  have hconn : isHopByHop "Connection" = true := by decide
  have hupg : isHopByHop "Upgrade" = true := by decide
  have hcu : ("Connection" : String) ≠ "Upgrade" := by decide
  refine ⟨?_, ?_, ?_, ?_, ?_, ?_⟩
  · intro key hkey
    have hk : isHopByHop key = false := by
      cases hb : isHopByHop key with
      | false => rfl
      | true =>
        obtain ⟨n, hn, hs⟩ := hop_of_same_name key hb
        exact absurd hs (hkey n hn)
    have hk1 : key ≠ "Upgrade" := by
      intro h
      rw [h, hupg] at hk
      cases hk
    have hk2 : key ≠ "Connection" := by
      intro h
      rw [h, hconn] at hk
      cases hk
    rw [copyHeaders_header, copyUpgrade_get? _ _ _ hk1, copyConnection_get? _ _ _ hk2,
      copyLoop_get?_keep _ _ _ hwf hk, hempty]
    cases GoMap.get? src.Header key <;> rfl
  · intro n hn e he hs
    obtain ⟨hhop, hn1, hn2⟩ := dropped_is_hop n hn
    unfold sameHeaderName at hs
    rw [copyHeaders_header] at he
    rcases copyUpgrade_mem _ _ _ he with h1 | h1
    · rw [h1, canonical_upgrade] at hs
      exact hn2 hs.symm
    · rcases copyConnection_mem _ _ _ h1 with h2 | h2
      · rw [h2, canonical_connection] at hs
        exact hn1 hs.symm
      · rcases copyLoop_mem _ _ _ h2 with h3 | ⟨h3, h4⟩
        · rw [hempty] at h3
          cases h3
        · rw [hcanon e h3] at hs
          rw [hs, hhop] at h4
          cases h4
  · intro hne
    have hget : (copyHeaders src dst).Header.get? "Connection" =
        some [src.Header.Get "Connection"] := by
      rw [copyHeaders_header, copyUpgrade_get? _ _ _ hcu]
      unfold copyConnection
      rw [if_pos hne]
      unfold Header.Set
      rw [canonical_connection]
      exact GoMap.get?_set_self _ _ _
    exact ⟨hget, header_get_of_get? _ _ _ _ (by rw [canonical_connection]; exact hget)⟩
  · intro hne
    have hget : (copyHeaders src dst).Header.get? "Upgrade" =
        some [src.Header.Get "Upgrade"] := by
      rw [copyHeaders_header]
      unfold copyUpgrade
      rw [if_pos hne]
      unfold Header.Set
      rw [canonical_upgrade]
      exact GoMap.get?_set_self _ _ _
    exact ⟨hget, header_get_of_get? _ _ _ _ (by rw [canonical_upgrade]; exact hget)⟩
  · intro he
    rw [copyHeaders_header, copyUpgrade_get? _ _ _ hcu]
    unfold copyConnection
    rw [if_neg (by simpa using he), copyLoop_get?_hop _ _ _ hconn, hempty]
    rfl
  · intro he
    rw [copyHeaders_header]
    unfold copyUpgrade
    rw [if_neg (by simpa using he)]
    rw [copyConnection_get? _ _ _ (fun h => hcu h.symm), copyLoop_get?_hop _ _ _ hupg, hempty]
    rfl

/-- C21 witness: a WebSocket upgrade request with a cookie and a `Keep-Alive` header;
the upstream request has no `Keep-Alive` header. -/
theorem C21_copyHeaders_witness :
    GoMap.WF upgradeRequest.Header ∧ canonicalKeys upgradeRequest.Header ∧
    (copyHeaders upgradeRequest emptyUpstream).Header.get? "Cookie" = some ["a=1", "b=2"] ∧
    (∀ e ∈ (copyHeaders upgradeRequest emptyUpstream).Header, ¬ sameHeaderName e.1 "Keep-Alive") ∧
    (copyHeaders upgradeRequest emptyUpstream).Header.Get "Upgrade" = "websocket" :=
  ⟨by unfold GoMap.WF; decide, by unfold canonicalKeys; decide, by decide,
    (C21_copyHeaders upgradeRequest emptyUpstream (by unfold GoMap.WF; decide)
      (by unfold canonicalKeys; decide) rfl).2.1 "Keep-Alive" (by decide),
    by decide⟩

/-! ## Container list and conflict check: theorems -/

theorem resolveNames_eq_containerList (cfg : ServiceConfig) :
    resolveNames cfg = containerList cfg := by
  unfold resolveNames containerList
  cases hc : cfg.Containers with
  | nil =>
    by_cases hn : cfg.ContainerName = ""
    · simp [hn]
    · simp [hn]
  | cons a rest => simp

theorem startLoop_head {σ : Type} (rt : Runtime σ) (w : σ) (name : String)
    (rest : List String) (b : Bool) :
    ∃ res, (startLoop rt w (name :: rest) b).calls.head? = some (Call.Inspect name res) := by
  unfold startLoop
  rcases hI : rt.Inspect w name with ⟨w1, e | r⟩
  · exact ⟨_, rfl⟩
  · cases r with
    | true => exact ⟨_, rfl⟩
    | false =>
      rcases hS : rt.Start w1 name with ⟨w2, _ | e⟩
      · simp only [hS]
        exact ⟨_, rfl⟩
      · simp only [hS]
        exact ⟨_, rfl⟩

theorem ensureRunning_head {σ : Type} (rt : Runtime σ) (w : σ) (svc : ServiceState)
    (first : String) (rest : List String) (hl : resolveNames svc.Config = first :: rest) :
    ∃ res, (ensureRunning rt w svc).calls.head? = some (Call.Inspect first res) := by
  obtain ⟨res, hres⟩ := startLoop_head rt w first rest false
  refine ⟨res, ?_⟩
  unfold ensureRunning
  simp only [hl, List.length_cons, Nat.succ_ne_zero, if_false]
  rcases hr : (startLoop rt w (first :: rest) false).result with e | b
  · exact hres
  · cases b with
    | false => exact hres
    | true =>
      simp only [Bool.not_true, Bool.false_eq_true, if_false]
      cases hc : (startLoop rt w (first :: rest) false).calls with
      | nil => rw [hc] at hres; simp at hres
      | cons x xs =>
        rw [hc] at hres
        simpa using hres

theorem error?_ne_noContainers (c : Call) (name : String) :
    c.error? ≠ some (EnsureError.noContainers name) := by
  cases c with
  | Inspect n r => cases r <;> simp [Call.error?]
  | Start n r => cases r <;> simp [Call.error?]
  | WaitTCP hp t r => cases r <;> simp [Call.error?]
  | WaitHTTP u p t r => cases r <;> simp [Call.error?]

theorem noContainers_only_when_empty {σ : Type} (rt : Runtime σ) (w : σ) (svc : ServiceState)
    (name : String) (h : (ensureRunning rt w svc).result = some (EnsureError.noContainers name)) :
    resolveNames svc.Config = [] := by
  have hf := ensureRunning_facts rt w svc
  by_contra hne
  have hnot : ¬ ∀ c ∈ (ensureRunning rt w svc).calls, c.failed = false := by
    intro hall
    have := hf.okIff.mpr ⟨hne, hall⟩
    rw [this] at h
    cases h
  push_neg at hnot
  obtain ⟨c, hc, hfail⟩ := hnot
  have hfail2 : c.failed = true := by
    cases hx : c.failed with
    | true => rfl
    | false => exact absurd hx hfail
  have := hf.failure c hc hfail2
  rw [h] at this
  exact error?_ne_noContainers c name this.symm

/-- C22: `ensureRunning` resolves its container list as the containers list if it
is not empty, otherwise the single legacy container name if that is not empty
(`containerList`): the list the code works on is that list, the containers it
inspects are a leading part of it, all of it when the result is nil, and the first
call is the inspect of its first element. When both are empty the result is the
`no containers` error and no runtime call and no probe is made (the list of calls
is empty and the outside world is unchanged); that error is returned in no other
case. -/
theorem C22_container_resolution {σ : Type} (rt : Runtime σ) (w : σ) (svc : ServiceState) :
    resolveNames svc.Config = containerList svc.Config ∧
    inspectedNames (ensureRunning rt w svc).calls <+: containerList svc.Config ∧
    ((ensureRunning rt w svc).result = none →
      inspectedNames (ensureRunning rt w svc).calls = containerList svc.Config) ∧
    (∀ first rest, containerList svc.Config = first :: rest →
      ∃ res, (ensureRunning rt w svc).calls.head? = some (Call.Inspect first res)) ∧
    (svc.Config.Containers = [] → svc.Config.ContainerName = "" →
      (ensureRunning rt w svc).result = some (EnsureError.noContainers svc.Config.Name) ∧
      (ensureRunning rt w svc).calls = [] ∧ (ensureRunning rt w svc).world = w) ∧
    (∀ name, (ensureRunning rt w svc).result = some (EnsureError.noContainers name) →
      svc.Config.Containers = [] ∧ svc.Config.ContainerName = "") := by
  have hf := ensureRunning_facts rt w svc
  have heq := resolveNames_eq_containerList svc.Config
  refine ⟨heq, ?_, ?_, ?_, ?_, ?_⟩
  · rw [← heq]; exact hf.order
  · rw [← heq]; exact hf.okAll
  · intro first rest hl
    rw [← heq] at hl
    exact ensureRunning_head rt w svc first rest hl
  · intro hc hn
    have hnil : resolveNames svc.Config = [] := by
      rw [heq]; simp [containerList, hc, hn]
    unfold ensureRunning
    simp [hnil]
  · intro name hres
    have hnil := noContainers_only_when_empty rt w svc name hres
    rw [heq] at hnil
    unfold containerList at hnil
    cases hc : svc.Config.Containers with
    | nil =>
      rw [hc] at hnil
      by_cases hn : svc.Config.ContainerName = ""
      · exact ⟨rfl, hn⟩
      · simp [hn] at hnil
    | cons a r =>
      rw [hc] at hnil
      simp at hnil

theorem conflictIn_some (set : List String) (svc : ServiceState) (r : String × String)
    (h : conflictIn set svc = some r) :
    r.1 = svc.Config.Name ∧ r.2 ∈ set ∧ listsContainer svc r.2 := by
  unfold conflictIn at h
  cases hf : svc.Config.Containers.find? (fun ex => decide (ex ∈ set)) with
  | some ex =>
    rw [hf] at h
    simp only [Option.some.injEq] at h
    subst h
    have h1 := List.find?_some hf
    have h2 := List.mem_of_find?_eq_some hf
    exact ⟨rfl, by simpa using h1, Or.inl h2⟩
  | none =>
    rw [hf] at h
    by_cases hc : svc.Config.ContainerName ≠ "" ∧ svc.Config.ContainerName ∈ set
    · simp only [if_pos hc, Option.some.injEq] at h
      subst h
      exact ⟨rfl, hc.2, Or.inr rfl⟩
    · simp only [if_neg hc] at h
      cases h

theorem conflictIn_none (set : List String) (svc : ServiceState)
    (h : conflictIn set svc = none) (x : String) (hx : x ∈ set) (hne : x ≠ "") :
    ¬ listsContainer svc x := by
  unfold conflictIn at h
  cases hf : svc.Config.Containers.find? (fun ex => decide (ex ∈ set)) with
  | some ex =>
    rw [hf] at h
    cases h
  | none =>
    rw [hf] at h
    rintro (hin | heq)
    · have := List.find?_eq_none.mp hf x hin
      simp [hx] at this
    · by_cases hc : svc.Config.ContainerName ≠ "" ∧ svc.Config.ContainerName ∈ set
      · simp only [if_pos hc] at h
        cases h
      · apply hc
        rw [heq]
        exact ⟨hne, hx⟩

theorem mem_trimmed (names : List String) (x : String) :
    x ∈ (names.map TrimSpace).filter (fun n => decide (n ≠ "")) ↔
      ∃ n ∈ names, TrimSpace n ≠ "" ∧ TrimSpace n = x := by
  simp only [List.mem_filter, List.mem_map, decide_eq_true_eq]
  constructor
  · rintro ⟨⟨n, hn, rfl⟩, hne⟩
    exact ⟨n, hn, hne, rfl⟩
  · rintro ⟨n, hn, hne, rfl⟩
    exact ⟨⟨n, hn, rfl⟩, hne⟩

theorem findConflict_cases (c : Conslee) (names : List String) (excludeService : String) :
    (FindContainerConflict c names excludeService = ("", "") ∧
      (names = [] ∨ ∀ p ∈ All c, (c.heap p).Config.Name = excludeService ∨
        conflictIn ((names.map TrimSpace).filter (fun n => decide (n ≠ ""))) (c.heap p) = none)) ∨
    (names ≠ [] ∧ ∃ p ∈ All c, (c.heap p).Config.Name ≠ excludeService ∧
      conflictIn ((names.map TrimSpace).filter (fun n => decide (n ≠ ""))) (c.heap p) =
        some (FindContainerConflict c names excludeService)) := by
  unfold FindContainerConflict
  by_cases hlen : names.length = 0
  · left
    rw [if_pos hlen]
    exact ⟨rfl, Or.inl (List.length_eq_zero.mp hlen)⟩
  · rw [if_neg hlen]
    have hne : names ≠ [] := fun h => hlen (by rw [h]; rfl)
    simp only []
    cases hf : (All c).findSome? (fun p =>
        if (c.heap p).Config.Name = excludeService then none
        else conflictIn ((names.map TrimSpace).filter (fun n => decide (n ≠ ""))) (c.heap p)) with
    | none =>
      left
      refine ⟨rfl, Or.inr ?_⟩
      intro p hp
      have := List.findSome?_eq_none_iff.mp hf p hp
      by_cases hx : (c.heap p).Config.Name = excludeService
      · exact Or.inl hx
      · rw [if_neg hx] at this
        exact Or.inr this
    | some r =>
      right
      obtain ⟨p, hp, hpr⟩ := List.exists_of_findSome?_eq_some hf
      by_cases hx : (c.heap p).Config.Name = excludeService
      · rw [if_pos hx] at hpr
        cases hpr
      · rw [if_neg hx] at hpr
        exact ⟨hne, p, hp, hx, hpr⟩

/-- C23: for every registry whose services all have non-empty names,
`FindContainerConflict names excludeService` returns a non-empty service name if
and only if some service whose name differs from `excludeService` lists, in its
containers or as its legacy container name, the white-space-trimmed form of some
non-blank element of `names`; when the returned service name is not empty it is the
name of such a service and the returned container is that shared name; for the
empty list the answer is the pair of empty strings. -/
theorem C23_conflict_iff (c : Conslee) (names : List String) (excludeService : String)
    (hnames : ∀ p ∈ All c, (c.heap p).Config.Name ≠ "") :
    ((FindContainerConflict c names excludeService).1 ≠ "" ↔
      ∃ p ∈ All c, (c.heap p).Config.Name ≠ excludeService ∧
        ∃ n ∈ names, TrimSpace n ≠ "" ∧ listsContainer (c.heap p) (TrimSpace n)) ∧
    ((FindContainerConflict c names excludeService).1 ≠ "" →
      ∃ p ∈ All c, (c.heap p).Config.Name = (FindContainerConflict c names excludeService).1 ∧
        (c.heap p).Config.Name ≠ excludeService ∧
        listsContainer (c.heap p) (FindContainerConflict c names excludeService).2 ∧
        ∃ n ∈ names, TrimSpace n ≠ "" ∧
          TrimSpace n = (FindContainerConflict c names excludeService).2) ∧
    FindContainerConflict c [] excludeService = ("", "") := by
  have key : (FindContainerConflict c names excludeService).1 ≠ "" →
      ∃ p ∈ All c, (c.heap p).Config.Name = (FindContainerConflict c names excludeService).1 ∧
        (c.heap p).Config.Name ≠ excludeService ∧
        listsContainer (c.heap p) (FindContainerConflict c names excludeService).2 ∧
        ∃ n ∈ names, TrimSpace n ≠ "" ∧
          TrimSpace n = (FindContainerConflict c names excludeService).2 := by
    intro hne
    rcases findConflict_cases c names excludeService with ⟨h0, _⟩ | ⟨_, p, hp, hx, hpr⟩
    · rw [h0] at hne
      exact absurd rfl hne
    · obtain ⟨h1, h2, h3⟩ := conflictIn_some _ _ _ hpr
      exact ⟨p, hp, h1.symm, hx, h3, (mem_trimmed names _).mp h2⟩
  refine ⟨⟨?_, ?_⟩, key, rfl⟩
  · intro hne
    obtain ⟨p, hp, _, hx, hl, n, hn, hnb, hnt⟩ := key hne
    exact ⟨p, hp, hx, n, hn, hnb, by rw [hnt]; exact hl⟩
  · rintro ⟨p, hp, hx, n, hn, hnb, hl⟩
    rcases findConflict_cases c names excludeService with ⟨_, h0 | h0⟩ | ⟨_, q, hq, _, hqr⟩
    · rw [h0] at hn
      cases hn
    · rcases h0 p hp with h1 | h1
      · exact absurd h1 hx
      · exact absurd hl
          (conflictIn_none _ _ h1 _ ((mem_trimmed names _).mpr ⟨n, hn, hnb, rfl⟩) hnb)
    · have h1 := (conflictIn_some _ _ _ hqr).1
      rw [h1]
      exact hnames q hq

/-- C23 witness: in the registry with `a` (container `a-c`) and `b` (container
`b-c`), the request `["  ", " b-c "]` made for `a` conflicts with `b` on `b-c`. -/
theorem C23_conflict_iff_witness :
    (∀ p ∈ All regAB, (regAB.heap p).Config.Name ≠ "") ∧
    FindContainerConflict regAB ["  ", " b-c "] "a" = ("b", "b-c") ∧
    ∃ p ∈ All regAB, (regAB.heap p).Config.Name ≠ "a" ∧
        ∃ n ∈ ["  ", " b-c "], TrimSpace n ≠ "" ∧ listsContainer (regAB.heap p) (TrimSpace n) :=
  ⟨by decide, by decide,
    (C23_conflict_iff regAB ["  ", " b-c "] "a" (by decide)).1.mp (by decide)⟩

/-! ## Activity write: theorems -/

theorem serveForward_shape {σ : Type} (dispatch : σ → URL → Request → σ × Option Nat)
    (now2 : Time) (c : Conslee) (w : σ) (p : Nat) (r : Request) (done : List Effect) :
    ((serveForward dispatch now2 c w p r done).effects = done ∧
      (serveForward dispatch now2 c w p r done).state = c) ∨
    ∃ u a, (c.heap p).Target = some u ∧
      (serveForward dispatch now2 c w p r done).effects =
        done ++ [Effect.touch p now2, Effect.dispatch u a] ∧
      dispatch w u r = ((serveForward dispatch now2 c w p r done).world, a) ∧
      (serveForward dispatch now2 c w p r done).state =
        c.modify p (fun st => { st with LastActivity := now2 }) := by
  unfold serveForward
  cases ht : (c.heap p).Target with
  | none => exact Or.inl ⟨rfl, rfl⟩
  | some u =>
    simp only
    rcases hd : dispatch w u r with ⟨w1, _ | st⟩
    · exact Or.inr ⟨u, none, rfl, rfl, hd, rfl⟩
    · exact Or.inr ⟨u, some st, rfl, rfl, hd, rfl⟩

theorem touchFacts_quiet {σ : Type} (rt : Runtime σ)
    (dispatch : σ → URL → Request → σ × Option Nat) (c : Conslee) (w : σ) (r : Request)
    (now2 : Time) (s : Served σ)
    (he : ∀ e ∈ s.effects, e.kind ≠ EffectKind.touch ∧ e.kind ≠ EffectKind.dispatch)
    (hs : s.state = c) : TouchFacts rt dispatch c w r now2 s :=
  Or.inl ⟨he, hs⟩

theorem touchFacts_after_ensure {σ : Type} (rt : Runtime σ)
    (dispatch : σ → URL → Request → σ × Option Nat) (now2 : Time) (c : Conslee) (w : σ)
    (p : Nat) (r : Request) (hp : GetByHost c r.Host = some p)
    (hen : (c.heap p).Config.Disabled = false)
    (hres : (ensureRunning rt w (c.heap p)).result = none) :
    TouchFacts rt dispatch c w r now2
      (serveForward dispatch now2 c (ensureRunning rt w (c.heap p)).world p r
        [Effect.ensure (ensureRunning rt w (c.heap p)).calls
          (ensureRunning rt w (c.heap p)).result]) := by
  rcases serveForward_shape dispatch now2 c (ensureRunning rt w (c.heap p)).world p r
      [Effect.ensure (ensureRunning rt w (c.heap p)).calls
        (ensureRunning rt w (c.heap p)).result] with ⟨he, hs⟩ | ⟨u, a, ht, he, hd, hs⟩
  · left
    rw [he]
    exact ⟨by simp [Effect.kind], hs⟩
  · right
    refine ⟨p, u, a, hp, hen, ht, Or.inl ⟨hres, ?_, hd⟩, hs, ?_⟩
    · rw [he, hres]
      rfl
    · rw [hs]
      simp [Conslee.modify]

theorem touchFacts_direct {σ : Type} (rt : Runtime σ)
    (dispatch : σ → URL → Request → σ × Option Nat) (now2 : Time) (c : Conslee) (w : σ)
    (p : Nat) (r : Request) (hp : GetByHost c r.Host = some p)
    (hen : (c.heap p).Config.Disabled = false) (hmode : ¬ validMode (c.heap p)) :
    TouchFacts rt dispatch c w r now2 (serveForward dispatch now2 c w p r []) := by
  rcases serveForward_shape dispatch now2 c w p r [] with ⟨he, hs⟩ | ⟨u, a, ht, he, hd, hs⟩
  · left
    rw [he]
    exact ⟨by simp, hs⟩
  · right
    refine ⟨p, u, a, hp, hen, ht, Or.inr ⟨hmode, ?_, hd⟩, hs, ?_⟩
    · rw [he]
      rfl
    · rw [hs]
      simp [Conslee.modify]

theorem serveHTTP_touchFacts {σ : Type} (rt : Runtime σ)
    (dispatch : σ → URL → Request → σ × Option Nat) (now now2 : Time) (c : Conslee) (w : σ)
    (r : Request) :
    TouchFacts rt dispatch c w r now2 (ServeHTTP rt dispatch now now2 c w r) := by
  unfold ServeHTTP
  split
  · split_ifs
    · exact touchFacts_quiet _ _ _ _ _ _ _ (by simp) rfl
    · exact touchFacts_quiet _ _ _ _ _ _ _ (by simp) rfl
  · rename_i p hg
    simp only []
    split_ifs with hd h1 h2 h3
    · exact touchFacts_quiet _ _ _ _ _ _ _ (by simp) rfl
    · exact touchFacts_quiet _ _ _ _ _ _ _ (by simp) rfl
    · exact touchFacts_quiet _ _ _ _ _ _ _ (by simp) rfl
    · split
      · exact touchFacts_quiet _ _ _ _ _ _ _ (by simp [Effect.kind]) rfl
      · rename_i hres
        exact touchFacts_after_ensure rt dispatch now2 c w p r hg (by simpa using hd) hres
    · refine touchFacts_direct rt dispatch now2 c w p r hg (by simpa using hd) ?_
      intro hv
      apply h2
      cases hs : (c.heap p).Schedule with
      | none => exact Or.inr (Or.inr rfl)
      | some sch =>
        rcases hv sch hs with h | h | h
        · exact Or.inr (Or.inr h)
        · exact Or.inl h
        · exact Or.inr (Or.inl h)

/-- C24 (as amended): for every request, either the handler makes no activity write
and no dispatch and leaves the state as it was, or (the forwarding path, for a
registered, enabled service with a target) its effects are exactly: the call of
`ensureRunning`, which returned nil; then the activity write
`svc.LastActivity = time.Now()`; then the upstream dispatch, made in the world
`ensureRunning` left. Only for a schedule whose mode is none of the three constants
(a state the code never stores) is `ensureRunning` not called; the effects are then
the activity write and the dispatch. In both cases the state the handler leaves is
the state right after that write: `LastActivity` is the clock reading taken before
the dispatch and nothing is written once forwarding has returned. -/
theorem C24_activity_written_before_dispatch {σ : Type} (rt : Runtime σ)
    (dispatch : σ → URL → Request → σ × Option Nat) (now now2 : Time) (c : Conslee) (w : σ)
    (r : Request) :
    ((∀ e ∈ (ServeHTTP rt dispatch now now2 c w r).effects,
        e.kind ≠ EffectKind.touch ∧ e.kind ≠ EffectKind.dispatch) ∧
      (ServeHTTP rt dispatch now now2 c w r).state = c) ∨
    ∃ p u a, GetByHost c r.Host = some p ∧ (c.heap p).Config.Disabled = false ∧
      (c.heap p).Target = some u ∧
      (((ensureRunning rt w (c.heap p)).result = none ∧
          (ServeHTTP rt dispatch now now2 c w r).effects =
            [Effect.ensure (ensureRunning rt w (c.heap p)).calls none,
              Effect.touch p now2, Effect.dispatch u a] ∧
          dispatch (ensureRunning rt w (c.heap p)).world u r =
            ((ServeHTTP rt dispatch now now2 c w r).world, a)) ∨
        (¬ validMode (c.heap p) ∧
          (ServeHTTP rt dispatch now now2 c w r).effects =
            [Effect.touch p now2, Effect.dispatch u a] ∧
          dispatch w u r = ((ServeHTTP rt dispatch now now2 c w r).world, a))) ∧
      (ServeHTTP rt dispatch now now2 c w r).state =
        c.modify p (fun st => { st with LastActivity := now2 }) ∧
      ((ServeHTTP rt dispatch now now2 c w r).state.heap p).LastActivity = now2 :=
  serveHTTP_touchFacts rt dispatch now now2 c w r

/-- C24 (the claim as stated fails): a request that wakes service `a` is answered
200 and the effects of the handler are, in order, the `ensureRunning` call, the
activity write and then the dispatch: the write precedes the upstream dispatch, and
`LastActivity` is the clock reading taken before it. -/
theorem C24_touch_precedes_dispatch :
    wakeServed.status = 200 ∧
    wakeServed.effects.map Effect.kind =
      [EffectKind.ensure 4, EffectKind.touch, EffectKind.dispatch] ∧
    (regA.heap 0).LastActivity = clock Weekday.Monday 10 0 ∧
    (wakeServed.state.heap 0).LastActivity = clock Weekday.Monday 10 1 := by
  decide

/-! ## Schedule parsing: theorems -/

theorem parseHHMM_range (s : String) : 0 ≤ parseHHMM s ∧ parseHHMM s < 1440 := by
  unfold parseHHMM
  by_cases hs : s = ""
  · rw [if_pos hs]; decide
  · rw [if_neg hs]
    split
    · split
      · rename_i h m _ _
        by_cases hr : h < 0 ∨ h > 23 ∨ m < 0 ∨ m > 59
        · rw [if_pos hr]; decide
        · rw [if_neg hr]
          push_neg at hr
          omega
      · decide
    · decide

theorem parseHHMM_readable (s a b : String) (h m : Int) (hsplit : Split s ':' = [a, b])
    (ha : Atoi a = some h) (hb : Atoi b = some m) (h0 : 0 ≤ h) (h1 : h ≤ 23) (m0 : 0 ≤ m)
    (m1 : m ≤ 59) : parseHHMM s = h * 60 + m := by
  have hs : s ≠ "" := by
    intro e
    have h0 : Split "" ':' = [""] := by decide
    rw [e, h0] at hsplit
    simp at hsplit
  unfold parseHHMM
  rw [if_neg hs, hsplit]
  simp only [ha, hb]
  have hr : ¬ (h < 0 ∨ h > 23 ∨ m < 0 ∨ m > 59) := by omega
  rw [if_neg hr]

/-- C25: every string parses to a minute-of-day in [0, 1440). `parseHHMM` returns
`h * 60 + m` when the string splits at the colon into two parts that `Atoi` reads
as `h` in 0..23 and `m` in 0..59, and 0 for the empty string and for every other
string (evaluated on `09:30`, `23:59`, `24:00`, `12:60`, `noon`, `10:15:00`); hence
every schedule produced by `ParseSchedule` has start and stop in [0, 1440). -/
theorem C25_minute_of_day :
    (∀ s, 0 ≤ parseHHMM s ∧ parseHHMM s < 1440) ∧
    (∀ s a b h m, Split s ':' = [a, b] → Atoi a = some h → Atoi b = some m →
      0 ≤ h → h ≤ 23 → 0 ≤ m → m ≤ 59 → parseHHMM s = h * 60 + m) ∧
    parseHHMM "" = 0 ∧
    (∀ s, ¬ readableHHMM s → parseHHMM s = 0) ∧
    (parseHHMM "09:30" = 570 ∧ parseHHMM "23:59" = 1439 ∧ parseHHMM "24:00" = 0 ∧
      parseHHMM "12:60" = 0 ∧ parseHHMM "noon" = 0 ∧ parseHHMM "10:15:00" = 0) ∧
    (∀ sc mode sch, ParseSchedule sc mode = some sch →
      (0 ≤ sch.StartMinutes ∧ sch.StartMinutes < 1440) ∧
      (0 ≤ sch.StopMinutes ∧ sch.StopMinutes < 1440)) := by
  refine ⟨parseHHMM_range, ?_, by decide, parseHHMM_unreadable, by decide, ?_⟩
  · intro s a b h m hsplit ha hb h0 h1 m0 m1
    exact parseHHMM_readable s a b h m hsplit ha hb h0 h1 m0 m1
  · intro sc mode sch h
    cases sc with
    | none => simp [ParseSchedule] at h
    | some sc =>
      simp only [ParseSchedule, Option.some.injEq] at h
      subst h
      exact ⟨parseHHMM_range sc.Start, parseHHMM_range sc.Stop⟩

theorem addDay_get (days : GoMap Weekday Bool) (e : String) (d : Weekday) :
    ((addDay days e).get? d).getD false =
      (decide (ToLower e = d.abbreviation) || (days.get? d).getD false) := by
  unfold addDay
  simp only []
  split_ifs with h1 h2 h3 h4 h5 h6 h7 <;> cases d <;>
    first
    | (rw [GoMap.get?_set_self]; simp [Weekday.abbreviation, *])
    | (rw [GoMap.get?_set_ne _ _ (by decide)]; simp [Weekday.abbreviation, *])
    | simp [Weekday.abbreviation, *]

theorem addDay_unrecognised (days : GoMap Weekday Bool) (e : String)
    (h : ∀ d : Weekday, ToLower e ≠ d.abbreviation) : addDay days e = days := by
  unfold addDay
  simp only []
  have h1 : ToLower e ≠ "mon" := h Weekday.Monday
  have h2 : ToLower e ≠ "tue" := h Weekday.Tuesday
  have h3 : ToLower e ≠ "wed" := h Weekday.Wednesday
  have h4 : ToLower e ≠ "thu" := h Weekday.Thursday
  have h5 : ToLower e ≠ "fri" := h Weekday.Friday
  have h6 : ToLower e ≠ "sat" := h Weekday.Saturday
  have h7 : ToLower e ≠ "sun" := h Weekday.Sunday
  rw [if_neg h1, if_neg h2, if_neg h3, if_neg h4, if_neg h5, if_neg h6, if_neg h7]

theorem foldl_addDay_get (es : List String) (days : GoMap Weekday Bool) (d : Weekday) :
    ((es.foldl addDay days).get? d).getD false = true ↔
      (∃ e ∈ es, ToLower e = d.abbreviation) ∨ (days.get? d).getD false = true := by
  induction es generalizing days with
  | nil => simp
  | cons e rest ih =>
    rw [List.foldl_cons, ih, addDay_get]
    simp only [Bool.or_eq_true, decide_eq_true_eq]
    constructor
    · rintro (⟨x, hx, hxe⟩ | he | hd)
      · exact Or.inl ⟨x, List.mem_cons_of_mem _ hx, hxe⟩
      · exact Or.inl ⟨e, List.mem_cons_self _ _, he⟩
      · exact Or.inr hd
    · rintro (⟨x, hx, hxe⟩ | hd)
      · rcases List.mem_cons.mp hx with rfl | hx
        · exact Or.inr (Or.inl hxe)
        · exact Or.inl ⟨x, hx, hxe⟩
      · exact Or.inr (Or.inr hd)

theorem foldl_addDay_unrecognised (es : List String) (days : GoMap Weekday Bool)
    (h : ∀ e ∈ es, ∀ d : Weekday, ToLower e ≠ d.abbreviation) : es.foldl addDay days = days := by
  induction es generalizing days with
  | nil => rfl
  | cons e rest ih =>
    rw [List.foldl_cons, addDay_unrecognised days e (h e (List.mem_cons_self _ _))]
    exact ih days (fun x hx => h x (List.mem_cons_of_mem _ hx))

theorem dayGateOpen_of_no_days (sch : ServiceSchedule) (h : sch.Days = []) (t : Time) :
    dayGateOpen sch t = true := by
  simp [dayGateOpen, h, GoMap.len]

/-- C27: `ParseSchedule` of a nil config is nil. For a config that is not nil the
day set of the schedule contains weekday `d` exactly when the days list has an entry
whose lower-case form (`strings.ToLower`) is the three-letter abbreviation of `d`;
an entry that is no abbreviation adds nothing, so a list made only of such entries
(for example `monday`) gives the empty day set, for which the day gate of
`ShouldBeUp` is open on every weekday. -/
theorem C27_day_set :
    (∀ mode, ParseSchedule none mode = none) ∧
    (∀ days e, (∀ d : Weekday, ToLower e ≠ d.abbreviation) → addDay days e = days) ∧
    (∀ sc mode, ∃ sch, ParseSchedule (some sc) mode = some sch ∧
      (∀ d, sch.hasDay d = true ↔ ∃ e ∈ sc.Days, ToLower e = d.abbreviation) ∧
      ((∀ e ∈ sc.Days, ∀ d : Weekday, ToLower e ≠ d.abbreviation) →
        sch.Days = [] ∧
        ∀ (s : ServiceState) (now : Time), s.Schedule = some sch →
          dayGateOpen sch now = true ∧
          ∀ d : Weekday, s.ShouldBeUp { now with Weekday := d } = s.ShouldBeUp now)) ∧
    (ParseSchedule (some { Days := ["monday"], Start := "09:00", Stop := "17:00" }) "both" =
        some { Mode := ModeBoth, Days := [], StartMinutes := 540, StopMinutes := 1020 } ∧
      ParseSchedule (some { Days := ["MON", "Fri", "weekend", "mon"], Start := "", Stop := "" })
          "on_demand" =
        some { Mode := ModeOnDemand, Days := [(Weekday.Monday, true), (Weekday.Friday, true)],
               StartMinutes := 0, StopMinutes := 0 }) := by
  refine ⟨fun _ => rfl, addDay_unrecognised, ?_, by decide⟩
  intro sc mode
  refine ⟨_, rfl, ?_, ?_⟩
  · intro d
    show ((sc.Days.foldl addDay []).get? d).getD false = true ↔ _
    rw [foldl_addDay_get]
    simp [GoMap.get?]
  · intro h
    have hd : sc.Days.foldl addDay [] = [] := foldl_addDay_unrecognised sc.Days [] h
    refine ⟨hd, ?_⟩
    intro s now hs
    refine ⟨dayGateOpen_of_no_days _ hd now, ?_⟩
    intro d
    rw [shouldBeUp_of_schedule s _ now hs, shouldBeUp_of_schedule s _ _ hs,
      dayGateOpen_of_no_days _ hd, dayGateOpen_of_no_days _ hd]

/-! ## Rejected updates: theorems -/

/-- C26 (the code departs from the claim): the update of service `a` with the host
`z.local` and the idle timeout `soon` is answered 400 (`invalid idleTimeout`), yet
afterwards the host of `a` is `z.local`, the host index has lost `x.local` and maps
`z.local` to `a`: the HOST block had already called `UpdateHost` when the IDLE
TIMEOUT block rejected the request. -/
theorem C26_rejected_update_leaves_writes :
    Reachable regA ∧
    partialUpdate.2 = 400 ∧
    GetByName regA "a" = some 0 ∧
    (regA.heap 0).Config.Host = "x.local" ∧
    GetByHost regA "x.local" = some 0 ∧
    GetByHost regA "z.local" = none ∧
    (partialUpdate.1.heap 0).Config.Host = "z.local" ∧
    GetByHost partialUpdate.1 "x.local" = none ∧
    GetByHost partialUpdate.1 "z.local" = some 0 :=
  ⟨Reachable.create _ _ _ _ Reachable.init, by decide⟩

end Proxy
